import Mathlib

/-!
The heartbeat response parser and the bulk sender of wakatime-cli.

A shallow embedding of `pkg/api/heartbeat.go`, `pkg/project/filter.go`,
`pkg/heartbeat/heartbeat.go`, `pkg/deps/golang.go` and `pkg/deps/swift.go`, and
a verification of the behaviour of the response parser
(`ParseHeartbeatResponses`, `parseHeartbeatResponse`,
`parseHeartbeatResponseError`), of the bulk sender (`SendHeartbeats`,
`sendHeartbeats`, `groupByApiKey`), of the project filter (`Filter`,
`WithFiltering`), of the heartbeat identity (`Heartbeat.ID`) and of the
dependency parsers for Go and Swift (`ParserGo`, `ParserSwift`). Two functions
of which only the tests are at hand, `hideProjectFolder` and `LoadAPIParams`,
are modelled from the specification.

Conventions of the embedding.

* A Go `string` / `[]byte` is a Lean `String`; response bodies are taken to be
  well-formed UTF-8 text.
* A Go slice is a `List`; the nil slice and the empty slice are both `[]`.
* A Go `int` is an `Int` confined to the 64-bit range where it is decoded.
* A Go call that can panic or never return yields a `Run`.
* A Go `(value, error)` return is a pair `α × Option GoError`.
* The dependency parsers work on the tokens the lexer gives; reading and
  tokenising a file enter by their outcome, and the declaration of the parsing
  state of `ParserGo`, which is in another file of the package, is a parameter.
* The standard library (`encoding/json`, `fmt`, `strconv`) is modelled on the
  level of JSON syntax trees; what the model leaves open (the text of library
  error messages, `%q` quoting, the iteration order of maps, the printing of
  non-string values) is a field of `Env`.
-/

namespace Wakatime

/-! ## JSON documents -/

/-- A JSON syntax tree. A number keeps its literal, an object keeps its members
in document order (duplicates included), a string is held unescaped. -/
inductive JSON where
  | null : JSON
  | bool (b : Bool) : JSON
  | num (lit : String) : JSON
  | str (s : String) : JSON
  | arr (elems : List JSON) : JSON
  | obj (members : List (String × JSON)) : JSON
deriving Inhabited, Repr

namespace JSON

/-- The insignificant whitespace of JSON: space, tab, line feed, carriage return. -/
def isSpace (c : Char) : Bool :=
  c == ' ' || c == '\t' || c == '\n' || c == '\r'

/-- Drop leading whitespace. -/
def skipSpace : List Char → List Char
  | [] => []
  | c :: cs => if isSpace c then skipSpace cs else c :: cs

/-- Value of a hexadecimal digit. -/
def hexVal (c : Char) : Option Nat :=
  if '0' ≤ c ∧ c ≤ '9' then some (c.toNat - '0'.toNat)
  else if 'a' ≤ c ∧ c ≤ 'f' then some (c.toNat - 'a'.toNat + 10)
  else if 'A' ≤ c ∧ c ≤ 'F' then some (c.toNat - 'A'.toNat + 10)
  else none

/-- Four hexadecimal digits at the head of the input (`getu4` without the
leading backslash-u). -/
def hex4 : List Char → Option (Nat × List Char)
  | a :: b :: c :: d :: rest =>
    match hexVal a, hexVal b, hexVal c, hexVal d with
    | some x, some y, some z, some w => some (((x * 16 + y) * 16 + z) * 16 + w, rest)
    | _, _, _, _ => none
  | _ => none

/-- The low surrogate escape that may follow a high surrogate escape. -/
def lowSurrogate : List Char → Option (Nat × List Char)
  | '\\' :: 'u' :: rest =>
    match hex4 rest with
    | some (n, rest') => if 0xDC00 ≤ n ∧ n < 0xE000 then some (n, rest') else none
    | none => none
  | _ => none

/-- The body of a string literal after the opening quote: the unescaped text
and the input after the closing quote. A control character, an unknown escape
or a missing closing quote is a syntax error. A surrogate escape that is not
half of a valid pair decodes to U+FFFD. -/
def scanString : Nat → List Char → List Char → Option (String × List Char)
  | 0, _, _ => none
  | _ + 1, _, [] => none
  | _ + 1, acc, '"' :: rest => some (String.mk acc.reverse, rest)
  | fuel + 1, acc, '\\' :: c :: rest =>
    if c = 'u' then
      match hex4 rest with
      | none => none
      | some (n, rest') =>
        if 0xD800 ≤ n ∧ n < 0xDC00 then
          match lowSurrogate rest' with
          | some (m, rest'') =>
            scanString fuel (Char.ofNat (0x10000 + (n - 0xD800) * 0x400 + (m - 0xDC00)) :: acc) rest''
          | none => scanString fuel (Char.ofNat 0xFFFD :: acc) rest'
        else if 0xDC00 ≤ n ∧ n < 0xE000 then scanString fuel (Char.ofNat 0xFFFD :: acc) rest'
        else scanString fuel (Char.ofNat n :: acc) rest'
    else if c = '"' then scanString fuel ('"' :: acc) rest
    else if c = '\\' then scanString fuel ('\\' :: acc) rest
    else if c = '/' then scanString fuel ('/' :: acc) rest
    else if c = 'b' then scanString fuel (Char.ofNat 8 :: acc) rest
    else if c = 'f' then scanString fuel (Char.ofNat 12 :: acc) rest
    else if c = 'n' then scanString fuel ('\n' :: acc) rest
    else if c = 'r' then scanString fuel ('\r' :: acc) rest
    else if c = 't' then scanString fuel ('\t' :: acc) rest
    else none
  | fuel + 1, acc, c :: rest =>
    if c.toNat < 0x20 ∨ c = '\\' then none else scanString fuel (c :: acc) rest

/-- Split off a maximal run of decimal digits. -/
def spanDigits : List Char → List Char × List Char
  | [] => ([], [])
  | c :: cs =>
    if c.isDigit then
      let r := spanDigits cs
      (c :: r.1, r.2)
    else ([], c :: cs)

/-- A number literal at the head of the input, by the JSON grammar
`-? (0 | [1-9][0-9]*) (. [0-9]+)? ([eE] [+-]? [0-9]+)?`; returns the literal. -/
def scanNumber (cs : List Char) : Option (String × List Char) :=
  let (sign, cs1) := match cs with
    | '-' :: r => (['-'], r)
    | _ => ([], cs)
  let intPart : Option (List Char × List Char) := match cs1 with
    | '0' :: r => some (['0'], r)
    | c :: r => if c.isDigit then some (c :: (spanDigits r).1, (spanDigits r).2) else none
    | [] => none
  match intPart with
  | none => none
  | some (ds, cs2) =>
    let frac : Option (List Char × List Char) := match cs2 with
      | '.' :: r =>
        match spanDigits r with
        | ([], _) => none
        | (fs, r') => some ('.' :: fs, r')
      | _ => some ([], cs2)
    match frac with
    | none => none
    | some (fs, cs3) =>
      let expo : Option (List Char × List Char) := match cs3 with
        | e :: r =>
          if e = 'e' ∨ e = 'E' then
            let (sg, r1) := match r with
              | '+' :: t => (['+'], t)
              | '-' :: t => (['-'], t)
              | _ => ([], r)
            match spanDigits r1 with
            | ([], _) => none
            | (es, r') => some (e :: sg ++ es, r')
          else some ([], cs3)
        | [] => some ([], cs3)
      match expo with
      | none => none
      | some (es, cs4) => some (String.mk (sign ++ ds ++ fs ++ es), cs4)

/-- The deepest nesting of arrays and objects the scanner accepts. -/
def maxNestingDepth : Nat := 10000

mutual

/-- One JSON value at the head of the input (leading whitespace allowed). -/
def scanValue : Nat → Nat → List Char → Option (JSON × List Char)
  | 0, _, _ => none
  | fuel + 1, depth, cs =>
    match skipSpace cs with
    | 'n' :: 'u' :: 'l' :: 'l' :: rest => some (JSON.null, rest)
    | 't' :: 'r' :: 'u' :: 'e' :: rest => some (JSON.bool true, rest)
    | 'f' :: 'a' :: 'l' :: 's' :: 'e' :: rest => some (JSON.bool false, rest)
    | '"' :: rest =>
      match scanString (rest.length + 1) [] rest with
      | some (s, rest') => some (JSON.str s, rest')
      | none => none
    | '[' :: rest =>
      if depth + 1 > maxNestingDepth then none
      else
        match skipSpace rest with
        | ']' :: rest' => some (JSON.arr [], rest')
        | _ =>
          match scanElems fuel (depth + 1) rest with
          | some (xs, rest') => some (JSON.arr xs, rest')
          | none => none
    | '{' :: rest =>
      if depth + 1 > maxNestingDepth then none
      else
        match skipSpace rest with
        | '}' :: rest' => some (JSON.obj [], rest')
        | _ =>
          match scanMembers fuel (depth + 1) rest with
          | some (kvs, rest') => some (JSON.obj kvs, rest')
          | none => none
    | c :: rest =>
      if c = '-' ∨ c.isDigit then
        match scanNumber (c :: rest) with
        | some (lit, rest') => some (JSON.num lit, rest')
        | none => none
      else none
    | [] => none

/-- The elements of a non-empty array up to and including the closing bracket. -/
def scanElems : Nat → Nat → List Char → Option (List JSON × List Char)
  | 0, _, _ => none
  | fuel + 1, depth, cs =>
    match scanValue fuel depth cs with
    | none => none
    | some (v, rest) =>
      match skipSpace rest with
      | ',' :: rest' =>
        match scanElems fuel depth rest' with
        | some (vs, rest'') => some (v :: vs, rest'')
        | none => none
      | ']' :: rest' => some ([v], rest')
      | _ => none

/-- The members of a non-empty object up to and including the closing brace. -/
def scanMembers : Nat → Nat → List Char → Option (List (String × JSON) × List Char)
  | 0, _, _ => none
  | fuel + 1, depth, cs =>
    match skipSpace cs with
    | '"' :: rest =>
      match scanString (rest.length + 1) [] rest with
      | none => none
      | some (k, rest1) =>
        match skipSpace rest1 with
        | ':' :: rest2 =>
          match scanValue fuel depth rest2 with
          | none => none
          | some (v, rest3) =>
            match skipSpace rest3 with
            | ',' :: rest4 =>
              match scanMembers fuel depth rest4 with
              | some (kvs, rest5) => some ((k, v) :: kvs, rest5)
              | none => none
            | '}' :: rest4 => some ([(k, v)], rest4)
            | _ => none
        | _ => none
    | _ => none

end

/-- The syntax check and parse of a whole document (`checkValid` followed by
the scan of `json.Unmarshal`): one value, surrounded by whitespace only.
`none` is a syntax error. -/
def scan (data : String) : Option JSON :=
  match scanValue (2 * data.length + 2) 0 data.toList with
  | some (v, rest) =>
    match skipSpace rest with
    | [] => some v
    | _ => none
  | none => none

/-- How `encoding/json` names the kind of a value in a type error. -/
def kindName : JSON → String
  | null => "null"
  | bool _ => "bool"
  | num lit => "number " ++ lit
  | str _ => "string"
  | arr _ => "array"
  | obj _ => "object"

/-- The Go type of the value `encoding/json` stores in an `interface{}` for a
JSON value, as a failed type assertion prints it (a number is taken to be in
the range of `float64`). -/
def goTypeName : JSON → String
  | null => "nil"
  | bool _ => "bool"
  | num _ => "float64"
  | str _ => "string"
  | arr _ => "[]interface {}"
  | obj _ => "map[string]interface {}"

/-- Case folding of one character of an object key, as `encoding/json` folds
keys when it matches them against ASCII field names: ASCII letters go to upper
case, and the two non-ASCII characters whose folding orbit meets ASCII (the
long s U+017F and the Kelvin sign U+212A) go to `S` and `K`. -/
def foldChar (c : Char) : Char :=
  if 'a' ≤ c ∧ c ≤ 'z' then Char.ofNat (c.toNat - 32)
  else if c = Char.ofNat 0x17F then 'S'
  else if c = Char.ofNat 0x212A then 'K'
  else c

/-- Folded form of a key (`foldName`). -/
def foldName (s : String) : String := String.mk (s.toList.map foldChar)

/-- Does an object key select the struct field with this (ASCII) JSON name?
The match is exact or case-insensitive. -/
def keyMatches (field key : String) : Bool := foldName key == foldName field

end JSON

/-! ## Go values, errors and outcomes -/

/-- Outcome of running a Go call: it returns a value, it panics, or it never
returns because it waits on a channel that nobody sends to or closes. -/
inductive Run (α : Type) where
  | returns (v : α) : Run α
  | panics (msg : String) : Run α
  | blocks : Run α
deriving DecidableEq, Repr

/-- An error reported by `encoding/json`: a syntax error, a value of the wrong
kind for the Go type it is decoded into, or an error raised while decoding a
heartbeat field. -/
inductive JsonErr where
  | invalid : JsonErr
  | mismatch (value : String) (goType : String) : JsonErr
  | field (text : String) : JsonErr
deriving DecidableEq, Repr

/-- The error types of the program: a plain `error` made by `fmt.Errorf` or
`errors.New`, and the three error types of package `api`. -/
inductive ErrKind where
  | plain : ErrKind
  | Err : ErrKind
  | ErrAuth : ErrKind
  | ErrBadRequest : ErrKind
deriving DecidableEq, Repr

/-- A non-nil Go `error`: its dynamic type and its message. -/
structure GoError where
  kind : ErrKind
  msg : String
deriving DecidableEq, Repr

/-- An error made by `fmt.Errorf` or `errors.New`. -/
def errorf (msg : String) : GoError := ⟨ErrKind.plain, msg⟩

/-- Result of decoding a JSON value into a struct: success, a type error that
was recorded while decoding went on to the end, or an error that stopped the
decoding. -/
inductive Decoded (α : Type) where
  | ok (v : α) : Decoded α
  | failed (v : α) (e : JsonErr) : Decoded α
  | aborted (e : JsonErr) : Decoded α

/-- The result for one heartbeat (`heartbeat.Result`), over the heartbeat type
`H`: the three fields the parser sets. -/
structure Result (H : Type) where
  status : Int
  errors : List String
  heartbeat : H
deriving DecidableEq, Repr

/-- What the embedding leaves open: the heartbeat type the package is compiled
against (package `api` reads `ApiKey`, which the struct in
`pkg/heartbeat/heartbeat.go` does not declare) with its JSON decoding, and the
library behaviour that is not modelled in detail. -/
structure Env where
  /-- The type `heartbeat.Heartbeat`. -/
  Heartbeat : Type
  /-- The zero value of `heartbeat.Heartbeat`. -/
  zeroHeartbeat : Heartbeat
  /-- The field `ApiKey`. -/
  ApiKey : Heartbeat → String
  /-- Decoding of a non-null JSON value into a `Heartbeat` that holds the given value. -/
  unmarshalHeartbeat : JSON → Heartbeat → Decoded Heartbeat
  /-- The verb `%q` on a string (`strconv.Quote`). -/
  quote : String → String
  /-- The text of an `encoding/json` error. -/
  errText : JsonErr → String
  /-- The text `fmt.Sprint` prints for a decoded JSON value that is not a string. -/
  sprintOther : JSON → String
  /-- The order in which a `range` loop visits the entries of a map. -/
  rangeOrder : List (String × JSON) → List (String × JSON)
  /-- A `range` loop visits every entry exactly once. -/
  rangeOrder_perm : ∀ m, (rangeOrder m).Perm m

/-- The zero value of `heartbeat.Result`. -/
def Env.zeroResult (E : Env) : Result E.Heartbeat :=
  { status := 0, errors := [], heartbeat := E.zeroHeartbeat }

/-! ## `encoding/json` decoding into the types of package `api` -/

namespace JSON

/-- Base-10 `strconv.ParseInt(s, 10, 64)`: an optional sign, at least one
digit, nothing else, and a value in the 64-bit range. -/
def parseInt64 (s : String) : Option Int :=
  let cs := s.toList
  let p : Bool × List Char := match cs with
    | '-' :: r => (true, r)
    | '+' :: r => (false, r)
    | _ => (false, cs)
  if p.2.isEmpty || !(p.2.all Char.isDigit) then none
  else
    let n : Nat := p.2.foldl (fun a c => a * 10 + (c.toNat - '0'.toNat)) 0
    if p.1 then (if n ≤ 2 ^ 63 then some (-(n : Int)) else none)
    else (if n < 2 ^ 63 then some (n : Int) else none)

/-- `json.Unmarshal(raw, &n)` for `n int` holding `cur`: `null` leaves the
value alone, an integer literal in range is stored, anything else is a type
error. -/
def unmarshalInt (raw : JSON) (cur : Int) : Except JsonErr Int :=
  match raw with
  | null => .ok cur
  | num lit =>
    match parseInt64 lit with
    | some n => .ok n
    | none => .error (JsonErr.mismatch (kindName raw) "int")
  | _ => .error (JsonErr.mismatch (kindName raw) "int")

/-- Decoding into one `[]json.RawMessage`: `null` is the nil slice, an array
gives its elements as raw messages, anything else is a type error. -/
def unmarshalRawList (v : JSON) : Except JsonErr (List JSON) :=
  match v with
  | null => .ok []
  | arr xs => .ok xs
  | _ => .error (JsonErr.mismatch (kindName v) "[]json.RawMessage")

/-- Decoding the elements of an array into `[]json.RawMessage` values; the
first type error is the one reported. -/
def unmarshalRawLists : List JSON → Except JsonErr (List (List JSON))
  | [] => .ok []
  | v :: vs =>
    match unmarshalRawList v, unmarshalRawLists vs with
    | .error e, _ => .error e
    | .ok _, .error e => .error e
    | .ok x, .ok xs => .ok (x :: xs)

/-- Decoding into the field `Responses [][]json.RawMessage`. -/
def unmarshalResponsesField (v : JSON) : Except JsonErr (List (List JSON)) :=
  match v with
  | null => .ok []
  | arr xs => unmarshalRawLists xs
  | _ => .error (JsonErr.mismatch (kindName v) "[][]json.RawMessage")

/-- Decoding the members of an object into `struct { Responses ... }` that
holds `cur`: every member whose key selects `responses` is decoded in document
order, the last one decides the value and the first type error is reported. -/
def unmarshalResponsesMembers :
    List (String × JSON) → List (List JSON) → Except JsonErr (List (List JSON))
  | [], cur => .ok cur
  | (k, v) :: rest, cur =>
    if keyMatches "responses" k then
      match unmarshalResponsesField v with
      | .ok r => unmarshalResponsesMembers rest r
      | .error e => .error e
    else unmarshalResponsesMembers rest cur

/-- The call `json.Unmarshal(data, &responsesBody)` on a syntactically valid
document: `null` leaves the struct at its zero value, an object is decoded
member by member, any other value is a type error. -/
def unmarshalResponsesDoc (doc : JSON) : Except JsonErr (List (List JSON)) :=
  match doc with
  | null => .ok []
  | obj members => unmarshalResponsesMembers members []
  | _ => .error (JsonErr.mismatch (kindName doc) "struct")

/-- The call `json.Unmarshal(data, &responsesBody)` on the bytes of a response body. -/
def unmarshalResponses (data : String) : Except JsonErr (List (List JSON)) :=
  match scan data with
  | none => .error JsonErr.invalid
  | some doc => unmarshalResponsesDoc doc

/-- Where a pointer field of a struct under decoding points: at the variable of
the caller, nowhere, or at a value allocated by the decoder. -/
inductive Ptr (α : Type) where
  | var : Ptr α
  | isNil : Ptr α
  | fresh (v : α) : Ptr α

/-- The members of an object decoded into `responseBodyErr{Error: &resultError}`:
returns the final `resultError`. A `null` detaches the pointer from the
variable, a string is stored through the pointer, a value of another kind is a
type error that stores nothing. -/
def unmarshalErrorMembers : List (String × JSON) → Bool → String → String
  | [], _, cur => cur
  | (k, v) :: rest, live, cur =>
    if keyMatches "error" k then
      match v with
      | null => unmarshalErrorMembers rest false cur
      | str s => unmarshalErrorMembers rest live (if live then s else cur)
      | _ => unmarshalErrorMembers rest live cur
    else unmarshalErrorMembers rest live cur

/-- The variable `resultError` after `json.Unmarshal(data, &responseBodyErr{Error: &resultError})`. -/
def unmarshalErrorKey (data : JSON) : String :=
  match data with
  | obj members => unmarshalErrorMembers members true ""
  | _ => ""

/-- Assignment `m[k] = v` on a map held as an association list with distinct keys. -/
def mapSet : List (String × JSON) → String → JSON → List (String × JSON)
  | [], k, v => [(k, v)]
  | (k', v') :: rest, k, v => if k' = k then (k, v) :: rest else (k', v') :: mapSet rest k v

/-- Decoding of an object into an existing `map[string]interface{}`: the
members are assigned in document order. -/
def mapSetAll (m : List (String × JSON)) (members : List (String × JSON)) : List (String × JSON) :=
  members.foldl (fun acc kv => mapSet acc kv.1 kv.2) m

/-- The members of an object decoded into `responseBodyErr{Errors: &resultErrors}`:
returns the final `resultErrors` (`none` is the nil map). A `null` detaches the
pointer from the variable, an object is decoded into the map (made on first
use), a value of another kind is a type error that stores nothing. -/
def unmarshalErrorsMembers :
    List (String × JSON) → Bool → Option (List (String × JSON)) → Option (List (String × JSON))
  | [], _, cur => cur
  | (k, v) :: rest, live, cur =>
    if keyMatches "errors" k then
      match v with
      | null => unmarshalErrorsMembers rest false cur
      | obj fields =>
        unmarshalErrorsMembers rest live (if live then some (mapSetAll (cur.getD []) fields) else cur)
      | _ => unmarshalErrorsMembers rest live cur
    else unmarshalErrorsMembers rest live cur

/-- The variable `resultErrors` after `json.Unmarshal(data, &responseBodyErr{Errors: &resultErrors})`. -/
def unmarshalErrorsKey (data : JSON) : Option (List (String × JSON)) :=
  match data with
  | obj members => unmarshalErrorsMembers members true none
  | _ => none

end JSON

open JSON

/-- The members of an object decoded into `responseBody{Data: &result.Heartbeat}`:
`h` is the caller's heartbeat, `p` the state of the pointer `Data`. A `null`
sets the pointer to nil; another value is decoded into what the pointer points
at, a nil pointer being given a newly allocated zero heartbeat first. -/
def unmarshalDataMembers (E : Env) :
    List (String × JSON) → E.Heartbeat → Ptr E.Heartbeat → Option JsonErr → Except JsonErr E.Heartbeat
  | [], h, _, saved =>
    match saved with
    | none => .ok h
    | some e => .error e
  | (k, v) :: rest, h, p, saved =>
    if keyMatches "data" k then
      match v with
      | JSON.null => unmarshalDataMembers E rest h Ptr.isNil saved
      | _ =>
        match p with
        | Ptr.var =>
          match E.unmarshalHeartbeat v h with
          | Decoded.ok h' => unmarshalDataMembers E rest h' Ptr.var saved
          | Decoded.failed h' e => unmarshalDataMembers E rest h' Ptr.var (saved.orElse fun _ => some e)
          | Decoded.aborted e => .error e
        | Ptr.isNil =>
          match E.unmarshalHeartbeat v E.zeroHeartbeat with
          | Decoded.ok f => unmarshalDataMembers E rest h (Ptr.fresh f) saved
          | Decoded.failed f e => unmarshalDataMembers E rest h (Ptr.fresh f) (saved.orElse fun _ => some e)
          | Decoded.aborted e => .error e
        | Ptr.fresh f =>
          match E.unmarshalHeartbeat v f with
          | Decoded.ok f' => unmarshalDataMembers E rest h (Ptr.fresh f') saved
          | Decoded.failed f' e => unmarshalDataMembers E rest h (Ptr.fresh f') (saved.orElse fun _ => some e)
          | Decoded.aborted e => .error e
    else unmarshalDataMembers E rest h p saved

/-- The call `json.Unmarshal(data[0], &responseBody{Data: &result.Heartbeat})`
with `result.Heartbeat` holding `h`. -/
def unmarshalResponseBody (E : Env) (body : JSON) (h : E.Heartbeat) : Except JsonErr E.Heartbeat :=
  match body with
  | JSON.null => .ok h
  | JSON.obj members => unmarshalDataMembers E members h Ptr.var none
  | _ => .error (JsonErr.mismatch (kindName body) "api.responseBody")

/-! ## The response parser (`pkg/api/heartbeat.go`) -/

namespace api

/-- The text `fmt.Sprint(v)` for one decoded message. -/
def fmtSprint (E : Env) (v : JSON) : String :=
  match v with
  | JSON.str s => s
  | _ => E.sprintOther v

/-- The elements of an array value (none for a value of another kind). -/
def elemsOf : JSON → List JSON
  | JSON.arr ms => ms
  | _ => []

/-- The entry built for one field of the `errors` object: the field name, a
colon and a space, then the messages of the field joined by single spaces. -/
def fieldEntry (E : Env) (kv : String × JSON) : String :=
  kv.1 ++ ": " ++ " ".intercalate ((elemsOf kv.2).map (fmtSprint E))

/-- The loop `for field, messages := range resultErrors` of
`parseHeartbeatResponseError`, over the entries in the order of the visit,
with `errs` the strings collected so far. The assertion
`messages.([]interface{})` panics on a value that is not an array. -/
def errorEntries (E : Env) : List (String × JSON) → List String → Run (List String)
  | [], errs => Run.returns errs
  | (field, messages) :: rest, errs =>
    if field = "dependencies" then errorEntries E rest errs
    else
      match messages with
      | JSON.arr ms =>
        errorEntries E rest
          (errs ++ [field ++ ": " ++ " ".intercalate (ms.map (fmtSprint E))])
      | _ =>
        Run.panics ("interface conversion: interface {} is " ++ goTypeName messages
          ++ ", not []interface {}")

/-- The function `parseHeartbeatResponseError`: parses one error of the aggregated
responses returned by the heartbeat bulk endpoint. -/
def parseHeartbeatResponseError (E : Env) (data : JSON) : Run (List String × Option GoError) :=
  -- 1. try "error" key
  let resultError := unmarshalErrorKey data
  if resultError ≠ "" then Run.returns ([resultError], none)
  else
    -- 2. try "errors" key
    match unmarshalErrorsKey data with
    | none =>
      Run.returns ([], some (errorf "failed to detect any errors despite invalid response status"))
    | some resultErrors =>
      match errorEntries E (E.rangeOrder resultErrors) [] with
      | Run.returns errs => Run.returns (errs, none)
      | Run.panics m => Run.panics m
      | Run.blocks => Run.blocks

/-- The function `parseHeartbeatResponse`: parses one response of the aggregated
responses returned by the heartbeat bulk endpoint. Indexing `data[1]` panics
on a slice of fewer than two elements. -/
def parseHeartbeatResponse (E : Env) (data : List JSON) :
    Run (Result E.Heartbeat × Option GoError) :=
  match data with
  | d0 :: d1 :: _ =>
    match unmarshalInt d1 0 with
    | .error err =>
      Run.returns (E.zeroResult, some (errorf ("failed to parse json status: " ++ E.errText err)))
    | .ok status =>
      if status ≥ 400 then
        match parseHeartbeatResponseError E d0 with
        | Run.returns (_, some err) =>
          Run.returns (E.zeroResult, some (errorf ("failed to parse result errors: " ++ err.msg)))
        | Run.returns (resultErrors, none) =>
          Run.returns ({ status := status, errors := resultErrors, heartbeat := E.zeroHeartbeat }, none)
        | Run.panics m => Run.panics m
        | Run.blocks => Run.blocks
      else
        match unmarshalResponseBody E d0 E.zeroHeartbeat with
        | .error err =>
          Run.returns (E.zeroResult, some (errorf ("failed to parse json heartbeat: " ++ E.errText err)))
        | .ok h => Run.returns ({ status := status, errors := [], heartbeat := h }, none)
  | _ =>
    Run.panics ("runtime error: index out of range [1] with length " ++ toString data.length)

/-- The loop of `ParseHeartbeatResponses` over the entries that are left, `n`
being the index of the next entry and `results` the results appended so far. -/
def parseLoop (E : Env) (data : String) :
    List (List JSON) → Nat → List (Result E.Heartbeat) → Run (List (Result E.Heartbeat) × Option GoError)
  | [], _, results => Run.returns (results, none)
  | r :: rest, n, results =>
    match parseHeartbeatResponse E r with
    | Run.returns (_, some err) =>
      Run.returns ([], some (errorf ("failed parsing result #" ++ toString n ++ ": " ++ err.msg
        ++ ". body: " ++ E.quote data)))
    | Run.returns (result, none) => parseLoop E data rest (n + 1) (results ++ [result])
    | Run.panics m => Run.panics m
    | Run.blocks => Run.blocks

/-- The function `ParseHeartbeatResponses`: parses the aggregated responses returned
by the heartbeat bulk endpoint. -/
def ParseHeartbeatResponses (E : Env) (data : String) :
    Run (List (Result E.Heartbeat) × Option GoError) :=
  match unmarshalResponses data with
  | .error err =>
    Run.returns ([], some (errorf ("failed to parse json response body: " ++ E.errText err
      ++ ". body: " ++ E.quote data)))
  | .ok responses => parseLoop E data responses 0 []

/-! ## The bulk sender (`pkg/api/heartbeat.go`) -/

/-- An HTTP request as `sendHeartbeats` builds it. -/
structure Request where
  method : String
  url : String
  header : List (String × String)
  body : String
deriving DecidableEq, Repr

/-- An HTTP response as `sendHeartbeats` reads it: the status code and the
outcome of `io.ReadAll(resp.Body)` (the body, or the text of a read error). -/
structure Response where
  statusCode : Int
  body : Except String String

/-- The client and the network, which the source leaves to other files: the
type `Client` with its base URL and its method `Do`, the option `WithAuth`,
`json.Marshal` on a batch and the check made by `http.NewRequest`. -/
structure Http (E : Env) where
  /-- The type `api.Client`. -/
  Client : Type
  /-- The field `baseURL`. -/
  baseURL : Client → String
  /-- The call `json.Marshal(heartbeats)`: the bytes, or the text of the error. -/
  marshal : List E.Heartbeat → Except String String
  /-- The error `http.NewRequest` reports for a POST to this URL, if any. -/
  newRequestErr : String → Option String
  /-- The call `c.Do(req)`: the response, or the text of the error. -/
  doReq : Client → Request → Except String Response
  /-- The call `WithAuth(BasicAuth{Secret: apiKey})`: an option to apply to a client, or an error. -/
  withAuth : String → Except GoError (Client → Client)

/-- The method `sendHeartbeats`; the pair returned is the value sent on
`chresults` and the value sent on `cherr`. -/
def sendHeartbeats (E : Env) (N : Http E) (c : N.Client) (url : String)
    (heartbeats : List E.Heartbeat) : Run (List (Result E.Heartbeat) × Option GoError) :=
  match N.marshal heartbeats with
  | .error err => Run.returns ([], some (errorf ("failed to json encode body: " ++ err)))
  | .ok data =>
    match N.newRequestErr url with
    | some err => Run.returns ([], some (errorf ("failed to create request: " ++ err)))
    | none =>
      let req : Request :=
        { method := "POST", url := url, header := [("Content-Type", "application/json")],
          body := data }
      match N.doReq c req with
      | .error err =>
        Run.returns ([], some ⟨ErrKind.Err, "failed making request to " ++ E.quote url ++ ": " ++ err⟩)
      | .ok resp =>
        match resp.body with
        | .error err =>
          Run.returns ([], some ⟨ErrKind.Err,
            "failed reading response body from " ++ E.quote url ++ ": " ++ err⟩)
        | .ok body =>
          if resp.statusCode = 201 ∨ resp.statusCode = 202 then
            match ParseHeartbeatResponses E body with
            | Run.returns (_, some err) =>
              Run.returns ([], some ⟨ErrKind.Err,
                "failed parsing results from " ++ E.quote url ++ ": " ++ err.msg⟩)
            | Run.returns (results, none) => Run.returns (results, none)
            | Run.panics m => Run.panics m
            | Run.blocks => Run.blocks
          else if resp.statusCode = 401 then
            Run.returns ([], some ⟨ErrKind.ErrAuth, "authentication failed at " ++ E.quote url⟩)
          else if resp.statusCode = 400 then
            Run.returns ([], some ⟨ErrKind.ErrBadRequest, "bad request at " ++ E.quote url⟩)
          else
            Run.returns ([], some ⟨ErrKind.Err,
              "invalid response status from " ++ E.quote url ++ ". got: "
                ++ toString resp.statusCode ++ ", want: " ++ toString (201 : Int) ++ "/"
                ++ toString (202 : Int) ++ ". body: " ++ E.quote body⟩)

/-- The statement `grouped[k] = append(grouped[k], h)` on a map held as an
association list with distinct keys. -/
def groupAppend {H : Type} : List (String × List H) → String → H → List (String × List H)
  | [], k, h => [(k, [h])]
  | (k', hs) :: rest, k, h =>
    if k' = k then (k', hs ++ [h]) :: rest else (k', hs) :: groupAppend rest k h

/-- The function `groupByApiKey`. -/
def groupByApiKey (E : Env) (hh : List E.Heartbeat) : List (String × List E.Heartbeat) :=
  hh.foldl (fun grouped h => groupAppend grouped (E.ApiKey h) h) []

/-- One interleaving of the tasks of the fan-out, reduced to what the caller
can observe. Groups are numbered by their position in `groupByApiKey`. -/
structure Sched where
  /-- The groups in the order in which their tasks send on `cherr`. -/
  arrival : List Nat
  /-- For the task of a group: the groups whose auth option had been applied to
  the shared client, in order of application, when the task made its request. -/
  authsSeen : Nat → List Nat

/-- The shared client after the auth options of the given groups were applied. -/
def applyAuths (E : Env) (N : Http E) (grouped : List (String × List E.Heartbeat))
    (c : N.Client) (gs : List Nat) : N.Client :=
  gs.foldl (fun c g =>
    match grouped[g]? with
    | some (apiKey, _) =>
      match N.withAuth apiKey with
      | .ok auth => auth c
      | .error _ => c
    | none => c) c

/-- The task started for one group (the body of the `go func`); the pair
returned is the value sent on `chres` and the value sent on `cherr`. -/
def task (E : Env) (N : Http E) (s : Sched) (c : N.Client) (url : String)
    (grouped : List (String × List E.Heartbeat)) (g : Nat) (apiKey : String)
    (hh : List E.Heartbeat) : Run (List (Result E.Heartbeat) × Option GoError) :=
  match N.withAuth apiKey with
  | .error err => Run.returns ([], some err)
  | .ok _ => sendHeartbeats E N (applyAuths E N grouped c (s.authsSeen g)) url hh

/-- The message of the first task that panicked, if any. -/
def firstPanic {α : Type} : List (Run α) → Option String
  | [] => none
  | Run.panics m :: _ => some m
  | _ :: rest => firstPanic rest

/-- The value a finished task sent on `cherr`. -/
def sentError {α : Type} : Run (α × Option GoError) → Option GoError
  | Run.returns (_, err) => err
  | _ => none

/-- The loop `for err := range cherr` after `wg.Wait()`, over the values
buffered in the channel: the first non-nil error is returned with nil results;
when the buffer is drained the loop waits on the channel, which is closed only
when the function returns. -/
def rangeCherr {α : Type} : List (Option GoError) → Run (List α × Option GoError)
  | [] => Run.blocks
  | some err :: _ => Run.returns ([], some err)
  | none :: rest => rangeCherr rest

/-- The URL of the bulk endpoint, `c.baseURL + "/users/current/heartbeats.bulk"`. -/
def bulkURL (E : Env) (N : Http E) (c : N.Client) : String :=
  N.baseURL c ++ "/users/current/heartbeats.bulk"

/-- The method `SendHeartbeats` under the interleaving `s`: sends a bulk of
heartbeats to the api and returns the result. A panic in a task ends the
program. -/
def SendHeartbeats (E : Env) (N : Http E) (s : Sched) (c : N.Client)
    (heartbeats : List E.Heartbeat) : Run (List (Result E.Heartbeat) × Option GoError) :=
  let url := bulkURL E N c
  let grouped := groupByApiKey E heartbeats
  -- don't spawn threads when there's only one api key set.
  if grouped.length = 1 then sendHeartbeats E N c url heartbeats
  else
    let outcomes := s.arrival.filterMap (fun g =>
      grouped[g]?.map (fun kv => task E N s c url grouped g kv.1 kv.2))
    match firstPanic outcomes with
    | some m => Run.panics m
    | none => rangeCherr (outcomes.map sentError)

/-- Every task has sent on `cherr` exactly once when `wg.Wait()` returns. -/
def Sched.complete (s : Sched) (groups : Nat) : Prop :=
  s.arrival.Perm (List.range groups)

/-- The batches passed to `sendHeartbeats` by the calls that `SendHeartbeats`
makes: the whole batch when there is one group; otherwise, for each group whose
task gets its auth option from `WithAuth`, the heartbeats of the group. The
tasks run concurrently; the calls are listed in the order of the groups. -/
def sendCalls (E : Env) (N : Http E) (heartbeats : List E.Heartbeat) :
    List (List E.Heartbeat) :=
  let grouped := groupByApiKey E heartbeats
  if grouped.length = 1 then [heartbeats]
  else
    grouped.filterMap (fun kv =>
      match N.withAuth kv.1 with
      | .error _ => none
      | .ok _ => some kv.2)

/-- What `sendHeartbeats` does once `c.Do(req)` has returned: the part of the
method after the request, on the response or the text of the error of `Do`. -/
def handleResponse (E : Env) (url : String) (done : Except String Response) :
    Run (List (Result E.Heartbeat) × Option GoError) :=
  match done with
  | .error err =>
    Run.returns ([], some ⟨ErrKind.Err, "failed making request to " ++ E.quote url ++ ": " ++ err⟩)
  | .ok resp =>
    match resp.body with
    | .error err =>
      Run.returns ([], some ⟨ErrKind.Err,
        "failed reading response body from " ++ E.quote url ++ ": " ++ err⟩)
    | .ok body =>
      if resp.statusCode = 201 ∨ resp.statusCode = 202 then
        match ParseHeartbeatResponses E body with
        | Run.returns (_, some err) =>
          Run.returns ([], some ⟨ErrKind.Err,
            "failed parsing results from " ++ E.quote url ++ ": " ++ err.msg⟩)
        | Run.returns (results, none) => Run.returns (results, none)
        | Run.panics m => Run.panics m
        | Run.blocks => Run.blocks
      else if resp.statusCode = 401 then
        Run.returns ([], some ⟨ErrKind.ErrAuth, "authentication failed at " ++ E.quote url⟩)
      else if resp.statusCode = 400 then
        Run.returns ([], some ⟨ErrKind.ErrBadRequest, "bad request at " ++ E.quote url⟩)
      else
        Run.returns ([], some ⟨ErrKind.Err,
          "invalid response status from " ++ E.quote url ++ ". got: "
            ++ toString resp.statusCode ++ ", want: " ++ toString (201 : Int) ++ "/"
            ++ toString (202 : Int) ++ ". body: " ++ E.quote body⟩)

/-- The method `sendHeartbeats` with its requests recorded: the requests it
passes to `c.Do`, and the pair it sends on the channels. The request recorded
is the one whose answer the method goes on with. -/
def sendHeartbeatsTraced (E : Env) (N : Http E) (c : N.Client) (url : String)
    (heartbeats : List E.Heartbeat) :
    List Request × Run (List (Result E.Heartbeat) × Option GoError) :=
  match N.marshal heartbeats with
  | .error err => ([], Run.returns ([], some (errorf ("failed to json encode body: " ++ err))))
  | .ok data =>
    match N.newRequestErr url with
    | some err => ([], Run.returns ([], some (errorf ("failed to create request: " ++ err))))
    | none =>
      let req : Request :=
        { method := "POST", url := url, header := [("Content-Type", "application/json")],
          body := data }
      ([req], handleResponse E url (N.doReq c req))

/-- One call of `sendHeartbeats` in a run: the state of the client it was
called on, the heartbeats passed, and the requests the call passed to `c.Do`. -/
structure SendCall (E : Env) (N : Http E) where
  client : N.Client
  heartbeats : List E.Heartbeat
  requests : List Request

/-- The task started for one group (the body of the `go func`) with its calls
recorded: the calls of `sendHeartbeats` it makes, and the pair it sends on the
channels. -/
def taskTraced (E : Env) (N : Http E) (s : Sched) (c : N.Client) (url : String)
    (grouped : List (String × List E.Heartbeat)) (g : Nat) (apiKey : String)
    (hh : List E.Heartbeat) :
    List (SendCall E N) × Run (List (Result E.Heartbeat) × Option GoError) :=
  match N.withAuth apiKey with
  | .error err => ([], Run.returns ([], some err))
  | .ok _ =>
    let sent := sendHeartbeatsTraced E N (applyAuths E N grouped c (s.authsSeen g)) url hh
    ([⟨applyAuths E N grouped c (s.authsSeen g), hh, sent.1⟩], sent.2)

/-- The method `SendHeartbeats` under the interleaving `s` with its calls
recorded: the calls of `sendHeartbeats` made, those of the tasks in the order
of `s.arrival`, and the outcome of the method. -/
def SendHeartbeatsTraced (E : Env) (N : Http E) (s : Sched) (c : N.Client)
    (heartbeats : List E.Heartbeat) :
    List (SendCall E N) × Run (List (Result E.Heartbeat) × Option GoError) :=
  let url := bulkURL E N c
  let grouped := groupByApiKey E heartbeats
  -- don't spawn threads when there's only one api key set.
  if grouped.length = 1 then
    let sent := sendHeartbeatsTraced E N c url heartbeats
    ([⟨c, heartbeats, sent.1⟩], sent.2)
  else
    let tasks := s.arrival.filterMap (fun g =>
      grouped[g]?.map (fun kv => taskTraced E N s c url grouped g kv.1 kv.2))
    let outcomes := tasks.map (fun t => t.2)
    (tasks.flatMap (fun t => t.1),
      match firstPanic outcomes with
      | some m => Run.panics m
      | none => rangeCherr (outcomes.map sentError))

/-- The message of the error `sendHeartbeats` makes for a status that has no
case of its own: the URL, the status received, the statuses wanted and the body. -/
def invalidStatusMessage (E : Env) (url : String) (status : Int) (body : String) : String :=
  "invalid response status from " ++ E.quote url ++ ". got: " ++ toString status
    ++ ", want: " ++ toString (201 : Int) ++ "/" ++ toString (202 : Int) ++ ". body: "
    ++ E.quote body

end api

/-! ## The project filter (`pkg/project/filter.go`) -/

namespace heartbeat

/-- The type `heartbeat.Handle`: a function from a batch to results and an
error, over the heartbeat type `H`. -/
abbrev Handle (H : Type) : Type := List H → Run (List (Result H) × Option GoError)

/-- The type `heartbeat.HandleOption`: a stage that wraps a handle. -/
abbrev HandleOption (H : Type) : Type := Handle H → Handle H

end heartbeat

namespace project

/-- The struct `FilterConfig`: project filtering configurations. -/
structure FilterConfig where
  /-- Determines if a heartbeat should be skipped when the project cannot be detected. -/
  ExcludeUnknownProject : Bool
deriving DecidableEq, Repr

/-- The function `Filter`: determines, following the passed in configurations,
if a heartbeat should be skipped. `Project` reads the field `Project *string`
of a heartbeat (`none` is the nil pointer); `none` as a result is the nil
error. -/
def Filter {H : Type} (Project : H → Option String) (h : H) (config : FilterConfig) :
    Option GoError :=
  -- exclude unknown project
  if config.ExcludeUnknownProject && (Project h == none || Project h == some "") then
    some (errorf "skipping because of unknown project")
  else none

/-- The loop `for _, h := range hh` of `WithFiltering`, with `filtered` the
heartbeats kept so far. -/
def filterLoop {H : Type} (Project : H → Option String) (config : FilterConfig) :
    List H → List H → List H
  | [], filtered => filtered
  | h :: rest, filtered =>
    match Filter Project h config with
    | some _ => filterLoop Project config rest filtered
    | none => filterLoop Project config rest (filtered ++ [h])

/-- The function `WithFiltering`: a heartbeat handle option that filters
heartbeats following the provided configurations. -/
def WithFiltering {H : Type} (Project : H → Option String) (config : FilterConfig) :
    heartbeat.HandleOption H :=
  fun next hh =>
    let filtered := filterLoop Project config hh []
    if filtered.length = 0 then Run.returns ([], none)
    else next filtered

/-- The batches with which the stage `WithFiltering` invokes the downstream
handle `next`: none when nothing is left after filtering, else the filtered
batch, once. -/
def nextCalls {H : Type} (Project : H → Option String) (config : FilterConfig)
    (hh : List H) : List (List H) :=
  let filtered := filterLoop Project config hh []
  if filtered.length = 0 then [] else [filtered]

end project

/-! ## The heartbeat record (`pkg/heartbeat/heartbeat.go`) -/

namespace heartbeat

/-- The types `Category` and `EntityType`, which the source leaves to another
file, with the text the verb `%s` prints for their values. -/
structure Kinds where
  /-- The type `heartbeat.Category`. -/
  Category : Type
  /-- The type `heartbeat.EntityType`. -/
  EntityType : Type
  /-- The text `%s` prints for a category. -/
  categoryText : Category → String
  /-- The text `%s` prints for an entity type. -/
  entityTypeText : EntityType → String

/-- The struct `Heartbeat`: activity for a user on some entity. -/
structure Heartbeat (K : Kinds) where
  Branch : String
  Category : K.Category
  CursorPosition : Int
  Dependencies : List String
  Entity : String
  EntityType : K.EntityType
  IsWrite : Bool
  Language : String
  LineNumber : Int
  Lines : Int
  Project : String
  Time : Int
  UserAgent : String

/-- The method `ID`: an ID generated from the heartbeat data,
`fmt.Sprintf("%d-%s-%s-%s-%s-%s-%t", ...)` on the time, the entity type, the
category, the project, the branch, the entity and the write flag. -/
def Heartbeat.ID {K : Kinds} (h : Heartbeat K) : String :=
  toString h.Time ++ "-" ++ K.entityTypeText h.EntityType ++ "-" ++ K.categoryText h.Category
    ++ "-" ++ h.Project ++ "-" ++ h.Branch ++ "-" ++ h.Entity ++ "-" ++ toString h.IsWrite

/-- The number a run of decimal digits denotes. -/
def digitsValue (l : List Char) : Nat :=
  l.foldl (fun a c => a * 10 + (c.toNat - '0'.toNat)) 0

/-- The texts of entity type and category, the project and the branch of the
heartbeat hold no dash. -/
def dashFree {K : Kinds} (h : Heartbeat K) : Prop :=
  '-' ∉ (K.entityTypeText h.EntityType).data ∧ '-' ∉ (K.categoryText h.Category).data ∧
    '-' ∉ h.Project.data ∧ '-' ∉ h.Branch.data

instance {K : Kinds} (h : Heartbeat K) : Decidable (dashFree h) := by
  unfold dashFree; infer_instance

/-- Modelled from the spec: the fields of a heartbeat that `hideProjectFolder`
reads and writes (the struct in `heartbeat.go` does not declare the two paths). -/
structure PathHeartbeat where
  Entity : String
  ProjectPath : String
  ProjectPathOverride : String
deriving DecidableEq, Repr

/-- The rest of `path` after the leading `root`, if `path` starts with `root`. -/
def dropRoot : List Char → List Char → Option (List Char)
  | [], path => some path
  | _ :: _, [] => none
  | r :: root, c :: path => if r = c then dropRoot root path else none

/-- Modelled from the spec: the function `hideProjectFolder`, of which the
files at hand hold only the test. "If `hide_project_folder` is set, replace
the project-folder prefix of the entity with the empty string (relative path
from the project root). The prefix is `project_path_override` if non-empty,
otherwise `project_path`." The folder is taken with the separator `/` that
ends it, so that what is left is a relative path, as the test expects. -/
def hideProjectFolder (h : PathHeartbeat) (hide : Bool) : PathHeartbeat :=
  if !hide then h
  else
    let folder := if h.ProjectPathOverride ≠ "" then h.ProjectPathOverride else h.ProjectPath
    if folder = "" then h
    else
      let root : List Char :=
        if folder.toList.getLast? = some '/' then folder.toList else folder.toList ++ ['/']
      match dropRoot root h.Entity.toList with
      | some rel => { h with Entity := String.mk rel }
      | none => h

end heartbeat

/-! ## The api parameters (`cmd/params`) -/

namespace params

/-- A hexadecimal digit of either case: `[0-9a-f]` matched case-insensitively. -/
def isHexDigit (c : Char) : Bool :=
  ('0' ≤ c && c ≤ '9') || ('a' ≤ c && c ≤ 'f') || ('A' ≤ c && c ≤ 'F')

/-- Modelled from the spec: the pattern of an api key,
`^[0-9a-f]{8}-[0-9a-f]{4}-4[0-9a-f]{3}-[89ab][0-9a-f]{3}-[0-9a-f]{12}$`
matched case-insensitively, as one test per character of the key. -/
def apiKeyPattern : List (Char → Bool) :=
  List.replicate 8 isHexDigit ++ [fun c => c == '-']
    ++ List.replicate 4 isHexDigit ++ [fun c => c == '-']
    ++ [fun c => c == '4'] ++ List.replicate 3 isHexDigit ++ [fun c => c == '-']
    ++ [fun c => c == '8' || c == '9' || c == 'a' || c == 'b' || c == 'A' || c == 'B']
    ++ List.replicate 3 isHexDigit ++ [fun c => c == '-']
    ++ List.replicate 12 isHexDigit

/-- A text matches a list of tests when it has one character per test and
every character passes its test. -/
def matchesPattern : List (Char → Bool) → List Char → Bool
  | [], [] => true
  | p :: ps, c :: cs => p c && matchesPattern ps cs
  | _, _ => false

/-- Modelled from the spec: the validation of an api key against the pattern. -/
def validApiKey (key : String) : Bool := matchesPattern apiKeyPattern key.toList

/-- The keys of the configuration from which the api key is read. -/
structure KeyConfig where
  /-- The command-line flag `key`. -/
  key : String
  /-- The config key `settings.api_key`. -/
  apiKey : String
  /-- The deprecated config key `settings.apikey`. -/
  apiKeyOld : String
deriving DecidableEq, Repr

/-- The struct `API` as far as the api key goes. -/
structure API where
  Key : String
deriving DecidableEq, Repr

/-- Modelled from the spec: the function `LoadAPIParams` as far as the api key
goes; the files at hand hold only its tests. "Precedence: command-line flag,
primary config key, deprecated config key." "API key validation: regex [...]
(case-insensitive). Failure raises `AuthError`." -/
def LoadAPIParams (v : KeyConfig) : Except GoError API :=
  let apiKey :=
    if v.key ≠ "" then v.key else if v.apiKey ≠ "" then v.apiKey else v.apiKeyOld
  if validApiKey apiKey then .ok { Key := apiKey }
  else .error ⟨ErrKind.ErrAuth, "invalid api key format"⟩

/-- The api key the configuration gives: the flag, else the config key, else
the deprecated config key. -/
def configuredKey (v : KeyConfig) : String :=
  if v.key ≠ "" then v.key else if v.apiKey ≠ "" then v.apiKey else v.apiKeyOld

end params

/-! ## The dependency parsers (`pkg/deps/golang.go`, `pkg/deps/swift.go`) -/

namespace chroma

/-- The token types of the lexer library `chroma` as far as the parsers tell
them apart: the six constants the parsers compare a token type with, and every
other token type under its name. -/
inductive TokenType where
  | KeywordNamespace : TokenType
  | KeywordDeclaration : TokenType
  | NameClass : TokenType
  | Punctuation : TokenType
  | LiteralString : TokenType
  | Text : TokenType
  | other (name : String) : TokenType
deriving DecidableEq, Repr

/-- The struct `chroma.Token`: the type of a token and its text (the field
`Type` is written `Kind`, `Type` being a reserved word). -/
structure Token where
  Kind : TokenType
  Value : String
deriving DecidableEq, Repr

end chroma

namespace unicode

/-- The function `unicode.IsSpace`: the characters with the Unicode property
White_Space. -/
def IsSpace (c : Char) : Bool :=
  let n := c.toNat
  (0x09 ≤ n && n ≤ 0x0D) || n == 0x20 || n == 0x85 || n == 0xA0 || n == 0x1680
    || (0x2000 ≤ n && n ≤ 0x200A) || n == 0x2028 || n == 0x2029 || n == 0x202F
    || n == 0x205F || n == 0x3000

end unicode

namespace strings

/-- The function `strings.TrimSpace`: the text with all leading and trailing
white space removed, as defined by Unicode. -/
def TrimSpace (s : String) : String :=
  String.mk ((s.toList.dropWhile unicode.IsSpace).reverse.dropWhile unicode.IsSpace).reverse

/-- The function `strings.EqualFold` for an ASCII text `t`: equality under
Unicode case folding. The characters that fold to an ASCII letter are the
letter in its two cases, the long s and the Kelvin sign. -/
def EqualFold (s t : String) : Bool := JSON.foldName s == JSON.foldName t

/-- A text free of leading and trailing white space: neither its first nor its
last character is white space. -/
def isTrimmed (s : String) : Bool :=
  (match s.toList.head? with
    | some c => !unicode.IsSpace c
    | none => true)
  && (match s.toList.getLast? with
    | some c => !unicode.IsSpace c
    | none => true)

end strings

namespace deps

/-- The declaration of the type `State` and of its constants `StateUnknown` and
`StateImport`, which the source leaves to another file of the package: the type
with its equality test, its zero value (the state of a parser that was never
used), and the two constants, which differ. -/
structure StateDecl where
  /-- The type `State`. -/
  State : Type
  /-- The comparison `==` on states. -/
  eq : DecidableEq State
  /-- The zero value of `State`. -/
  zero : State
  /-- The constant `StateUnknown`: unknown token parsing state. -/
  StateUnknown : State
  /-- The constant `StateImport`: in an import section during token parsing. -/
  StateImport : State
  /-- The two constants are different states. -/
  distinct : StateUnknown ≠ StateImport

instance (D : StateDecl) : DecidableEq D.State := D.eq

/-- A Go `int` after an arithmetic step: the value wraps around at 64 bits. -/
def wrapInt (n : Int) : Int := (n + 2 ^ 63) % 2 ^ 64 - 2 ^ 63

/-- What reading the file and tokenising its content gives: an error of the
reader (with its text), an error of the lexer, or the tokens. -/
inductive Content where
  | readFails (err : String) : Content
  | tokeniseFails (err : String) : Content
  | tokens (ts : List chroma.Token) : Content
deriving DecidableEq, Repr

/-- The struct `ParserGo`: a dependency parser for the go programming language. -/
structure ParserGo (D : StateDecl) where
  Parenthesis : Int
  State : D.State
  Output : List String

namespace ParserGo

variable {D : StateDecl}

/-- The zero value `ParserGo{}`: a parser that was never used. -/
def fresh (D : StateDecl) : ParserGo D :=
  { Parenthesis := 0, State := D.zero, Output := [] }

/-- The method `init`. -/
def init (p : ParserGo D) : ParserGo D :=
  { p with Output := [], Parenthesis := 0 }

/-- The method `processNamespace`. -/
def processNamespace (p : ParserGo D) (value : String) : ParserGo D :=
  let p := { p with Parenthesis := 0 }
  if value = "import" then { p with State := D.StateImport }
  else { p with State := D.StateUnknown }

/-- The method `processPunctuation`. -/
def processPunctuation (p : ParserGo D) (value : String) : ParserGo D :=
  if value = "(" then { p with Parenthesis := wrapInt (p.Parenthesis + 1) }
  else if value = ")" then { p with Parenthesis := wrapInt (p.Parenthesis - 1) }
  else p

/-- The method `processText`. -/
def processText (p : ParserGo D) (value : String) : ParserGo D :=
  if p.State = D.StateImport then
    if value = "\n" ∧ p.Parenthesis ≤ 0 then
      { p with State := D.StateUnknown, Parenthesis := 0 }
    else p
  else { p with State := D.StateUnknown }

/-- The method `processString`. -/
def processString (p : ParserGo D) (value : String) : ParserGo D :=
  if p.State = D.StateImport then
    { p with Output := p.Output ++ [strings.TrimSpace value] }
  else p

/-- The method `processToken`. -/
def processToken (p : ParserGo D) (token : chroma.Token) : ParserGo D :=
  match token.Kind with
  | .KeywordNamespace => p.processNamespace token.Value
  | .Punctuation => p.processPunctuation token.Value
  | .LiteralString => p.processString token.Value
  | .Text => p.processText token.Value
  | _ => p

/-- The method `Parse`: parses dependencies from golang file content. The
reader and the lexer enter by what they give (`content`); the result is the
parser after the call, with the deferred `init` done, and the pair returned. -/
def Parse (p : ParserGo D) (content : Content) :
    ParserGo D × (List String × Option GoError) :=
  let p := p.init
  match content with
  | .readFails err => (p.init, ([], some (errorf ("failed to read from reader: " ++ err))))
  | .tokeniseFails err =>
    (p.init, ([], some (errorf ("failed to tokenize file content: " ++ err))))
  | .tokens ts =>
    let p := ts.foldl processToken p
    (p.init, (p.Output, none))

end ParserGo

/-- The type `StateSwift`: a token parsing state. -/
inductive StateSwift where
  /-- Unknown token parsing state (the zero value). -/
  | StateSwiftUnknown : StateSwift
  /-- In an import section during token parsing. -/
  | StateSwiftImport : StateSwift
deriving DecidableEq, Repr

/-- One letter of a pattern under the flag `i`, as a test of a character: the
letter in either of its cases. -/
def foldLetter (x : Char) (c : Char) : Bool := c == x || c == x.toUpper

/-- The pattern of `swiftExcludeRegex`, `(?i)^foundation$`, as one test per
character of the text: none of the letters of `foundation` has a character
other than its two cases in its folding orbit. -/
def swiftExcludePattern : List (Char → Bool) := "foundation".toList.map foldLetter

/-- The regular expression `swiftExcludeRegex` as the test `MatchString`: the
whole text matches the pattern. -/
def swiftExcludeRegex (s : String) : Bool :=
  params.matchesPattern swiftExcludePattern s.toList

/-- The struct `ParserSwift`: a dependency parser for the swift programming
language. -/
structure ParserSwift where
  State : StateSwift
  Output : List String
deriving DecidableEq, Repr

namespace ParserSwift

/-- The zero value `ParserSwift{}`: a parser that was never used. -/
def fresh : ParserSwift := { State := .StateSwiftUnknown, Output := [] }

/-- The method `append`. -/
def append (p : ParserSwift) (dep : String) : ParserSwift :=
  let dep := strings.TrimSpace dep
  if swiftExcludeRegex dep then p
  else { p with Output := p.Output ++ [dep] }

/-- The method `init`. -/
def init (_p : ParserSwift) : ParserSwift :=
  { State := .StateSwiftUnknown, Output := [] }

/-- The method `processKeywordDeclaration`. -/
def processKeywordDeclaration (p : ParserSwift) (value : String) : ParserSwift :=
  if value = "import" then { p with State := .StateSwiftImport }
  else { p with State := .StateSwiftUnknown }

/-- The method `processNameClass`. -/
def processNameClass (p : ParserSwift) (value : String) : ParserSwift :=
  match p.State with
  | .StateSwiftImport => p.append value
  | _ => { p with State := .StateSwiftUnknown }

/-- The method `processToken`. -/
def processToken (p : ParserSwift) (token : chroma.Token) : ParserSwift :=
  match token.Kind with
  | .KeywordDeclaration => p.processKeywordDeclaration token.Value
  | .NameClass => p.processNameClass token.Value
  | _ => p

/-- The method `Parse`: parses dependencies from Swift file content. The file
enters by what opening it gives: the text of the error of `os.Open`, or what
reading and tokenising give. `quote` is the verb `%q`. The result is the parser
after the call and the pair returned. -/
def Parse (quote : String → String) (p : ParserSwift) (filepath : String)
    (file : Except String Content) : ParserSwift × (List String × Option GoError) :=
  match file with
  | .error err =>
    (p, ([], some (errorf ("failed to open file " ++ quote filepath ++ ": " ++ err))))
  | .ok content =>
    let p := p.init
    match content with
    | .readFails err => (p.init, ([], some (errorf ("failed to read from reader: " ++ err))))
    | .tokeniseFails err =>
      (p.init, ([], some (errorf ("failed to tokenize file content: " ++ err))))
    | .tokens ts =>
      let p := ts.foldl processToken p
      (p.init, (p.Output, none))

end ParserSwift

/-- The tokens of type `NameClass` that come after the first
`KeywordDeclaration` token with the value `import`. -/
def namesAfterImport (ts : List chroma.Token) : List chroma.Token :=
  (ts.dropWhile (fun t => !(t.Kind == .KeywordDeclaration && t.Value == "import"))).filter
    (fun t => t.Kind == .NameClass)

/-- The tokens of type `KeywordDeclaration` with the value `import`. -/
def importKeywords (ts : List chroma.Token) : List chroma.Token :=
  ts.filter (fun t => t.Kind == .KeywordDeclaration && t.Value == "import")

end deps

/-! ## A sample environment -/

/-- A small heartbeat type for running the model on concrete inputs. -/
structure SampleHeartbeat where
  apiKey : String
  entity : String
deriving DecidableEq, Repr

/-- A sample environment: heartbeats decode from any object by reading a string
member `entity`, `%q` wraps in double quotes, maps are visited in insertion
order. -/
def sampleEnv : Env where
  Heartbeat := SampleHeartbeat
  zeroHeartbeat := ⟨"", ""⟩
  ApiKey := fun h => h.apiKey
  unmarshalHeartbeat := fun v h =>
    match v with
    | JSON.obj members =>
      match members.find? (fun kv => keyMatches "entity" kv.1) with
      | some (_, JSON.str s) => Decoded.ok { h with entity := s }
      | some (_, w) => Decoded.failed h (JsonErr.mismatch (kindName w) "string")
      | none => Decoded.ok h
    | _ => Decoded.failed h (JsonErr.mismatch (kindName v) "heartbeat.Heartbeat")
  quote := fun s => "\"" ++ s ++ "\""
  errText := fun e =>
    match e with
    | JsonErr.invalid => "invalid JSON"
    | JsonErr.mismatch value goType => "json: cannot unmarshal " ++ value ++ " into " ++ goType
    | JsonErr.field text => text
  sprintOther := fun v => kindName v
  rangeOrder := fun m => m
  rangeOrder_perm := fun m => List.Perm.refl m

/-- A sample network: every request is answered with the given status and body. -/
def sampleHttp (status : Int) (body : String) : api.Http sampleEnv where
  Client := Unit
  baseURL := fun _ => "https://api.wakatime.com/api/v1"
  marshal := fun _ => .ok "[]"
  newRequestErr := fun _ => none
  doReq := fun _ _ => .ok { statusCode := status, body := .ok body }
  withAuth := fun _ => .ok id

/-- The sample body `{"responses": [[{"data": {"entity": "main.go"}}, 201]]}`
of one accepted heartbeat. -/
def sampleAccepted : String :=
  "\x7b\"responses\": [[\x7b\"data\": \x7b\"entity\": \"main.go\"\x7d\x7d, 201]]\x7d"

/-- A sample interleaving of `n` tasks: they finish in order, each having seen
its own auth option last. -/
def sampleSched (n : Nat) : api.Sched where
  arrival := List.range n
  authsSeen := fun g => List.range (g + 1)

/-- The sample error body `{"errors": {"time": ["is required", "must be a
number"], "dependencies": 5}}`. -/
def sampleErrorsBody : List (String × JSON) :=
  [("errors", JSON.obj [("time", JSON.arr [JSON.str "is required", JSON.str "must be a number"]),
    ("dependencies", JSON.num "5")])]

/-- The sample error body `{"error": "x", "errors": {"a": ["1"], "b": ["2"]}}`,
which carries both an `error` string and an `errors` object. -/
def sampleBothKeys : List (String × JSON) :=
  [("error", JSON.str "x"),
   ("errors", JSON.obj [("a", JSON.arr [JSON.str "1"]), ("b", JSON.arr [JSON.str "2"])])]

/-- The sample body `{}`. -/
def sampleEmptyObject : String := "\x7b\x7d"

/-- The sample body `{"responses": [[]]}`, whose one entry is empty. -/
def sampleEmptyEntry : String := "\x7b\"responses\": [[]]\x7d"

/-- The sample body `{"responses": [[{}]]}`, whose one entry has one element. -/
def sampleShortEntry : String := "\x7b\"responses\": [[\x7b\x7d]]\x7d"

/-- The sample body `{"responses": [[{"data": {}}, 201], [{"data": {}}, "x"]]}`,
whose second entry has a status that is not a number. -/
def sampleBadStatus : String :=
  "\x7b\"responses\": [[\x7b\"data\": \x7b\x7d\x7d, 201], [\x7b\"data\": \x7b\x7d\x7d, \"x\"]]\x7d"

/-- The sample batch of two heartbeats under two api keys. -/
def sampleTwoKeys : List sampleEnv.Heartbeat := [⟨"key1", "main.go"⟩, ⟨"key2", "util.go"⟩]

/-- A sample network whose `WithAuth` refuses the empty secret; every request
is answered with status 201 and the sample body. -/
def sampleHttpNoSecret : api.Http sampleEnv where
  Client := Unit
  baseURL := fun _ => "https://api.wakatime.com/api/v1"
  marshal := fun _ => .ok "[]"
  newRequestErr := fun _ => none
  doReq := fun _ _ => .ok { statusCode := 201, body := .ok sampleAccepted }
  withAuth := fun apiKey => if apiKey = "" then .error (errorf "missing secret") else .ok id

/-- The sample batch of two heartbeats, the first under the empty api key. -/
def sampleEmptyKey : List sampleEnv.Heartbeat := [⟨"", "main.go"⟩, ⟨"key2", "util.go"⟩]

/-- A sample downstream handle: it accepts every heartbeat with status 201. -/
def sampleNext : heartbeat.Handle (Option String) :=
  fun hh => Run.returns (hh.map (fun h => { status := 201, errors := [], heartbeat := h }), none)

/-- A sample batch for the project filter, each heartbeat reduced to its
project: a project, no project, the empty project, another project. -/
def sampleProjects : List (Option String) := [some "wakatime", none, some "", some "cli"]

/-- A sample batch for the project filter from which nothing survives: no
project and the empty project. -/
def sampleNoProject : List (Option String) := [none, some ""]

/-- Sample kinds: categories and entity types are their names. -/
def sampleKinds : heartbeat.Kinds where
  Category := String
  EntityType := String
  categoryText := id
  entityTypeText := id

/-- A sample heartbeat of the struct in `heartbeat.go`. -/
def sampleRecord : heartbeat.Heartbeat sampleKinds where
  Branch := "main"
  Category := "coding"
  CursorPosition := 12
  Dependencies := ["fmt"]
  Entity := "/tmp/main.go"
  EntityType := "file"
  IsWrite := true
  Language := "Go"
  LineNumber := 42
  Lines := 100
  Project := "wakatime-cli"
  Time := 1585598059
  UserAgent := "wakatime/13.0.7"

/-- The sample heartbeat with other values in the fields outside the identity tuple. -/
def sampleRecordOther : heartbeat.Heartbeat sampleKinds :=
  { sampleRecord with
    CursorPosition := 0, Dependencies := [], Language := "", LineNumber := 1, Lines := 2,
    UserAgent := "" }

/-- A sample heartbeat with project `a-b` and branch `c`. -/
def sampleDashProject : heartbeat.Heartbeat sampleKinds :=
  { sampleRecord with Project := "a-b", Branch := "c" }

/-- A sample heartbeat with project `a` and branch `b-c`. -/
def sampleDashBranch : heartbeat.Heartbeat sampleKinds :=
  { sampleRecord with Project := "a", Branch := "b-c" }

/-- A sample heartbeat whose project holds no dash; its entity holds one. -/
def sampleRecordPlain : heartbeat.Heartbeat sampleKinds :=
  { sampleRecord with Project := "wakatime", Entity := "/tmp/my-app/main.go" }

/-- The sample heartbeat without a dash in its project, with other values in
the fields outside the identity tuple. -/
def sampleRecordPlainOther : heartbeat.Heartbeat sampleKinds :=
  { sampleRecordPlain with CursorPosition := 7, Language := "Golang", UserAgent := "vim" }

/-- The sample body `{"responses": [[{"data": {}}, 100]]}`, whose entry has
the status 100. -/
def sampleStatus100 : String :=
  "\x7b\"responses\": [[\x7b\"data\": \x7b\x7d\x7d, 100]]\x7d"

/-- The sample body `{"responses": [[{"errors": {"time": "bad"}}, 400]]}`,
whose `errors` object holds a string under `time`. -/
def sampleErrorsNotArray : String :=
  "\x7b\"responses\": [[\x7b\"errors\": \x7b\"time\": \"bad\"\x7d\x7d, 400]]\x7d"

/-- The sample body `{"responses": [[{"error": ""}, 400]]}`, whose `error` is
the empty string. -/
def sampleEmptyError : String :=
  "\x7b\"responses\": [[\x7b\"error\": \"\"\x7d, 400]]\x7d"

/-- A sample network that answers a request with status 201 and the sample
body when the client holds the secret `key1`, and with status 500 otherwise;
an auth option sets the secret. -/
def sampleHttpOneFails : api.Http sampleEnv where
  Client := String
  baseURL := fun _ => "https://api.wakatime.com/api/v1"
  marshal := fun _ => .ok "[]"
  newRequestErr := fun _ => none
  doReq := fun c _ =>
    if c = "key1" then .ok { statusCode := 201, body := .ok sampleAccepted }
    else .ok { statusCode := 500, body := .ok "oops" }
  withAuth := fun apiKey => .ok (fun _ => apiKey)

/-- The heartbeat of the test case `auto-detected` of `TestHideProjectFolder`. -/
def sampleAutoDetected : heartbeat.PathHeartbeat :=
  { Entity := "/usr/temp/project/main.go", ProjectPath := "/usr/temp", ProjectPathOverride := "" }

/-- The heartbeat of the test case `override` of `TestHideProjectFolder`. -/
def sampleOverride : heartbeat.PathHeartbeat :=
  { Entity := "/usr/temp/project/main.go", ProjectPath := "/original/folder",
    ProjectPathOverride := "/usr/temp" }

/-- A declaration of `State` in the manner of `StateSwift`: `StateUnknown` is
the zero value and `StateImport` the next. -/
def sampleStates : deps.StateDecl where
  State := Nat
  eq := inferInstance
  zero := 0
  StateUnknown := 0
  StateImport := 1
  distinct := by decide

/-- The tokens of a Go file that ends inside its import block:
`package main`, `import (`, `"fmt"`, each on a line of its own. -/
def sampleGoCut : List chroma.Token :=
  [⟨.KeywordNamespace, "package"⟩, ⟨.Text, " "⟩, ⟨.other "NameOther", "main"⟩, ⟨.Text, "\n"⟩,
   ⟨.KeywordNamespace, "import"⟩, ⟨.Text, " "⟩, ⟨.Punctuation, "("⟩, ⟨.Text, "\n"⟩,
   ⟨.Text, "\t"⟩, ⟨.LiteralString, "\"fmt\""⟩, ⟨.Text, "\n"⟩]

/-- The tokens of a file that holds the one line `"os"`. -/
def sampleGoLiteral : List chroma.Token :=
  [⟨.LiteralString, "\"os\""⟩, ⟨.Text, "\n"⟩]

/-- The tokens of a Go file without imports: `package main` and
`var s = "fmt"`. -/
def sampleGoNoImport : List chroma.Token :=
  [⟨.KeywordNamespace, "package"⟩, ⟨.Text, " "⟩, ⟨.other "NameOther", "main"⟩, ⟨.Text, "\n"⟩,
   ⟨.KeywordDeclaration, "var"⟩, ⟨.Text, " "⟩, ⟨.other "NameOther", "s"⟩, ⟨.Text, " "⟩,
   ⟨.Punctuation, "="⟩, ⟨.Text, " "⟩, ⟨.LiteralString, "\"fmt\""⟩, ⟨.Text, "\n"⟩]

/-- The inside of an import block: `"fmt"` and ` "os" ` on lines of their own. -/
def sampleGoBlock : List chroma.Token :=
  [⟨.Text, "\n"⟩, ⟨.Text, "\t"⟩, ⟨.LiteralString, "\"fmt\""⟩, ⟨.Text, "\n"⟩,
   ⟨.Text, "\t"⟩, ⟨.LiteralString, " \"os\" "⟩, ⟨.Text, "\n"⟩]

/-- The tokens after an import: `var s = "later"`. -/
def sampleGoRest : List chroma.Token :=
  [⟨.KeywordDeclaration, "var"⟩, ⟨.Text, " "⟩, ⟨.other "NameOther", "s"⟩, ⟨.Text, " "⟩,
   ⟨.Punctuation, "="⟩, ⟨.Text, " "⟩, ⟨.LiteralString, "\"later\""⟩, ⟨.Text, "\n"⟩]

/-- The tokens of the Swift line `import UIKit.UIView`. -/
def sampleSwiftSubmodule : List chroma.Token :=
  [⟨.KeywordDeclaration, "import"⟩, ⟨.Text, " "⟩, ⟨.NameClass, "UIKit"⟩,
   ⟨.Punctuation, "."⟩, ⟨.NameClass, "UIView"⟩, ⟨.Text, "\n"⟩]

/-- The tokens of the Swift lines `import Foundation`, `import UIKit` and
`class View`. -/
def sampleSwiftFile : List chroma.Token :=
  [⟨.KeywordDeclaration, "import"⟩, ⟨.Text, " "⟩, ⟨.NameClass, "Foundation"⟩, ⟨.Text, "\n"⟩,
   ⟨.KeywordDeclaration, "import"⟩, ⟨.Text, " "⟩, ⟨.NameClass, "UIKit"⟩, ⟨.Text, "\n"⟩,
   ⟨.KeywordDeclaration, "class"⟩, ⟨.Text, " "⟩, ⟨.NameClass, "View"⟩, ⟨.Text, "\n"⟩]

/-! ## Properties of the response parser -/

namespace api

open JSON

/-- A successful run of the loop appends to `results` exactly the parses of
the entries that were left, in their order. -/
theorem parseLoop_ok (E : Env) (data : String) :
    ∀ (rs : List (List JSON)) (n : Nat) (acc out : List (Result E.Heartbeat)),
      parseLoop E data rs n acc = Run.returns (out, none) →
      ∃ tl, out = acc ++ tl ∧
        rs.map (parseHeartbeatResponse E) = tl.map (fun r => Run.returns (r, none)) := by
  intro rs
  induction rs with
  | nil =>
    intro n acc out h
    simp only [parseLoop, Run.returns.injEq, Prod.mk.injEq, and_true] at h
    exact ⟨[], by simp [h], rfl⟩
  | cons r rest ih =>
    intro n acc out h
    rw [parseLoop] at h
    cases hp : parseHeartbeatResponse E r with
    | returns v =>
      obtain ⟨res, err⟩ := v
      cases err with
      | some e => rw [hp] at h; simp at h
      | none =>
        rw [hp] at h
        obtain ⟨tl, h1, h2⟩ := ih (n + 1) (acc ++ [res]) out h
        exact ⟨res :: tl, by simp [h1], by simp [hp, h2]⟩
    | panics m => rw [hp] at h; simp at h
    | blocks => rw [hp] at h; simp at h

/-- C1: when `ParseHeartbeatResponses` succeeds on a body, the body decodes to
a `responses` array and the returned list has one result per entry of that
array, in the same order: result `i` is what `parseHeartbeatResponse` returns
on entry `i`. -/
theorem ParseHeartbeatResponses_positional (E : Env) (data : String)
    (results : List (Result E.Heartbeat))
    (h : ParseHeartbeatResponses E data = Run.returns (results, none)) :
    ∃ responses, unmarshalResponses data = .ok responses ∧
      results.length = responses.length ∧
      ∀ (i : Nat) (hi : i < responses.length) (hr : i < results.length),
        parseHeartbeatResponse E responses[i] = Run.returns (results[i], none) := by
  unfold ParseHeartbeatResponses at h
  cases hu : unmarshalResponses data with
  | error e => rw [hu] at h; simp at h
  | ok responses =>
    rw [hu] at h
    obtain ⟨tl, h1, h2⟩ := parseLoop_ok E data responses 0 [] results h
    simp only [List.nil_append] at h1
    subst h1
    have hlen : results.length = responses.length := by
      have := congrArg List.length h2
      simpa using this.symm
    refine ⟨responses, rfl, hlen, ?_⟩
    intro i hi hr
    have h3 := congrArg (fun l => l[i]?) h2
    simp only [List.getElem?_map, List.getElem?_eq_getElem hi, List.getElem?_eq_getElem hr,
      Option.map_some', Option.some.injEq] at h3
    exact h3

/-- The sample body of one accepted heartbeat. -/
theorem ParseHeartbeatResponses_positional_witness :
    ParseHeartbeatResponses sampleEnv sampleAccepted
        = Run.returns ([{ status := 201, errors := [], heartbeat := ⟨"", "main.go"⟩ }], none) ∧
      ∃ responses,
        unmarshalResponses sampleAccepted
            = .ok responses ∧
          [({ status := 201, errors := [], heartbeat := ⟨"", "main.go"⟩ } :
              Result sampleEnv.Heartbeat)].length = responses.length ∧
          ∀ (i : Nat) (hi : i < responses.length)
            (hr : i < [({ status := 201, errors := [], heartbeat := ⟨"", "main.go"⟩ } :
              Result sampleEnv.Heartbeat)].length),
            parseHeartbeatResponse sampleEnv responses[i]
              = Run.returns ([({ status := 201, errors := [], heartbeat := ⟨"", "main.go"⟩ } :
                  Result sampleEnv.Heartbeat)][i], none) :=
  ⟨rfl, ParseHeartbeatResponses_positional sampleEnv _ _ rfl⟩

/-- Members none of whose keys selects `data` leave the heartbeat alone. -/
theorem unmarshalDataMembers_skip (E : Env) :
    ∀ (members : List (String × JSON)) (h : E.Heartbeat) (p : Ptr E.Heartbeat)
      (saved : Option JsonErr),
      members.filter (fun kv => keyMatches "data" kv.1) = [] →
      unmarshalDataMembers E members h p saved
        = (match saved with
           | none => .ok h
           | some e => .error e) := by
  intro members
  induction members with
  | nil => intro h p saved _; cases saved <;> rfl
  | cons kv rest ih =>
    intro h p saved hf
    obtain ⟨k, v⟩ := kv
    by_cases hk : keyMatches "data" k = true
    · simp [List.filter_cons, hk] at hf
    · simp only [List.filter_cons, hk] at hf
      simp only [unmarshalDataMembers, hk]
      exact ih h p saved hf

/-- An object with a single `data` member, holding a value that is not `null`
and decodes without error, decodes to the heartbeat of that value. -/
theorem unmarshalDataMembers_single (E : Env) :
    ∀ (members : List (String × JSON)) (k : String) (d : JSON) (h h' : E.Heartbeat),
      members.filter (fun kv => keyMatches "data" kv.1) = [(k, d)] →
      d ≠ JSON.null →
      E.unmarshalHeartbeat d h = Decoded.ok h' →
      unmarshalDataMembers E members h Ptr.var none = .ok h' := by
  intro members
  induction members with
  | nil => intro k d h h' hf; simp at hf
  | cons kv rest ih =>
    intro k d h h' hf hd hdec
    obtain ⟨k0, v0⟩ := kv
    by_cases hk : keyMatches "data" k0 = true
    · simp only [List.filter_cons, hk, if_true, List.cons.injEq, Prod.mk.injEq] at hf
      obtain ⟨⟨rfl, rfl⟩, hrest⟩ := hf
      have hskip := unmarshalDataMembers_skip E rest h' Ptr.var none hrest
      cases v0 <;> first
        | exact absurd rfl hd
        | simp only [unmarshalDataMembers, hk, if_true, hdec, hskip]
    · simp only [List.filter_cons, hk] at hf
      simp only [unmarshalDataMembers, hk]
      exact ih k d h h' hf hd hdec

/-- C2: for a response pair whose status decodes to a value below 400 and whose
body decodes, `parseHeartbeatResponse` returns that status, no errors and the
heartbeat decoded from the body; and when the body is an object with one `data`
member, this heartbeat is the one decoded from the value of `data`. -/
theorem parseHeartbeatResponse_accepted (E : Env) (body st : JSON) (rest : List JSON)
    (status : Int) (hst : unmarshalInt st 0 = .ok status) (hlt : status < 400) :
    (∀ h, unmarshalResponseBody E body E.zeroHeartbeat = .ok h →
      parseHeartbeatResponse E (body :: st :: rest)
        = Run.returns ({ status := status, errors := [], heartbeat := h }, none)) ∧
    (∀ members k d h, body = JSON.obj members →
      members.filter (fun kv => keyMatches "data" kv.1) = [(k, d)] →
      d ≠ JSON.null →
      E.unmarshalHeartbeat d E.zeroHeartbeat = Decoded.ok h →
      parseHeartbeatResponse E (body :: st :: rest)
        = Run.returns ({ status := status, errors := [], heartbeat := h }, none)) := by
  have hnot : ¬ status ≥ 400 := by omega
  have hgen : ∀ h, unmarshalResponseBody E body E.zeroHeartbeat = .ok h →
      parseHeartbeatResponse E (body :: st :: rest)
        = Run.returns ({ status := status, errors := [], heartbeat := h }, none) := by
    intro h hb
    simp only [parseHeartbeatResponse, hst, hnot, if_false, hb]
  refine ⟨hgen, ?_⟩
  intro members k d h hbody hf hd hdec
  apply hgen
  subst hbody
  simp only [unmarshalResponseBody]
  exact unmarshalDataMembers_single E members k d E.zeroHeartbeat h hf hd hdec

/-- The sample pair of an accepted heartbeat. -/
theorem parseHeartbeatResponse_accepted_witness :
    unmarshalInt (JSON.num "201") 0 = .ok 201 ∧ (201 : Int) < 400 ∧
    ((∀ h, unmarshalResponseBody sampleEnv
          (JSON.obj [("data", JSON.obj [("entity", JSON.str "main.go")])])
          sampleEnv.zeroHeartbeat = .ok h →
      parseHeartbeatResponse sampleEnv
          [JSON.obj [("data", JSON.obj [("entity", JSON.str "main.go")])], JSON.num "201"]
        = Run.returns ({ status := 201, errors := [], heartbeat := h }, none)) ∧
    (∀ members k d h,
      JSON.obj [("data", JSON.obj [("entity", JSON.str "main.go")])] = JSON.obj members →
      members.filter (fun kv => keyMatches "data" kv.1) = [(k, d)] →
      d ≠ JSON.null →
      sampleEnv.unmarshalHeartbeat d sampleEnv.zeroHeartbeat = Decoded.ok h →
      parseHeartbeatResponse sampleEnv
          [JSON.obj [("data", JSON.obj [("entity", JSON.str "main.go")])], JSON.num "201"]
        = Run.returns ({ status := 201, errors := [], heartbeat := h }, none))) :=
  ⟨rfl, by decide,
    parseHeartbeatResponse_accepted sampleEnv _ (JSON.num "201") [] 201 rfl (by decide)⟩

/-- Members none of whose keys selects `error` leave `resultError` alone. -/
theorem unmarshalErrorMembers_skip :
    ∀ (members : List (String × JSON)) (live : Bool) (cur : String),
      members.filter (fun kv => keyMatches "error" kv.1) = [] →
      unmarshalErrorMembers members live cur = cur := by
  intro members
  induction members with
  | nil => intro live cur _; rfl
  | cons kv rest ih =>
    intro live cur hf
    obtain ⟨k, v⟩ := kv
    by_cases hk : keyMatches "error" k = true
    · simp [List.filter_cons, hk] at hf
    · simp only [List.filter_cons, hk] at hf
      simp only [unmarshalErrorMembers, hk]
      exact ih live cur hf

/-- An object with a single `error` member holding a string decodes to that string. -/
theorem unmarshalErrorMembers_single :
    ∀ (members : List (String × JSON)) (k s cur : String),
      members.filter (fun kv => keyMatches "error" kv.1) = [(k, JSON.str s)] →
      unmarshalErrorMembers members true cur = s := by
  intro members
  induction members with
  | nil => intro k s cur hf; simp at hf
  | cons kv rest ih =>
    intro k s cur hf
    obtain ⟨k0, v0⟩ := kv
    by_cases hk : keyMatches "error" k0 = true
    · simp only [List.filter_cons, hk, if_true, List.cons.injEq, Prod.mk.injEq] at hf
      obtain ⟨⟨rfl, rfl⟩, hrest⟩ := hf
      simp only [unmarshalErrorMembers, hk, if_true]
      exact unmarshalErrorMembers_skip rest true s hrest
    · simp only [List.filter_cons, hk] at hf
      simp only [unmarshalErrorMembers, hk]
      exact ih k s cur hf

/-- C3: for a response pair whose status decodes to a value of 400 or more
(400 included) and whose body is an object with one `error` member holding a
non-empty string `s`, `parseHeartbeatResponse` returns that status, the errors
`[s]` and the zero heartbeat. -/
theorem parseHeartbeatResponse_error_string (E : Env) (members : List (String × JSON))
    (st : JSON) (rest : List JSON) (status : Int) (k s : String)
    (hst : unmarshalInt st 0 = .ok status) (hge : 400 ≤ status)
    (hkey : members.filter (fun kv => keyMatches "error" kv.1) = [(k, JSON.str s)])
    (hs : s ≠ "") :
    parseHeartbeatResponse E (JSON.obj members :: st :: rest)
      = Run.returns ({ status := status, errors := [s], heartbeat := E.zeroHeartbeat }, none) := by
  have hge' : status ≥ 400 := hge
  have hkeyval : unmarshalErrorKey (JSON.obj members) = s :=
    unmarshalErrorMembers_single members k s "" hkey
  simp only [parseHeartbeatResponse, hst, hge', if_true, parseHeartbeatResponseError, hkeyval,
    ne_eq, hs, not_false_eq_true]

/-- The sample pair of a rejected heartbeat, at status 400 exactly. -/
theorem parseHeartbeatResponse_error_string_witness :
    unmarshalInt (JSON.num "400") 0 = .ok 400 ∧ (400 : Int) ≤ 400 ∧
    [("error", JSON.str "bad request")].filter (fun kv => keyMatches "error" kv.1)
      = [("error", JSON.str "bad request")] ∧
    "bad request" ≠ "" ∧
    parseHeartbeatResponse sampleEnv [JSON.obj [("error", JSON.str "bad request")], JSON.num "400"]
      = Run.returns
          ({ status := 400, errors := ["bad request"], heartbeat := sampleEnv.zeroHeartbeat },
            none) :=
  ⟨rfl, by decide, rfl, by decide,
    parseHeartbeatResponse_error_string sampleEnv _ (JSON.num "400") [] 400 "error" "bad request"
      rfl (by decide) rfl (by decide)⟩

/-- Without a non-empty `error` string among the members, `resultError` stays empty. -/
theorem unmarshalErrorMembers_empty :
    ∀ (members : List (String × JSON)) (live : Bool),
      (∀ kv ∈ members, keyMatches "error" kv.1 = true → ∀ s, kv.2 = JSON.str s → s = "") →
      unmarshalErrorMembers members live "" = "" := by
  intro members
  induction members with
  | nil => intro live _; rfl
  | cons kv rest ih =>
    intro live h
    obtain ⟨k, v⟩ := kv
    have hrest : ∀ kv ∈ rest, keyMatches "error" kv.1 = true →
        ∀ s, kv.2 = JSON.str s → s = "" :=
      fun kv hkv => h kv (List.mem_cons_of_mem _ hkv)
    by_cases hk : keyMatches "error" k = true
    · cases v with
      | str s =>
        have hs : s = "" := h (k, JSON.str s) (List.mem_cons_self _ _) hk s rfl
        subst hs
        simp only [unmarshalErrorMembers, hk, if_true, ite_self]
        exact ih live hrest
      | null => simp only [unmarshalErrorMembers, hk, if_true]; exact ih false hrest
      | bool b => simp only [unmarshalErrorMembers, hk, if_true]; exact ih live hrest
      | num l => simp only [unmarshalErrorMembers, hk, if_true]; exact ih live hrest
      | arr xs => simp only [unmarshalErrorMembers, hk, if_true]; exact ih live hrest
      | obj ms => simp only [unmarshalErrorMembers, hk, if_true]; exact ih live hrest
    · simp only [unmarshalErrorMembers, hk]
      exact ih live hrest

/-- Members none of whose keys selects `errors` leave `resultErrors` alone. -/
theorem unmarshalErrorsMembers_skip :
    ∀ (members : List (String × JSON)) (live : Bool) (cur : Option (List (String × JSON))),
      members.filter (fun kv => keyMatches "errors" kv.1) = [] →
      unmarshalErrorsMembers members live cur = cur := by
  intro members
  induction members with
  | nil => intro live cur _; rfl
  | cons kv rest ih =>
    intro live cur hf
    obtain ⟨k, v⟩ := kv
    by_cases hk : keyMatches "errors" k = true
    · simp [List.filter_cons, hk] at hf
    · simp only [List.filter_cons, hk] at hf
      simp only [unmarshalErrorsMembers, hk]
      exact ih live cur hf

/-- An object with a single `errors` member holding an object decodes to the
map of the fields of that object. -/
theorem unmarshalErrorsMembers_single :
    ∀ (members : List (String × JSON)) (k : String) (fields : List (String × JSON)),
      members.filter (fun kv => keyMatches "errors" kv.1) = [(k, JSON.obj fields)] →
      unmarshalErrorsMembers members true none = some (mapSetAll [] fields) := by
  intro members
  induction members with
  | nil => intro k fields hf; simp at hf
  | cons kv rest ih =>
    intro k fields hf
    obtain ⟨k0, v0⟩ := kv
    by_cases hk : keyMatches "errors" k0 = true
    · simp only [List.filter_cons, hk, if_true, List.cons.injEq, Prod.mk.injEq] at hf
      obtain ⟨⟨rfl, rfl⟩, hrest⟩ := hf
      simp only [unmarshalErrorsMembers, hk, if_true, Option.getD_none]
      exact unmarshalErrorsMembers_skip rest true _ hrest
    · simp only [List.filter_cons, hk] at hf
      simp only [unmarshalErrorsMembers, hk]
      exact ih k fields hf

/-- Assigning a key the map does not hold appends the entry. -/
theorem mapSet_new : ∀ (m : List (String × JSON)) (k : String) (v : JSON),
    k ∉ m.map Prod.fst → mapSet m k v = m ++ [(k, v)] := by
  intro m
  induction m with
  | nil => intro k v _; rfl
  | cons kv rest ih =>
    intro k v hk
    obtain ⟨k', v'⟩ := kv
    simp only [List.map_cons, List.mem_cons, not_or] at hk
    have hne : ¬ k' = k := fun h => hk.1 h.symm
    simp only [mapSet, hne, if_false, List.cons_append, ih k v hk.2]

/-- Fields with distinct names, none of them in the map yet, are appended in
document order. -/
theorem mapSetAll_nodup : ∀ (fields m : List (String × JSON)),
    ((m ++ fields).map Prod.fst).Nodup → mapSetAll m fields = m ++ fields := by
  intro fields
  induction fields with
  | nil => intro m _; simp [mapSetAll]
  | cons kv rest ih =>
    intro m hnd
    obtain ⟨k, v⟩ := kv
    have hk : k ∉ m.map Prod.fst := by
      intro hmem
      rw [List.map_append, List.map_cons] at hnd
      have := (List.nodup_append.mp hnd).2.2
      exact this hmem (List.mem_cons_self _ _) 
    have hstep : mapSet m k v = m ++ [(k, v)] := mapSet_new m k v hk
    have hnd' : (((m ++ [(k, v)]) ++ rest).map Prod.fst).Nodup := by
      simpa [List.append_assoc] using hnd
    have := ih (m ++ [(k, v)]) hnd'
    simp only [mapSetAll, List.foldl_cons, hstep] at this ⊢
    rw [this]
    simp [List.append_assoc]

/-- On a map all of whose fields other than `dependencies` hold arrays, the
loop returns, having appended one entry per such field, in the order of the
visit. -/
theorem errorEntries_arrays (E : Env) :
    ∀ (l : List (String × JSON)) (errs : List String),
      (∀ kv ∈ l, kv.1 ≠ "dependencies" → ∃ ms, kv.2 = JSON.arr ms) →
      errorEntries E l errs
        = Run.returns (errs ++ (l.filter (fun kv => kv.1 ≠ "dependencies")).map (fieldEntry E)) := by
  intro l
  induction l with
  | nil => intro errs _; simp [errorEntries]
  | cons kv rest ih =>
    intro errs h
    obtain ⟨f, v⟩ := kv
    have hrest : ∀ kv ∈ rest, kv.1 ≠ "dependencies" → ∃ ms, kv.2 = JSON.arr ms :=
      fun kv hkv => h kv (List.mem_cons_of_mem _ hkv)
    by_cases hf : f = "dependencies"
    · simp only [errorEntries, hf, if_true, List.filter_cons, ne_eq, not_true_eq_false,
        decide_False, Bool.false_eq_true, if_false]
      exact ih errs hrest
    · obtain ⟨ms, hms⟩ := h (f, v) (List.mem_cons_self _ _) hf
      simp only at hms
      subst hms
      simp only [errorEntries, hf, if_false, List.filter_cons, ne_eq, not_false_eq_true,
        decide_True, if_true, List.map_cons, ih _ hrest, List.append_assoc,
        List.singleton_append, fieldEntry, elemsOf]

/-- The shape `{"errors": {...}}`: with no non-empty `error` string, a single
`errors` member holding an object with distinct field names, and an array under
every field other than `dependencies`, the parse returns the entries of those
fields, each once, in the order of the visit of the map. -/
theorem parseHeartbeatResponseError_shape (E : Env) (members fields : List (String × JSON))
    (k : String)
    (herr : ∀ kv ∈ members, keyMatches "error" kv.1 = true → ∀ s, kv.2 = JSON.str s → s = "")
    (herrs : members.filter (fun kv => keyMatches "errors" kv.1) = [(k, JSON.obj fields)])
    (hnodup : (fields.map Prod.fst).Nodup)
    (harr : ∀ kv ∈ fields, kv.1 ≠ "dependencies" → ∃ ms, kv.2 = JSON.arr ms) :
    ∃ errs, parseHeartbeatResponseError E (JSON.obj members) = Run.returns (errs, none) ∧
      errs.Perm ((fields.filter (fun kv => kv.1 ≠ "dependencies")).map (fieldEntry E)) := by
  have h1 : unmarshalErrorKey (JSON.obj members) = "" :=
    unmarshalErrorMembers_empty members true herr
  have h2 : unmarshalErrorsKey (JSON.obj members) = some fields := by
    have := unmarshalErrorsMembers_single members k fields herrs
    rw [mapSetAll_nodup fields [] (by simpa using hnodup)] at this
    simpa [unmarshalErrorsKey] using this
  have hperm := E.rangeOrder_perm fields
  have harr' : ∀ kv ∈ E.rangeOrder fields, kv.1 ≠ "dependencies" → ∃ ms, kv.2 = JSON.arr ms :=
    fun kv hkv => harr kv (hperm.mem_iff.mp hkv)
  refine ⟨_, ?_, (hperm.filter _).map _⟩
  simp only [parseHeartbeatResponseError, h1, h2, ne_eq, not_true_eq_false, if_false,
    errorEntries_arrays E _ [] harr', List.nil_append]

/-- C4: for an error body with no non-empty `error` string whose `errors`
object has the fields `f` with string messages `m1 .. mn` (next to an optional
`dependencies` field), `parseHeartbeatResponseError` returns, for every such
field, the entry `f`, colon, space, `m1 .. mn` joined by single spaces: exactly
one entry per field, in the order the map is visited; a single field gives the
one-element list of its entry. -/
theorem parseHeartbeatResponseError_fields (E : Env) (members fields : List (String × JSON))
    (k : String) (texts : List (String × List String))
    (herr : ∀ kv ∈ members, keyMatches "error" kv.1 = true → ∀ s, kv.2 = JSON.str s → s = "")
    (herrs : members.filter (fun kv => keyMatches "errors" kv.1) = [(k, JSON.obj fields)])
    (hnodup : (fields.map Prod.fst).Nodup)
    (htexts : fields.filter (fun kv => kv.1 ≠ "dependencies")
      = texts.map (fun p => (p.1, JSON.arr (p.2.map JSON.str)))) :
    ∃ errs, parseHeartbeatResponseError E (JSON.obj members) = Run.returns (errs, none) ∧
      errs.Perm (texts.map (fun p => p.1 ++ ": " ++ " ".intercalate p.2)) ∧
      (∀ f ms, texts = [(f, ms)] → errs = [f ++ ": " ++ " ".intercalate ms]) := by
  have harr : ∀ kv ∈ fields, kv.1 ≠ "dependencies" → ∃ ms, kv.2 = JSON.arr ms := by
    intro kv hkv hne
    have hmem : kv ∈ fields.filter (fun kv => kv.1 ≠ "dependencies") := by
      simp [List.mem_filter, hkv, hne]
    rw [htexts, List.mem_map] at hmem
    obtain ⟨p, _, hp⟩ := hmem
    exact ⟨p.2.map JSON.str, by rw [← hp]⟩
  obtain ⟨errs, hrun, hperm⟩ :=
    parseHeartbeatResponseError_shape E members fields k herr herrs hnodup harr
  have hmap : (fields.filter (fun kv => kv.1 ≠ "dependencies")).map (fieldEntry E)
      = texts.map (fun p => p.1 ++ ": " ++ " ".intercalate p.2) := by
    rw [htexts, List.map_map]
    apply List.map_congr_left
    intro p _
    simp only [Function.comp, fieldEntry, elemsOf, List.map_map]
    congr 2
    induction p.2 with
    | nil => rfl
    | cons m ms ih => simp only [List.map_cons, Function.comp, fmtSprint, ih]
  rw [hmap] at hperm
  refine ⟨errs, hrun, hperm, ?_⟩
  intro f ms hsingle
  rw [hsingle] at hperm
  simpa using hperm

/-- The sample body with a `time` field of two messages next to a
`dependencies` field. -/
theorem parseHeartbeatResponseError_fields_witness :
    (∀ kv ∈ sampleErrorsBody, keyMatches "error" kv.1 = true →
      ∀ s, kv.2 = JSON.str s → s = "") ∧
    sampleErrorsBody.filter (fun kv => keyMatches "errors" kv.1)
      = [("errors", JSON.obj [("time", JSON.arr [JSON.str "is required",
          JSON.str "must be a number"]), ("dependencies", JSON.num "5")])] ∧
    ∃ errs, parseHeartbeatResponseError sampleEnv (JSON.obj sampleErrorsBody)
        = Run.returns (errs, none) ∧
      errs.Perm ([("time", ["is required", "must be a number"])].map
        (fun p => p.1 ++ ": " ++ " ".intercalate p.2)) ∧
      (∀ f ms, [("time", ["is required", "must be a number"])] = [(f, ms)] →
        errs = [f ++ ": " ++ " ".intercalate ms]) :=
  have herr : ∀ kv ∈ sampleErrorsBody, keyMatches "error" kv.1 = true →
      ∀ s, kv.2 = JSON.str s → s = "" := by
    intro kv hkv hk
    simp only [sampleErrorsBody, List.mem_singleton] at hkv
    subst hkv
    exact absurd hk (by decide)
  ⟨herr, rfl,
    parseHeartbeatResponseError_fields sampleEnv sampleErrorsBody _ "errors"
      [("time", ["is required", "must be a number"])] herr rfl (by decide) rfl⟩

/-- C5 fails as stated: on the body `{"error": "x", "errors": {"a": ["1"],
"b": ["2"]}}`, which has an `errors` object with two fields other than
`dependencies`, one error string is returned. -/
theorem parseHeartbeatResponseError_dependencies_counterexample :
    sampleBothKeys.filter (fun kv => keyMatches "errors" kv.1)
      = [("errors", JSON.obj [("a", JSON.arr [JSON.str "1"]), ("b", JSON.arr [JSON.str "2"])])] ∧
    parseHeartbeatResponseError sampleEnv (JSON.obj sampleBothKeys) = Run.returns (["x"], none) ∧
    ["x"].length ≠
      ([("a", JSON.arr [JSON.str "1"]), ("b", JSON.arr [JSON.str "2"])].filter
        (fun kv => kv.1 ≠ "dependencies")).length :=
  ⟨rfl, rfl, by decide⟩

/-- C5, amended: for an error body with no non-empty `error` string, whose
`errors` object has distinct field names and holds an array under every field
other than `dependencies`, `parseHeartbeatResponseError` returns as many
strings as there are fields other than `dependencies`, and the strings are the
entries of those fields, each once: none is built from `dependencies`. -/
theorem parseHeartbeatResponseError_dependencies (E : Env)
    (members fields : List (String × JSON)) (k : String)
    (herr : ∀ kv ∈ members, keyMatches "error" kv.1 = true → ∀ s, kv.2 = JSON.str s → s = "")
    (herrs : members.filter (fun kv => keyMatches "errors" kv.1) = [(k, JSON.obj fields)])
    (hnodup : (fields.map Prod.fst).Nodup)
    (harr : ∀ kv ∈ fields, kv.1 ≠ "dependencies" → ∃ ms, kv.2 = JSON.arr ms) :
    ∃ errs, parseHeartbeatResponseError E (JSON.obj members) = Run.returns (errs, none) ∧
      errs.length = (fields.filter (fun kv => kv.1 ≠ "dependencies")).length ∧
      errs.Perm ((fields.filter (fun kv => kv.1 ≠ "dependencies")).map (fieldEntry E)) ∧
      ∀ e ∈ errs, ∃ kv ∈ fields, kv.1 ≠ "dependencies" ∧ e = fieldEntry E kv := by
  obtain ⟨errs, hrun, hperm⟩ :=
    parseHeartbeatResponseError_shape E members fields k herr herrs hnodup harr
  refine ⟨errs, hrun, ?_, hperm, ?_⟩
  · simpa using hperm.length_eq
  · intro e he
    have := hperm.mem_iff.mp he
    rw [List.mem_map] at this
    obtain ⟨kv, hkv, rfl⟩ := this
    rw [List.mem_filter] at hkv
    exact ⟨kv, hkv.1, by simpa using hkv.2, rfl⟩

/-- The sample body with a `time` field next to a `dependencies` field that
holds no array. -/
theorem parseHeartbeatResponseError_dependencies_witness :
    (∀ kv ∈ sampleErrorsBody, keyMatches "error" kv.1 = true →
      ∀ s, kv.2 = JSON.str s → s = "") ∧
    ∃ errs, parseHeartbeatResponseError sampleEnv (JSON.obj sampleErrorsBody)
        = Run.returns (errs, none) ∧
      errs.length = ([("time", JSON.arr [JSON.str "is required", JSON.str "must be a number"]),
        ("dependencies", JSON.num "5")].filter (fun kv => kv.1 ≠ "dependencies")).length ∧
      errs.Perm (([("time", JSON.arr [JSON.str "is required", JSON.str "must be a number"]),
        ("dependencies", JSON.num "5")].filter
          (fun kv => kv.1 ≠ "dependencies")).map (fieldEntry sampleEnv)) ∧
      ∀ e ∈ errs, ∃ kv ∈ [("time", JSON.arr [JSON.str "is required",
          JSON.str "must be a number"]), ("dependencies", JSON.num "5")],
        kv.1 ≠ "dependencies" ∧ e = fieldEntry sampleEnv kv :=
  have herr : ∀ kv ∈ sampleErrorsBody, keyMatches "error" kv.1 = true →
      ∀ s, kv.2 = JSON.str s → s = "" := by
    intro kv hkv hk
    simp only [sampleErrorsBody, List.mem_singleton] at hkv
    subst hkv
    exact absurd hk (by decide)
  ⟨herr,
    parseHeartbeatResponseError_dependencies sampleEnv sampleErrorsBody _ "errors" herr rfl
      (by decide)
      (by
        intro kv hkv hne
        simp only [List.mem_cons, List.mem_singleton, List.not_mem_nil, or_false] at hkv
        rcases hkv with rfl | rfl
        · exact ⟨_, rfl⟩
        · exact absurd rfl hne)⟩

/-- Members none of whose keys selects `responses` leave the field alone. -/
theorem unmarshalResponsesMembers_skip :
    ∀ (members : List (String × JSON)) (cur : List (List JSON)),
      (∀ kv ∈ members, keyMatches "responses" kv.1 = false) →
      unmarshalResponsesMembers members cur = .ok cur := by
  intro members
  induction members with
  | nil => intro cur _; rfl
  | cons kv rest ih =>
    intro cur h
    obtain ⟨k, v⟩ := kv
    have hk : keyMatches "responses" k = false := h (k, v) (List.mem_cons_self _ _)
    simp only [unmarshalResponsesMembers, hk, Bool.false_eq_true, if_false]
    exact ih cur (fun kv hkv => h kv (List.mem_cons_of_mem _ hkv))

/-- C6 fails as stated: the body `{}` is valid JSON without a `responses` key,
and `ParseHeartbeatResponses` returns no results and no error on it. -/
theorem ParseHeartbeatResponses_no_responses_counterexample :
    scan sampleEmptyObject = some (JSON.obj []) ∧
    ParseHeartbeatResponses sampleEnv sampleEmptyObject = Run.returns ([], none) :=
  ⟨rfl, rfl⟩

/-- C6, amended: for a body that is valid JSON and has no `responses` key,
`ParseHeartbeatResponses` returns an empty result list and no error when the
document is an object or `null`, and returns no results and an error, whose
message ends with the quoted body, when the document is any other value. -/
theorem ParseHeartbeatResponses_no_responses (E : Env) (data : String) (doc : JSON)
    (hscan : scan data = some doc)
    (hkey : ∀ members, doc = JSON.obj members →
      ∀ kv ∈ members, keyMatches "responses" kv.1 = false) :
    ((doc = JSON.null ∨ ∃ members, doc = JSON.obj members) →
      ParseHeartbeatResponses E data = Run.returns ([], none)) ∧
    ((doc ≠ JSON.null ∧ ∀ members, doc ≠ JSON.obj members) →
      ∃ pre, ParseHeartbeatResponses E data
        = Run.returns ([], some (errorf (pre ++ E.quote data)))) := by
  constructor
  · rintro (rfl | ⟨members, rfl⟩)
    · simp only [ParseHeartbeatResponses, unmarshalResponses, hscan, unmarshalResponsesDoc,
        parseLoop]
    · simp only [ParseHeartbeatResponses, unmarshalResponses, hscan, unmarshalResponsesDoc,
        unmarshalResponsesMembers_skip members [] (hkey members rfl), parseLoop]
  · rintro ⟨hnull, hobj⟩
    cases doc with
    | null => exact absurd rfl hnull
    | obj members => exact absurd rfl (hobj members)
    | bool b =>
      exact ⟨_, by
        simp only [ParseHeartbeatResponses, unmarshalResponses, hscan, unmarshalResponsesDoc]
        rfl⟩
    | num l =>
      exact ⟨_, by
        simp only [ParseHeartbeatResponses, unmarshalResponses, hscan, unmarshalResponsesDoc]
        rfl⟩
    | str t =>
      exact ⟨_, by
        simp only [ParseHeartbeatResponses, unmarshalResponses, hscan, unmarshalResponsesDoc]
        rfl⟩
    | arr xs =>
      exact ⟨_, by
        simp only [ParseHeartbeatResponses, unmarshalResponses, hscan, unmarshalResponsesDoc]
        rfl⟩

/-- The sample body `{}`. -/
theorem ParseHeartbeatResponses_no_responses_witness :
    scan sampleEmptyObject = some (JSON.obj []) ∧
    (((JSON.obj [] = JSON.null ∨ ∃ members, JSON.obj [] = JSON.obj members) →
      ParseHeartbeatResponses sampleEnv sampleEmptyObject = Run.returns ([], none)) ∧
    ((JSON.obj [] ≠ JSON.null ∧ ∀ members, JSON.obj [] ≠ JSON.obj members) →
      ∃ pre, ParseHeartbeatResponses sampleEnv sampleEmptyObject
        = Run.returns ([], some (errorf (pre ++ sampleEnv.quote sampleEmptyObject))))) :=
  ⟨rfl, ParseHeartbeatResponses_no_responses sampleEnv sampleEmptyObject (JSON.obj []) rfl
    (by
      intro members hm kv hkv
      cases hm
      exact absurd hkv (List.not_mem_nil _))⟩

/-- C7 fails on the code: on the bodies `{"responses": [[]]}` and
`{"responses": [[{}]]}`, whose entry has fewer than two elements,
`ParseHeartbeatResponses` returns no error value; the index expression
`data[1]` panics. -/
theorem ParseHeartbeatResponses_short_entry_panics :
    ParseHeartbeatResponses sampleEnv sampleEmptyEntry
      = Run.panics "runtime error: index out of range [1] with length 0" ∧
    ParseHeartbeatResponses sampleEnv sampleShortEntry
      = Run.panics "runtime error: index out of range [1] with length 1" :=
  ⟨rfl, rfl⟩

/-- An entry whose parse fails, after entries that parse, ends the loop with
no results and an error that names the index of the entry and quotes the body. -/
theorem parseLoop_fails (E : Env) (data : String) :
    ∀ (rs : List (List JSON)) (k n : Nat) (acc : List (Result E.Heartbeat)) (r : List JSON)
      (res : Result E.Heartbeat) (err : GoError),
      rs[k]? = some r →
      parseHeartbeatResponse E r = Run.returns (res, some err) →
      (∀ i, i < k → ∃ r' res', rs[i]? = some r' ∧
        parseHeartbeatResponse E r' = Run.returns (res', none)) →
      parseLoop E data rs n acc
        = Run.returns ([], some (errorf ("failed parsing result #" ++ toString (n + k) ++ ": "
            ++ err.msg ++ ". body: " ++ E.quote data))) := by
  intro rs
  induction rs with
  | nil => intro k n acc r res err hk; simp at hk
  | cons r0 rest ih =>
    intro k n acc r res err hk hr hbefore
    cases k with
    | zero =>
      simp only [List.getElem?_cons_zero, Option.some.injEq] at hk
      subst hk
      simp only [parseLoop, hr, Nat.add_zero]
    | succ k =>
      obtain ⟨r', res', h0, hp0⟩ := hbefore 0 (Nat.succ_pos k)
      simp only [List.getElem?_cons_zero, Option.some.injEq] at h0
      subst h0
      simp only [List.getElem?_cons_succ] at hk
      have hbefore' : ∀ i, i < k → ∃ r' res', rest[i]? = some r' ∧
          parseHeartbeatResponse E r' = Run.returns (res', none) := by
        intro i hi
        have := hbefore (i + 1) (Nat.succ_lt_succ hi)
        simpa only [List.getElem?_cons_succ] using this
      have := ih k (n + 1) (acc ++ [res']) r res err hk hr hbefore'
      simp only [parseLoop, hp0, this]
      have hn : n + 1 + k = n + (k + 1) := by omega
      rw [hn]

/-- When every entry that is left can be indexed and decoded without a panic
and some entry fails to parse, the loop ends with no results and an error that
names the index of a failing entry and quotes the body. -/
theorem parseLoop_some_fails (E : Env) (data : String) :
    ∀ (rs : List (List JSON)) (n : Nat) (acc : List (Result E.Heartbeat)),
      (∀ r ∈ rs, ∃ v, parseHeartbeatResponse E r = Run.returns v) →
      (∃ r ∈ rs, ∃ res err, parseHeartbeatResponse E r = Run.returns (res, some err)) →
      ∃ k r res err, rs[k]? = some r ∧
        parseHeartbeatResponse E r = Run.returns (res, some err) ∧
        parseLoop E data rs n acc
          = Run.returns ([], some (errorf ("failed parsing result #" ++ toString (n + k) ++ ": "
              ++ err.msg ++ ". body: " ++ E.quote data))) := by
  intro rs
  induction rs with
  | nil => intro n acc _ hex; obtain ⟨r, hr, _⟩ := hex; exact absurd hr (List.not_mem_nil _)
  | cons r0 rest ih =>
    intro n acc hall hex
    obtain ⟨v, hv⟩ := hall r0 (List.mem_cons_self _ _)
    obtain ⟨res0, e0⟩ := v
    cases e0 with
    | some err0 =>
      exact ⟨0, r0, res0, err0, List.getElem?_cons_zero, hv,
        by simp only [parseLoop, hv, Nat.add_zero]⟩
    | none =>
      have hex' : ∃ r ∈ rest, ∃ res err,
          parseHeartbeatResponse E r = Run.returns (res, some err) := by
        obtain ⟨r, hr, res, err, hp⟩ := hex
        rcases List.mem_cons.mp hr with rfl | hr'
        · rw [hv] at hp; simp at hp
        · exact ⟨r, hr', res, err, hp⟩
      obtain ⟨k, r, res, err, hk, hp, hloop⟩ :=
        ih (n + 1) (acc ++ [res0]) (fun r hr => hall r (List.mem_cons_of_mem _ hr)) hex'
      refine ⟨k + 1, r, res, err, by simpa using hk, hp, ?_⟩
      simp only [parseLoop, hv, hloop]
      have hn : n + 1 + k = n + (k + 1) := by omega
      rw [hn]

/-- Whenever the loop returns an error, it returns no results, and the message
ends with the quoted body. -/
theorem parseLoop_error (E : Env) (data : String) :
    ∀ (rs : List (List JSON)) (n : Nat) (acc out : List (Result E.Heartbeat)) (err : GoError),
      parseLoop E data rs n acc = Run.returns (out, some err) →
      out = [] ∧ ∃ pre, err.msg = pre ++ E.quote data := by
  intro rs
  induction rs with
  | nil => intro n acc out err h; simp [parseLoop] at h
  | cons r rest ih =>
    intro n acc out err h
    rw [parseLoop] at h
    cases hp : parseHeartbeatResponse E r with
    | returns v =>
      obtain ⟨res, e⟩ := v
      cases e with
      | some e =>
        rw [hp] at h
        simp only [Run.returns.injEq, Prod.mk.injEq, Option.some.injEq] at h
        obtain ⟨h1, h2⟩ := h
        exact ⟨h1.symm, ⟨_, by rw [← h2]; rfl⟩⟩
      | none =>
        rw [hp] at h
        exact ih (n + 1) (acc ++ [res]) out err h
    | panics m => rw [hp] at h; simp at h
    | blocks => rw [hp] at h; simp at h

/-- C8: `ParseHeartbeatResponses` is all-or-nothing. A body that is not valid
JSON, or does not decode, gives no results and an error that quotes the body;
an entry whose parse fails, after entries that parse, gives no results and an
error that names the zero-based index of the entry and quotes the body; when
no entry makes the parse panic and some entry fails to parse, the error names
the index of a failing entry; and whenever an error is returned, the results
are empty and the message ends with the quoted body. -/
theorem ParseHeartbeatResponses_all_or_nothing (E : Env) (data : String) :
    (scan data = none →
      ParseHeartbeatResponses E data
        = Run.returns ([], some (errorf ("failed to parse json response body: "
            ++ E.errText JsonErr.invalid ++ ". body: " ++ E.quote data)))) ∧
    (∀ e, unmarshalResponses data = .error e →
      ParseHeartbeatResponses E data
        = Run.returns ([], some (errorf ("failed to parse json response body: "
            ++ E.errText e ++ ". body: " ++ E.quote data)))) ∧
    (∀ (responses : List (List JSON)) (n : Nat) (r : List JSON) (res : Result E.Heartbeat)
        (err : GoError),
      unmarshalResponses data = .ok responses →
      responses[n]? = some r →
      parseHeartbeatResponse E r = Run.returns (res, some err) →
      (∀ i, i < n → ∃ r' res', responses[i]? = some r' ∧
        parseHeartbeatResponse E r' = Run.returns (res', none)) →
      ParseHeartbeatResponses E data
        = Run.returns ([], some (errorf ("failed parsing result #" ++ toString n ++ ": "
            ++ err.msg ++ ". body: " ++ E.quote data)))) ∧
    (∀ (responses : List (List JSON)),
      unmarshalResponses data = .ok responses →
      (∀ r ∈ responses, ∃ v, parseHeartbeatResponse E r = Run.returns v) →
      (∃ r ∈ responses, ∃ res err, parseHeartbeatResponse E r = Run.returns (res, some err)) →
      ∃ (n : Nat) (r : List JSON) (res : Result E.Heartbeat) (err : GoError),
        responses[n]? = some r ∧
        parseHeartbeatResponse E r = Run.returns (res, some err) ∧
        ParseHeartbeatResponses E data
          = Run.returns ([], some (errorf ("failed parsing result #" ++ toString n ++ ": "
              ++ err.msg ++ ". body: " ++ E.quote data)))) ∧
    (∀ results err, ParseHeartbeatResponses E data = Run.returns (results, some err) →
      results = [] ∧ ∃ pre, err.msg = pre ++ E.quote data) := by
  refine ⟨?_, ?_, ?_, ?_, ?_⟩
  · intro hscan
    simp only [ParseHeartbeatResponses, unmarshalResponses, hscan]
  · intro e he
    simp only [ParseHeartbeatResponses, he]
  · intro responses n r res err hu hn hr hbefore
    have := parseLoop_fails E data responses n 0 [] r res err hn hr hbefore
    simp only [ParseHeartbeatResponses, hu, this, Nat.zero_add]
  · intro responses hu hall hex
    obtain ⟨k, r, res, err, hk, hp, hloop⟩ :=
      parseLoop_some_fails E data responses 0 [] hall hex
    refine ⟨k, r, res, err, hk, hp, ?_⟩
    simp only [ParseHeartbeatResponses, hu, hloop, Nat.zero_add]
  · intro results err h
    unfold ParseHeartbeatResponses at h
    cases hu : unmarshalResponses data with
    | error e =>
      rw [hu] at h
      simp only [Run.returns.injEq, Prod.mk.injEq, Option.some.injEq] at h
      obtain ⟨h1, h2⟩ := h
      exact ⟨h1.symm, ⟨_, by rw [← h2]; rfl⟩⟩
    | ok responses =>
      rw [hu] at h
      exact parseLoop_error E data responses 0 [] results err h

/-- The sample body whose second entry has a status that is not a number:
the error names index 1 and quotes the body. -/
theorem ParseHeartbeatResponses_all_or_nothing_witness :
    unmarshalResponses sampleBadStatus
      = .ok [[JSON.obj [("data", JSON.obj [])], JSON.num "201"],
          [JSON.obj [("data", JSON.obj [])], JSON.str "x"]] ∧
    parseHeartbeatResponse sampleEnv [JSON.obj [("data", JSON.obj [])], JSON.str "x"]
      = Run.returns (sampleEnv.zeroResult, some (errorf
          "failed to parse json status: json: cannot unmarshal string into int")) ∧
    ParseHeartbeatResponses sampleEnv sampleBadStatus
      = Run.returns ([], some (errorf ("failed parsing result #" ++ toString 1 ++ ": "
          ++ "failed to parse json status: json: cannot unmarshal string into int"
          ++ ". body: " ++ sampleEnv.quote sampleBadStatus))) :=
  ⟨rfl, rfl,
    (ParseHeartbeatResponses_all_or_nothing sampleEnv sampleBadStatus).2.2.1
      [[JSON.obj [("data", JSON.obj [])], JSON.num "201"],
        [JSON.obj [("data", JSON.obj [])], JSON.str "x"]]
      1 [JSON.obj [("data", JSON.obj [])], JSON.str "x"] sampleEnv.zeroResult
      (errorf "failed to parse json status: json: cannot unmarshal string into int")
      rfl rfl rfl
      (by
        intro i hi
        have h0 : i = 0 := by omega
        subst h0
        exact ⟨_, _, rfl, rfl⟩)⟩

end api

/-! ## Properties of the bulk sender -/

namespace api

/-- Heartbeats that all carry the key of the one group are appended to it. -/
theorem groupAppend_foldl_same (E : Env) (k : String) :
    ∀ (hh acc : List E.Heartbeat), (∀ h ∈ hh, E.ApiKey h = k) →
      hh.foldl (fun grouped h => groupAppend grouped (E.ApiKey h) h) [(k, acc)]
        = [(k, acc ++ hh)] := by
  intro hh
  induction hh with
  | nil => intro acc _; simp
  | cons h t ih =>
    intro acc hk
    have hh0 : E.ApiKey h = k := hk h (List.mem_cons_self _ _)
    have ht : ∀ x ∈ t, E.ApiKey x = k := fun x hx => hk x (List.mem_cons_of_mem _ hx)
    simp only [List.foldl_cons, hh0, groupAppend, if_true]
    rw [ih (acc ++ [h]) ht]
    simp

/-- A non-empty batch under a single api key makes one group: the batch. -/
theorem groupByApiKey_single (E : Env) (k : String) (hh : List E.Heartbeat)
    (hne : hh ≠ []) (hk : ∀ h ∈ hh, E.ApiKey h = k) :
    groupByApiKey E hh = [(k, hh)] := by
  cases hh with
  | nil => exact absurd rfl hne
  | cons h t =>
    have hh0 : E.ApiKey h = k := hk h (List.mem_cons_self _ _)
    have ht : ∀ x ∈ t, E.ApiKey x = k := fun x hx => hk x (List.mem_cons_of_mem _ hx)
    simp only [groupByApiKey, List.foldl_cons, hh0, groupAppend]
    rw [groupAppend_foldl_same E k t [h] ht]
    simp

/-- C9: for a non-empty batch under a single api key whose request is answered
with status 201 or 202, `SendHeartbeats` returns the results of
`ParseHeartbeatResponses` on the response body with a nil error when that
parse succeeds, and no results with an error of type `Err` when it fails. -/
theorem SendHeartbeats_single_key_created (E : Env) (N : Http E) (s : Sched) (c : N.Client)
    (heartbeats : List E.Heartbeat) (k d body : String) (status : Int)
    (hne : heartbeats ≠ []) (hk : ∀ h ∈ heartbeats, E.ApiKey h = k)
    (hmarshal : N.marshal heartbeats = .ok d)
    (hreq : N.newRequestErr (bulkURL E N c) = none)
    (hdo : N.doReq c
        { method := "POST", url := bulkURL E N c,
          header := [("Content-Type", "application/json")], body := d }
      = .ok { statusCode := status, body := .ok body })
    (hst : status = 201 ∨ status = 202) :
    (∀ results, ParseHeartbeatResponses E body = Run.returns (results, none) →
      SendHeartbeats E N s c heartbeats = Run.returns (results, none)) ∧
    (∀ results err, ParseHeartbeatResponses E body = Run.returns (results, some err) →
      SendHeartbeats E N s c heartbeats
        = Run.returns ([], some ⟨ErrKind.Err,
            "failed parsing results from " ++ E.quote (bulkURL E N c) ++ ": " ++ err.msg⟩)) := by
  have hg : (groupByApiKey E heartbeats).length = 1 := by
    rw [groupByApiKey_single E k heartbeats hne hk]; rfl
  constructor
  · intro results hp
    simp only [SendHeartbeats, hg, if_true, sendHeartbeats, hmarshal, hreq, hdo, hst, hp]
  · intro results err hp
    simp only [SendHeartbeats, hg, if_true, sendHeartbeats, hmarshal, hreq, hdo, hst, hp]

/-- The sample batch of one heartbeat, answered with status 201. -/
theorem SendHeartbeats_single_key_created_witness :
    ([⟨"key", "main.go"⟩] : List sampleEnv.Heartbeat) ≠ [] ∧
    (∀ h ∈ ([⟨"key", "main.go"⟩] : List sampleEnv.Heartbeat), sampleEnv.ApiKey h = "key") ∧
    ((∀ results, ParseHeartbeatResponses sampleEnv sampleAccepted = Run.returns (results, none) →
      SendHeartbeats sampleEnv (sampleHttp 201 sampleAccepted) (sampleSched 1) ()
          [⟨"key", "main.go"⟩]
        = Run.returns (results, none)) ∧
    (∀ results err,
      ParseHeartbeatResponses sampleEnv sampleAccepted = Run.returns (results, some err) →
      SendHeartbeats sampleEnv (sampleHttp 201 sampleAccepted) (sampleSched 1) ()
          [⟨"key", "main.go"⟩]
        = Run.returns ([], some ⟨ErrKind.Err,
            "failed parsing results from "
              ++ sampleEnv.quote (bulkURL sampleEnv (sampleHttp 201 sampleAccepted) ())
              ++ ": " ++ err.msg⟩))) :=
  have hk : ∀ h ∈ ([⟨"key", "main.go"⟩] : List sampleEnv.Heartbeat),
      sampleEnv.ApiKey h = "key" := by
    intro h hh
    simp only [List.mem_singleton] at hh
    subst hh
    rfl
  ⟨List.cons_ne_nil _ _, hk,
    SendHeartbeats_single_key_created sampleEnv (sampleHttp 201 sampleAccepted) (sampleSched 1) ()
      [⟨"key", "main.go"⟩] "key" "[]" sampleAccepted 201 (List.cons_ne_nil _ _) hk rfl rfl rfl
      (Or.inl rfl)⟩

/-- A send goes on with the answer to the one request it makes. -/
theorem sendHeartbeats_request (E : Env) (N : Http E) (c : N.Client) (url : String)
    (hh : List E.Heartbeat) (d : String)
    (hmarshal : N.marshal hh = .ok d) (hreq : N.newRequestErr url = none) :
    sendHeartbeats E N c url hh
      = handleResponse E url (N.doReq c
          { method := "POST", url := url, header := [("Content-Type", "application/json")],
            body := d }) := by
  simp only [sendHeartbeats, hmarshal, hreq, handleResponse]

/-- The keys of the map after `grouped[k] = append(grouped[k], h)`: the key
`k` is added at the end when it is new. -/
theorem groupAppend_keys {H : Type} :
    ∀ (g : List (String × List H)) (k : String) (h : H),
      (groupAppend g k h).map Prod.fst
        = if k ∈ g.map Prod.fst then g.map Prod.fst else g.map Prod.fst ++ [k] := by
  intro g
  induction g with
  | nil => intro k h; simp [groupAppend]
  | cons kv rest ih =>
    intro k h
    obtain ⟨k1, hs1⟩ := kv
    by_cases hk : k1 = k
    · subst hk
      simp [groupAppend]
    · have hk' : ¬ k = k1 := fun e => hk e.symm
      simp only [groupAppend, hk, if_false, List.map_cons, ih k h, List.mem_cons, hk', false_or]
      split <;> simp

/-- The entries of the map after `grouped[k] = append(grouped[k], h)`: the
entries under other keys are the old ones, the entry under `k` is the old one
with `h` appended, or `[h]` when `k` is new. -/
theorem groupAppend_mem {H : Type} :
    ∀ (g : List (String × List H)) (k : String) (h : H), (g.map Prod.fst).Nodup →
      ∀ (k' : String) (g' : List H), (k', g') ∈ groupAppend g k h →
        (k' ≠ k ∧ (k', g') ∈ g) ∨
        (k' = k ∧ ((∃ hs, (k, hs) ∈ g ∧ g' = hs ++ [h]) ∨ (k ∉ g.map Prod.fst ∧ g' = [h]))) := by
  intro g
  induction g with
  | nil =>
    intro k h _ k' g' hmem
    simp only [groupAppend, List.mem_singleton, Prod.mk.injEq] at hmem
    exact Or.inr ⟨hmem.1, Or.inr ⟨by simp, hmem.2⟩⟩
  | cons kv rest ih =>
    intro k h hnd k' g' hmem
    obtain ⟨k1, hs1⟩ := kv
    simp only [List.map_cons, List.nodup_cons] at hnd
    obtain ⟨hk1, hndrest⟩ := hnd
    by_cases hk : k1 = k
    · subst hk
      simp only [groupAppend, if_true, List.mem_cons, Prod.mk.injEq] at hmem
      rcases hmem with ⟨rfl, rfl⟩ | hmem
      · exact Or.inr ⟨rfl, Or.inl ⟨hs1, List.mem_cons_self _ _, rfl⟩⟩
      · have hne : k' ≠ k1 := by
          intro e
          subst e
          exact hk1 (List.mem_map.mpr ⟨(k', g'), hmem, rfl⟩)
        exact Or.inl ⟨hne, List.mem_cons_of_mem _ hmem⟩
    · simp only [groupAppend, hk, if_false, List.mem_cons, Prod.mk.injEq] at hmem
      rcases hmem with ⟨rfl, rfl⟩ | hmem
      · exact Or.inl ⟨hk, List.mem_cons_self _ _⟩
      · rcases ih k h hndrest k' g' hmem with ⟨hne, hin⟩ | ⟨heq, hcase⟩
        · exact Or.inl ⟨hne, List.mem_cons_of_mem _ hin⟩
        · refine Or.inr ⟨heq, ?_⟩
          rcases hcase with ⟨hs, hin, hg'⟩ | ⟨hnot, hg'⟩
          · exact Or.inl ⟨hs, List.mem_cons_of_mem _ hin, hg'⟩
          · refine Or.inr ⟨?_, hg'⟩
            simp only [List.map_cons, List.mem_cons, not_or]
            exact ⟨fun e => hk e.symm, hnot⟩

/-- The statement `grouped[k] = append(grouped[k], h)` adds one heartbeat to the map. -/
theorem groupAppend_sum {H : Type} :
    ∀ (g : List (String × List H)) (k : String) (h : H),
      ((groupAppend g k h).map (fun kv => kv.2.length)).sum
        = (g.map (fun kv => kv.2.length)).sum + 1 := by
  intro g
  induction g with
  | nil => intro k h; simp [groupAppend]
  | cons kv rest ih =>
    intro k h
    obtain ⟨k1, hs1⟩ := kv
    by_cases hk : k1 = k
    · simp only [groupAppend, hk, if_true, List.map_cons, List.sum_cons, List.length_append,
        List.length_singleton]
      omega
    · simp only [groupAppend, hk, if_false, List.map_cons, List.sum_cons, ih k h]
      omega

/-- One more heartbeat in the batch is one more `groupAppend`. -/
theorem groupByApiKey_append (E : Env) (l : List E.Heartbeat) (a : E.Heartbeat) :
    groupByApiKey E (l ++ [a]) = groupAppend (groupByApiKey E l) (E.ApiKey a) a := by
  simp [groupByApiKey, List.foldl_append]

/-- The map built by `groupByApiKey`: the keys are distinct, they are the api
keys that occur in the batch, every group is the sub-list of the batch under
its key, and the groups hold as many heartbeats as the batch. -/
theorem groupByApiKey_inv (E : Env) (hh : List E.Heartbeat) :
    ((groupByApiKey E hh).map Prod.fst).Nodup ∧
    (∀ k, k ∈ (groupByApiKey E hh).map Prod.fst ↔ ∃ h ∈ hh, E.ApiKey h = k) ∧
    (∀ k g, (k, g) ∈ groupByApiKey E hh → g = hh.filter (fun h => E.ApiKey h = k)) ∧
    ((groupByApiKey E hh).map (fun kv => kv.2.length)).sum = hh.length := by
  induction hh using List.reverseRecOn with
  | nil => simp [groupByApiKey]
  | append_singleton l a ih =>
    obtain ⟨hnd, hkeys, hgroups, hsum⟩ := ih
    rw [groupByApiKey_append]
    have hk := groupAppend_keys (groupByApiKey E l) (E.ApiKey a) a
    refine ⟨?_, ?_, ?_, ?_⟩
    · rw [hk]
      split
      · exact hnd
      · rename_i hnot
        rw [List.nodup_append]
        refine ⟨hnd, List.nodup_singleton _, ?_⟩
        intro x hx hx'
        rw [List.mem_singleton] at hx'
        subst hx'
        exact hnot hx
    · intro k
      have hmem : k ∈ (groupAppend (groupByApiKey E l) (E.ApiKey a) a).map Prod.fst
          ↔ k ∈ (groupByApiKey E l).map Prod.fst ∨ k = E.ApiKey a := by
        rw [hk]
        split
        · rename_i hin
          constructor
          · exact Or.inl
          · rintro (h | h)
            · exact h
            · rw [h]; exact hin
        · simp
      rw [hmem, hkeys k]
      constructor
      · rintro (⟨h, hh, hkey⟩ | hkey)
        · exact ⟨h, List.mem_append_left _ hh, hkey⟩
        · exact ⟨a, by simp, hkey.symm⟩
      · rintro ⟨h, hh, hkey⟩
        rcases List.mem_append.mp hh with hh | hh
        · exact Or.inl ⟨h, hh, hkey⟩
        · rw [List.mem_singleton] at hh
          subst hh
          exact Or.inr hkey.symm
    · intro k g hmem
      rcases groupAppend_mem (groupByApiKey E l) (E.ApiKey a) a hnd k g hmem with
        ⟨hne, hin⟩ | ⟨heq, hcase⟩
      · have hne' : ¬ E.ApiKey a = k := fun e => hne e.symm
        rw [hgroups k g hin]
        simp [List.filter_append, List.filter_cons, hne']
      · subst heq
        rcases hcase with ⟨hs, hin, hg⟩ | ⟨hnot, hg⟩
        · rw [hg, hgroups _ hs hin]
          simp [List.filter_append, List.filter_cons]
        · have hnone : l.filter (fun h => E.ApiKey h = E.ApiKey a) = [] := by
            rw [List.filter_eq_nil_iff]
            intro h hh hkey
            exact hnot ((hkeys _).mpr ⟨h, hh, by simpa using hkey⟩)
          rw [hg]
          simp [List.filter_append, List.filter_cons, hnone]
    · rw [groupAppend_sum, hsum]
      simp

/-- C15: `groupByApiKey` partitions the batch by api key. The keys of the map
are distinct and are exactly the api keys occurring in the batch; the group
under a key `k` is the sub-list of the heartbeats whose `ApiKey` is `k`, in
their order in the batch; no group is empty; and the lengths of the groups sum
to the length of the batch. -/
theorem groupByApiKey_partition (E : Env) (hh : List E.Heartbeat) :
    ((groupByApiKey E hh).map Prod.fst).Nodup ∧
    (∀ k, k ∈ (groupByApiKey E hh).map Prod.fst ↔ ∃ h ∈ hh, E.ApiKey h = k) ∧
    (∀ k g, (k, g) ∈ groupByApiKey E hh →
      g = hh.filter (fun h => E.ApiKey h = k) ∧ g ≠ []) ∧
    ((groupByApiKey E hh).map (fun kv => kv.2.length)).sum = hh.length := by
  obtain ⟨hnd, hkeys, hgroups, hsum⟩ := groupByApiKey_inv E hh
  refine ⟨hnd, hkeys, ?_, hsum⟩
  intro k g hmem
  have hg := hgroups k g hmem
  refine ⟨hg, ?_⟩
  obtain ⟨h, hh', hkey⟩ := (hkeys k).mp (List.mem_map.mpr ⟨(k, g), hmem, rfl⟩)
  intro hnil
  rw [hg, List.filter_eq_nil_iff] at hnil
  exact hnil h hh' (by simpa using hkey)

/-- The method `sendHeartbeats` with its requests recorded sends on the
channels what `sendHeartbeats` sends. -/
theorem sendHeartbeatsTraced_outcome (E : Env) (N : Http E) (c : N.Client) (url : String)
    (hh : List E.Heartbeat) :
    (sendHeartbeatsTraced E N c url hh).2 = sendHeartbeats E N c url hh := by
  unfold sendHeartbeatsTraced
  cases hm : N.marshal hh with
  | error err => simp only [sendHeartbeats, hm]
  | ok d =>
    cases hr : N.newRequestErr url with
    | some err => simp only [sendHeartbeats, hm, hr]
    | none => exact (sendHeartbeats_request E N c url hh d hm hr).symm

/-- One call of `sendHeartbeats` passes at most one request to `c.Do`. -/
theorem sendHeartbeatsTraced_requests (E : Env) (N : Http E) (c : N.Client) (url : String)
    (hh : List E.Heartbeat) :
    (sendHeartbeatsTraced E N c url hh).1.length ≤ 1 := by
  unfold sendHeartbeatsTraced
  cases N.marshal hh with
  | error err => simp
  | ok d =>
    cases N.newRequestErr url with
    | some err => simp
    | none => simp

/-- The task with its calls recorded sends on the channels what the task sends. -/
theorem taskTraced_outcome (E : Env) (N : Http E) (s : Sched) (c : N.Client) (url : String)
    (grouped : List (String × List E.Heartbeat)) (g : Nat) (apiKey : String)
    (hh : List E.Heartbeat) :
    (taskTraced E N s c url grouped g apiKey hh).2 = task E N s c url grouped g apiKey hh := by
  unfold taskTraced task
  cases N.withAuth apiKey with
  | error err => rfl
  | ok auth => exact sendHeartbeatsTraced_outcome E N _ url hh

/-- The method `SendHeartbeats` with its calls recorded has the outcome of
`SendHeartbeats`. -/
theorem SendHeartbeatsTraced_outcome (E : Env) (N : Http E) (s : Sched) (c : N.Client)
    (heartbeats : List E.Heartbeat) :
    (SendHeartbeatsTraced E N s c heartbeats).2 = SendHeartbeats E N s c heartbeats := by
  unfold SendHeartbeatsTraced SendHeartbeats
  by_cases hlen : (groupByApiKey E heartbeats).length = 1
  · simp only [hlen, if_true]
    exact sendHeartbeatsTraced_outcome E N c _ heartbeats
  · simp only [hlen, if_false]
    have hout : (s.arrival.filterMap (fun g =>
        (groupByApiKey E heartbeats)[g]?.map (fun kv =>
          taskTraced E N s c (bulkURL E N c) (groupByApiKey E heartbeats) g kv.1 kv.2))).map
          (fun t => t.2)
        = s.arrival.filterMap (fun g =>
          (groupByApiKey E heartbeats)[g]?.map (fun kv =>
            task E N s c (bulkURL E N c) (groupByApiKey E heartbeats) g kv.1 kv.2)) := by
      rw [List.map_filterMap]
      apply List.filterMap_congr
      intro g _
      cases (groupByApiKey E heartbeats)[g]? with
      | none => rfl
      | some kv => simp [taskTraced_outcome]
    rw [hout]

/-- Every call recorded for the tasks of some groups passes at most one request
to `c.Do`. -/
theorem taskTraced_requests (E : Env) (N : Http E) (s : Sched) (c : N.Client) (url : String)
    (grouped : List (String × List E.Heartbeat)) (l : List Nat) :
    ∀ call ∈ (l.filterMap (fun g =>
        grouped[g]?.map (fun kv => taskTraced E N s c url grouped g kv.1 kv.2))).flatMap
          (fun t => t.1),
      call.requests.length ≤ 1 := by
  intro call hcall
  rw [List.mem_flatMap] at hcall
  obtain ⟨t, ht, hmem⟩ := hcall
  rw [List.mem_filterMap] at ht
  obtain ⟨g, _, hg⟩ := ht
  cases hget : grouped[g]? with
  | none => rw [hget] at hg; simp at hg
  | some kv =>
    rw [hget] at hg
    simp only [Option.map_some', Option.some.injEq] at hg
    subst hg
    unfold taskTraced at hmem
    cases ha : N.withAuth kv.1 with
    | error err => rw [ha] at hmem; simp at hmem
    | ok auth =>
      rw [ha] at hmem
      simp only [List.mem_singleton] at hmem
      subst hmem
      exact sendHeartbeatsTraced_requests E N _ url kv.2

/-- When `WithAuth` gives an auth option for the key of every group, the tasks
of the groups `l` call `sendHeartbeats` once each, with the heartbeats of
their group. -/
theorem taskTraced_batches (E : Env) (N : Http E) (s : Sched) (c : N.Client) (url : String)
    (grouped : List (String × List E.Heartbeat))
    (hall : ∀ kv ∈ grouped, ∃ auth, N.withAuth kv.1 = .ok auth) :
    ∀ l : List Nat,
      ((l.filterMap (fun g =>
          grouped[g]?.map (fun kv => taskTraced E N s c url grouped g kv.1 kv.2))).flatMap
            (fun t => t.1)).map (fun call => call.heartbeats)
        = l.filterMap (fun g => grouped[g]?.map Prod.snd) := by
  intro l
  induction l with
  | nil => rfl
  | cons g rest ih =>
    cases hget : grouped[g]? with
    | none =>
      rw [List.filterMap_cons_none (by rw [hget]; rfl),
        List.filterMap_cons_none (by rw [hget]; rfl)]
      exact ih
    | some kv =>
      obtain ⟨auth, ha⟩ := hall kv (List.getElem?_mem hget)
      rw [List.filterMap_cons_some (by rw [hget]; rfl),
        List.filterMap_cons_some (by rw [hget]; rfl), List.flatMap_cons, List.map_append, ih]
      simp [taskTraced, ha]

/-- The groups at the positions `l`, read off by their keys. -/
theorem groups_by_key {H : Type} (grouped : List (String × List H)) (f : String → List H)
    (hgroups : ∀ k g, (k, g) ∈ grouped → g = f k) :
    ∀ l : List Nat,
      l.filterMap (fun g => grouped[g]?.map Prod.snd)
        = (l.filterMap (fun g => grouped[g]?.map Prod.fst)).map f := by
  intro l
  induction l with
  | nil => rfl
  | cons g rest ih =>
    cases hget : grouped[g]? with
    | none =>
      rw [List.filterMap_cons_none (by rw [hget]; rfl),
        List.filterMap_cons_none (by rw [hget]; rfl)]
      exact ih
    | some kv =>
      rw [List.filterMap_cons_some (by rw [hget]; rfl),
        List.filterMap_cons_some (by rw [hget]; rfl), List.map_cons, ih]
      have := hgroups kv.1 kv.2 (List.getElem?_mem hget)
      simp only [Option.map_some'] at *
      rw [← this]

/-- Reading a list off at all of its positions gives the list. -/
theorem range_filterMap {α β : Type} (f : α → β) :
    ∀ l : List α, (List.range l.length).filterMap (fun g => l[g]?.map f) = l.map f := by
  intro l
  induction l using List.reverseRecOn with
  | nil => rfl
  | append_singleton l a ih =>
    rw [List.length_append, List.length_singleton, List.range_succ, List.filterMap_append,
      List.map_append]
    congr 1
    · rw [← ih]
      apply List.filterMap_congr
      intro g hg
      rw [List.getElem?_append_left (List.mem_range.mp hg)]
    · simp

/-- C16 fails as stated: in the sample batch of two heartbeats under the keys
`""` and `"key2"`, on a network whose `WithAuth` refuses the empty secret, with
both tasks run to their end, the task of the group `""` ends before its send,
so `SendHeartbeats` calls `sendHeartbeats` once for two distinct api keys. -/
theorem SendHeartbeats_one_send_per_key_counterexample :
    groupByApiKey sampleEnv sampleEmptyKey
      = [("", [⟨"", "main.go"⟩]), ("key2", [⟨"key2", "util.go"⟩])] ∧
    (sampleSched 2).complete (groupByApiKey sampleEnv sampleEmptyKey).length ∧
    (SendHeartbeatsTraced sampleEnv sampleHttpNoSecret (sampleSched 2) () sampleEmptyKey).1.map
        (fun call => call.heartbeats)
      = [[⟨"key2", "util.go"⟩]] ∧
    (SendHeartbeatsTraced sampleEnv sampleHttpNoSecret (sampleSched 2) () sampleEmptyKey).2
      = SendHeartbeats sampleEnv sampleHttpNoSecret (sampleSched 2) () sampleEmptyKey :=
  ⟨rfl, List.Perm.refl _, rfl, rfl⟩

/-- C16, amended: for every batch with a single api key, and for every batch
of several api keys each of which gets its auth option from `WithAuth`, in a
run in which every task runs to its end, `SendHeartbeats` calls
`sendHeartbeats` exactly once per distinct api key occurring in the batch, the
heartbeats passed being the sub-list of the batch under that key, and every
call passes at most one request to `c.Do`. The calls are those recorded by
`SendHeartbeatsTraced`, whose outcome is that of `SendHeartbeats`. -/
theorem SendHeartbeats_one_send_per_key (E : Env) (N : Http E) (s : Sched) (c : N.Client)
    (heartbeats : List E.Heartbeat)
    (hmany : (groupByApiKey E heartbeats).length ≠ 1 →
      s.complete (groupByApiKey E heartbeats).length ∧
      ∀ h ∈ heartbeats, ∃ auth, N.withAuth (E.ApiKey h) = .ok auth) :
    (SendHeartbeatsTraced E N s c heartbeats).2 = SendHeartbeats E N s c heartbeats ∧
    (∃ keys : List String, keys.Nodup ∧
      (∀ k, k ∈ keys ↔ ∃ h ∈ heartbeats, E.ApiKey h = k) ∧
      (SendHeartbeatsTraced E N s c heartbeats).1.map (fun call => call.heartbeats)
        = keys.map (fun k => heartbeats.filter (fun h => E.ApiKey h = k))) ∧
    (∀ call ∈ (SendHeartbeatsTraced E N s c heartbeats).1, call.requests.length ≤ 1) := by
  obtain ⟨hnd, hkeys, hgroups, _⟩ := groupByApiKey_inv E heartbeats
  refine ⟨SendHeartbeatsTraced_outcome E N s c heartbeats, ?_, ?_⟩
  · by_cases hlen : (groupByApiKey E heartbeats).length = 1
    · refine ⟨(groupByApiKey E heartbeats).map Prod.fst, hnd, hkeys, ?_⟩
      simp only [SendHeartbeatsTraced, hlen, if_true, List.map_cons, List.map_nil]
      match hg : groupByApiKey E heartbeats, hlen with
      | [(k, g)], _ =>
        have hall : ∀ h ∈ heartbeats, E.ApiKey h = k := by
          intro h hh
          have := (hkeys (E.ApiKey h)).mpr ⟨h, hh, rfl⟩
          rw [hg] at this
          simpa using this
        have hfilter : heartbeats.filter (fun h => E.ApiKey h = k) = heartbeats := by
          rw [List.filter_eq_self]
          intro h hh
          simpa using hall h hh
        simp only [List.map_cons, List.map_nil]
        rw [hfilter]
    · obtain ⟨hs, hauth⟩ := hmany hlen
      have hall : ∀ kv ∈ groupByApiKey E heartbeats, ∃ auth, N.withAuth kv.1 = .ok auth := by
        intro kv hkv
        obtain ⟨h, hh, hkey⟩ := (hkeys kv.1).mp (List.mem_map.mpr ⟨kv, hkv, rfl⟩)
        rw [← hkey]
        exact hauth h hh
      have hperm : (s.arrival.filterMap
          (fun g => (groupByApiKey E heartbeats)[g]?.map Prod.fst)).Perm
          ((groupByApiKey E heartbeats).map Prod.fst) := by
        rw [← range_filterMap Prod.fst (groupByApiKey E heartbeats)]
        exact List.Perm.filterMap _ hs
      refine ⟨s.arrival.filterMap (fun g => (groupByApiKey E heartbeats)[g]?.map Prod.fst),
        (List.Perm.nodup_iff hperm).mpr hnd, ?_, ?_⟩
      · intro k
        rw [List.Perm.mem_iff hperm]
        exact hkeys k
      · simp only [SendHeartbeatsTraced, hlen, if_false]
        rw [taskTraced_batches E N s c (bulkURL E N c) (groupByApiKey E heartbeats) hall,
          groups_by_key (groupByApiKey E heartbeats)
            (fun k => heartbeats.filter (fun h => E.ApiKey h = k))
            (fun k g hkg => by simpa using hgroups k g hkg)]
  · intro call hcall
    by_cases hlen : (groupByApiKey E heartbeats).length = 1
    · simp only [SendHeartbeatsTraced, hlen, if_true, List.mem_singleton] at hcall
      subst hcall
      exact sendHeartbeatsTraced_requests E N c _ heartbeats
    · simp only [SendHeartbeatsTraced, hlen, if_false] at hcall
      exact taskTraced_requests E N s c _ _ s.arrival call hcall

/-- The sample batch under two keys on the sample network, whose `WithAuth`
accepts every key: two calls, one with the heartbeats of each key. -/
theorem SendHeartbeats_one_send_per_key_witness :
    ((groupByApiKey sampleEnv sampleTwoKeys).length ≠ 1 →
      (sampleSched 2).complete (groupByApiKey sampleEnv sampleTwoKeys).length ∧
      ∀ h ∈ sampleTwoKeys, ∃ auth,
        (sampleHttp 201 sampleAccepted).withAuth (sampleEnv.ApiKey h) = .ok auth) ∧
    (SendHeartbeatsTraced sampleEnv (sampleHttp 201 sampleAccepted) (sampleSched 2) ()
        sampleTwoKeys).1.map (fun call => call.heartbeats)
      = [[⟨"key1", "main.go"⟩], [⟨"key2", "util.go"⟩]] ∧
    (∀ call ∈ (SendHeartbeatsTraced sampleEnv (sampleHttp 201 sampleAccepted) (sampleSched 2)
        () sampleTwoKeys).1, call.requests.length ≤ 1) :=
  ⟨fun _ => ⟨List.Perm.refl _, fun _ _ => ⟨id, rfl⟩⟩, rfl,
    (SendHeartbeats_one_send_per_key sampleEnv (sampleHttp 201 sampleAccepted) (sampleSched 2)
      () sampleTwoKeys (fun _ => ⟨List.Perm.refl _, fun _ _ => ⟨id, rfl⟩⟩)).2.2⟩

/-- When every task of the fan-out has sent a nil error, no task has panicked
and the loop over `cherr` drains the channel and waits on it. -/
theorem rangeCherr_all_ok {α : Type} :
    ∀ (l : List (Run (List α × Option GoError))),
      (∀ x ∈ l, ∃ rs, x = Run.returns (rs, none)) →
      firstPanic l = none ∧
        (rangeCherr (l.map sentError) : Run (List α × Option GoError)) = Run.blocks := by
  intro l
  induction l with
  | nil => intro _; exact ⟨rfl, rfl⟩
  | cons x t ih =>
    intro hall
    obtain ⟨rs, hx⟩ := hall x (List.mem_cons_self _ _)
    subst hx
    obtain ⟨h1, h2⟩ := ih (fun y hy => hall y (List.mem_cons_of_mem _ hy))
    exact ⟨by simp only [firstPanic, h1], by simp only [List.map_cons, sentError, rangeCherr, h2]⟩

/-- C17 fails on the code: for every batch spanning two or more api keys in
which every group's send succeeds, under every interleaving, `SendHeartbeats`
does not return. The loop over `cherr` reads the nil errors of all tasks and
then waits on the channel, which is closed only by the deferred `close` that
runs when the function returns. -/
theorem SendHeartbeats_multi_key_blocks (E : Env) (N : Http E) (s : Sched) (c : N.Client)
    (heartbeats : List E.Heartbeat)
    (hmulti : 2 ≤ (groupByApiKey E heartbeats).length)
    (hauth : ∀ apiKey, ∃ auth, N.withAuth apiKey = .ok auth)
    (hsend : ∀ c' hh, ∃ rs,
      sendHeartbeats E N c' (bulkURL E N c) hh = Run.returns (rs, none)) :
    SendHeartbeats E N s c heartbeats = Run.blocks := by
  have hlen : ¬ (groupByApiKey E heartbeats).length = 1 := by omega
  have hall : ∀ x ∈ s.arrival.filterMap (fun g =>
      (groupByApiKey E heartbeats)[g]?.map (fun kv =>
        task E N s c (bulkURL E N c) (groupByApiKey E heartbeats) g kv.1 kv.2)),
      ∃ rs, x = Run.returns (rs, none) := by
    intro x hx
    rw [List.mem_filterMap] at hx
    obtain ⟨g, _, hg⟩ := hx
    cases hget : (groupByApiKey E heartbeats)[g]? with
    | none => rw [hget] at hg; simp at hg
    | some kv =>
      rw [hget] at hg
      simp only [Option.map_some', Option.some.injEq] at hg
      obtain ⟨auth, ha⟩ := hauth kv.1
      obtain ⟨rs, h⟩ := hsend
        (applyAuths E N (groupByApiKey E heartbeats) c (s.authsSeen g)) kv.2
      refine ⟨rs, ?_⟩
      rw [← hg]
      simp only [task, ha, h]
  obtain ⟨hp, hr⟩ := rangeCherr_all_ok _ hall
  simp only [SendHeartbeats, hlen, if_false, hp, hr]

/-- The sample batch under two keys, every request answered with status 201
and the body of one accepted heartbeat: the call does not return. -/
theorem SendHeartbeats_multi_key_blocks_witness :
    2 ≤ (groupByApiKey sampleEnv sampleTwoKeys).length ∧
    SendHeartbeats sampleEnv (sampleHttp 201 sampleAccepted) (sampleSched 2) () sampleTwoKeys
      = Run.blocks :=
  ⟨Nat.le_refl 2,
    SendHeartbeats_multi_key_blocks sampleEnv (sampleHttp 201 sampleAccepted) (sampleSched 2) ()
      sampleTwoKeys (Nat.le_refl 2) (fun _ => ⟨id, rfl⟩) (fun _ _ => ⟨_, rfl⟩)⟩

end api

/-! ## Properties of the project filter -/

namespace project

/-- C19: `Filter` rejects a heartbeat, with the error text "skipping because
of unknown project", if and only if `ExcludeUnknownProject` is set and the
project of the heartbeat is nil or the empty string; in every other case it
returns nil. -/
theorem Filter_rejects_iff {H : Type} (Project : H → Option String) (h : H)
    (config : FilterConfig) :
    (Filter Project h config ≠ none ↔
      config.ExcludeUnknownProject = true ∧ (Project h = none ∨ Project h = some "")) ∧
    (∀ err, Filter Project h config = some err →
      err = errorf "skipping because of unknown project") ∧
    (¬ (config.ExcludeUnknownProject = true ∧ (Project h = none ∨ Project h = some "")) →
      Filter Project h config = none) := by
  have hcond : (config.ExcludeUnknownProject && (Project h == none || Project h == some "")) = true
      ↔ config.ExcludeUnknownProject = true ∧ (Project h = none ∨ Project h = some "") := by
    simp [Bool.and_eq_true, Bool.or_eq_true]
  unfold Filter
  by_cases hc : (config.ExcludeUnknownProject && (Project h == none || Project h == some "")) = true
  · simp only [hc, if_true]
    refine ⟨⟨fun _ => hcond.mp hc, fun _ => by simp⟩, ?_, fun hn => absurd (hcond.mp hc) hn⟩
    intro err herr
    exact (Option.some.inj herr).symm
  · simp only [hc]
    refine ⟨⟨fun hn => absurd rfl hn, fun hp => absurd (hcond.mpr hp) hc⟩, ?_, fun _ => rfl⟩
    intro err herr
    simp at herr

/-- The loop keeps, after what it had, the heartbeats on which `Filter`
returns nil, in their order. -/
theorem filterLoop_eq {H : Type} (Project : H → Option String) (config : FilterConfig) :
    ∀ (hh filtered : List H),
      filterLoop Project config hh filtered
        = filtered ++ hh.filter (fun h => (Filter Project h config).isNone) := by
  intro hh
  induction hh with
  | nil => intro filtered; simp [filterLoop]
  | cons h rest ih =>
    intro filtered
    cases hf : Filter Project h config with
    | none => simp [filterLoop, hf, ih, List.filter_cons]
    | some e => simp [filterLoop, hf, ih, List.filter_cons]

/-- C20: for every config, downstream handle `next` and batch with at least
one survivor, the stage `WithFiltering` returns what `next` returns on the
sub-list of the heartbeats on which `Filter` returns nil, in the input order
and unmodified; and on every batch the stage either does that or returns no
results with a nil error: it makes no error of its own. -/
theorem WithFiltering_forwards {H : Type} (Project : H → Option String)
    (config : FilterConfig) (next : heartbeat.Handle H) (hh : List H)
    (hsurvivor : ∃ h ∈ hh, Filter Project h config = none) :
    WithFiltering Project config next hh
      = next (hh.filter (fun h => (Filter Project h config).isNone)) ∧
    (∀ hh', WithFiltering Project config next hh' = Run.returns ([], none) ∨
      WithFiltering Project config next hh'
        = next (hh'.filter (fun h => (Filter Project h config).isNone))) := by
  constructor
  · obtain ⟨h, hmem, hnil⟩ := hsurvivor
    have hin : h ∈ hh.filter (fun h => (Filter Project h config).isNone) := by
      rw [List.mem_filter]
      exact ⟨hmem, by simp [hnil]⟩
    have hne : (hh.filter (fun h => (Filter Project h config).isNone)).length ≠ 0 := by
      intro h0
      rw [List.length_eq_zero] at h0
      rw [h0] at hin
      exact absurd hin (List.not_mem_nil _)
    simp only [WithFiltering, filterLoop_eq, List.nil_append, hne, if_false]
  · intro hh'
    by_cases h0 : (hh'.filter (fun h => (Filter Project h config).isNone)).length = 0
    · left
      simp only [WithFiltering, filterLoop_eq, List.nil_append, h0, if_true]
    · right
      simp only [WithFiltering, filterLoop_eq, List.nil_append, h0, if_false]

/-- The sample batch of four heartbeats, two of them without a project, with
unknown projects excluded: the two others reach the downstream handle. -/
theorem WithFiltering_forwards_witness :
    (∃ h ∈ sampleProjects, Filter id h ⟨true⟩ = none) ∧
    WithFiltering id ⟨true⟩ sampleNext sampleProjects
      = Run.returns ([{ status := 201, errors := [], heartbeat := some "wakatime" },
          { status := 201, errors := [], heartbeat := some "cli" }], none) ∧
    WithFiltering id ⟨true⟩ sampleNext sampleProjects
      = sampleNext (sampleProjects.filter (fun h => (Filter id h ⟨true⟩).isNone)) ∧
    (∀ hh', WithFiltering id ⟨true⟩ sampleNext hh' = Run.returns ([], none) ∨
      WithFiltering id ⟨true⟩ sampleNext hh'
        = sampleNext (hh'.filter (fun h => (Filter id h ⟨true⟩).isNone))) :=
  have hs : ∃ h ∈ sampleProjects, Filter id h ⟨true⟩ = none :=
    ⟨some "wakatime", List.mem_cons_self _ _, rfl⟩
  ⟨hs, rfl, WithFiltering_forwards id ⟨true⟩ sampleNext sampleProjects hs⟩

/-- C21: for every batch from which no heartbeat survives the project filter,
the empty batch included, the stage `WithFiltering` returns an empty result
list with a nil error, whatever the downstream handle is, and invokes the
downstream handle no time. -/
theorem WithFiltering_no_survivor {H : Type} (Project : H → Option String)
    (config : FilterConfig) (hh : List H)
    (hnone : ∀ h ∈ hh, Filter Project h config ≠ none) :
    (∀ next : heartbeat.Handle H,
      WithFiltering Project config next hh = Run.returns ([], none)) ∧
    nextCalls Project config hh = [] := by
  have hfilter : hh.filter (fun h => (Filter Project h config).isNone) = [] := by
    rw [List.filter_eq_nil_iff]
    intro h hmem hisNone
    exact hnone h hmem (Option.isNone_iff_eq_none.mp hisNone)
  constructor
  · intro next
    simp only [WithFiltering, filterLoop_eq, List.nil_append, hfilter, List.length_nil, if_true]
  · simp only [nextCalls, filterLoop_eq, List.nil_append, hfilter, List.length_nil, if_true]

/-- The sample batch of two heartbeats without a project, and the empty batch,
in front of a downstream handle that panics when it is invoked. -/
theorem WithFiltering_no_survivor_witness :
    (∀ h ∈ sampleNoProject, Filter id h ⟨true⟩ ≠ none) ∧
    WithFiltering id ⟨true⟩ (fun _ => Run.panics "invoked") sampleNoProject
      = Run.returns ([], none) ∧
    WithFiltering id ⟨false⟩ (fun _ => Run.panics "invoked") ([] : List (Option String))
      = Run.returns ([], none) ∧
    ((∀ next : heartbeat.Handle (Option String),
      WithFiltering id ⟨true⟩ next sampleNoProject = Run.returns ([], none)) ∧
    nextCalls id ⟨true⟩ sampleNoProject = []) :=
  have hn : ∀ h ∈ sampleNoProject, Filter id h ⟨true⟩ ≠ none := by
    intro h hmem
    simp only [sampleNoProject, List.mem_cons, List.mem_singleton, List.not_mem_nil,
      or_false] at hmem
    rcases hmem with rfl | rfl <;> decide
  ⟨hn, rfl, rfl, WithFiltering_no_survivor id ⟨true⟩ sampleNoProject hn⟩

end project

/-! ## Properties of the heartbeat record -/

namespace heartbeat

/-- C22: two heartbeats that agree on time, entity type, category, project,
branch, entity and write flag have equal IDs, whatever their cursor position,
dependencies, language, line number, lines and user agent are. -/
theorem Heartbeat.ID_of_same_tuple {K : Kinds} (h1 h2 : Heartbeat K)
    (hTime : h1.Time = h2.Time) (hType : h1.EntityType = h2.EntityType)
    (hCategory : h1.Category = h2.Category) (hProject : h1.Project = h2.Project)
    (hBranch : h1.Branch = h2.Branch) (hEntity : h1.Entity = h2.Entity)
    (hWrite : h1.IsWrite = h2.IsWrite) :
    h1.ID = h2.ID := by
  simp only [Heartbeat.ID, hTime, hType, hCategory, hProject, hBranch, hEntity, hWrite]

/-- The two sample heartbeats, which differ in every field outside the tuple. -/
theorem Heartbeat.ID_of_same_tuple_witness :
    sampleRecord.CursorPosition ≠ sampleRecordOther.CursorPosition ∧
    sampleRecord.Dependencies ≠ sampleRecordOther.Dependencies ∧
    sampleRecord.Language ≠ sampleRecordOther.Language ∧
    sampleRecord.LineNumber ≠ sampleRecordOther.LineNumber ∧
    sampleRecord.Lines ≠ sampleRecordOther.Lines ∧
    sampleRecord.UserAgent ≠ sampleRecordOther.UserAgent ∧
    sampleRecord.ID = "1585598059-file-coding-wakatime-cli-main-/tmp/main.go-true" ∧
    sampleRecord.ID = sampleRecordOther.ID :=
  ⟨by decide, by decide, by decide, by decide, by decide, by decide, by decide,
    Heartbeat.ID_of_same_tuple sampleRecord sampleRecordOther rfl rfl rfl rfl rfl rfl rfl⟩

/-- The ten digit characters are decimal digits, each worth its number. -/
theorem digitChar_spec (m : Nat) (hm : m < 10) :
    (Nat.digitChar m).isDigit = true ∧ (Nat.digitChar m).toNat - '0'.toNat = m := by
  interval_cases m <;> decide

/-- The value of a run of digits followed by one more digit. -/
theorem digitsValue_append (l : List Char) (d : Char) :
    digitsValue (l ++ [d]) = digitsValue l * 10 + (d.toNat - '0'.toNat) := by
  simp [digitsValue, List.foldl_append]

/-- With enough fuel, the digits of a number are a non-empty run of decimal
digits that denotes the number, put in front of what was there. -/
theorem toDigitsCore_spec :
    ∀ (fuel n : Nat) (ds : List Char), n < fuel →
      ∃ l, Nat.toDigitsCore 10 fuel n ds = l ++ ds ∧ l ≠ [] ∧
        (∀ c ∈ l, c.isDigit = true) ∧ digitsValue l = n := by
  intro fuel
  induction fuel with
  | zero => intro n ds h; omega
  | succ fuel ih =>
    intro n ds hn
    have hd := digitChar_spec (n % 10) (Nat.mod_lt _ (by decide))
    by_cases h0 : n / 10 = 0
    · refine ⟨[Nat.digitChar (n % 10)], ?_, by simp, ?_, ?_⟩
      · simp [Nat.toDigitsCore, h0]
      · intro c hc
        rw [List.mem_singleton] at hc
        rw [hc]; exact hd.1
      · have : digitsValue [Nat.digitChar (n % 10)] = (Nat.digitChar (n % 10)).toNat - '0'.toNat := by
          simp [digitsValue]
        rw [this, hd.2]
        omega
    · have hlt : n / 10 < fuel := by omega
      obtain ⟨l, hl, _, hdig, hval⟩ := ih (n / 10) (Nat.digitChar (n % 10) :: ds) hlt
      refine ⟨l ++ [Nat.digitChar (n % 10)], ?_, by simp, ?_, ?_⟩
      · simp [Nat.toDigitsCore, h0, hl]
      · intro c hc
        rcases List.mem_append.mp hc with hc | hc
        · exact hdig c hc
        · rw [List.mem_singleton] at hc
          rw [hc]; exact hd.1
      · rw [digitsValue_append, hval, hd.2]
        omega

/-- The decimal text of a natural number is a non-empty run of decimal digits
that denotes the number. -/
theorem natText_spec (n : Nat) :
    (Nat.repr n).data ≠ [] ∧ (∀ c ∈ (Nat.repr n).data, c.isDigit = true) ∧
      digitsValue (Nat.repr n).data = n := by
  obtain ⟨l, hl, hne, hdig, hval⟩ := toDigitsCore_spec (n + 1) n [] (Nat.lt_succ_self n)
  have : (Nat.repr n).data = l := by
    simp [Nat.repr, Nat.toDigits, hl, List.asString]
  rw [this]
  exact ⟨hne, hdig, hval⟩

/-- Two runs of characters that pass a test, each followed by the same
character that fails the test, are equal when the texts are, and so are the
rests. -/
theorem run_unique (p : Char → Bool) (x : Char) (hx : p x = false) :
    ∀ (l1 l2 r1 r2 : List Char), (∀ c ∈ l1, p c = true) → (∀ c ∈ l2, p c = true) →
      l1 ++ x :: r1 = l2 ++ x :: r2 → l1 = l2 ∧ r1 = r2 := by
  intro l1
  induction l1 with
  | nil =>
    intro l2 r1 r2 _ h2 h
    cases l2 with
    | nil => simpa using h
    | cons c l2 =>
      simp only [List.nil_append, List.cons_append, List.cons.injEq] at h
      have := h2 c (List.mem_cons_self _ _)
      rw [← h.1, hx] at this
      exact absurd this (by decide)
  | cons a l1 ih =>
    intro l2 r1 r2 h1 h2 h
    cases l2 with
    | nil =>
      simp only [List.nil_append, List.cons_append, List.cons.injEq] at h
      have := h1 a (List.mem_cons_self _ _)
      rw [h.1, hx] at this
      exact absurd this (by decide)
    | cons c l2 =>
      simp only [List.cons_append, List.cons.injEq] at h
      obtain ⟨hl, hr⟩ := ih l2 r1 r2 (fun y hy => h1 y (List.mem_cons_of_mem _ hy))
        (fun y hy => h2 y (List.mem_cons_of_mem _ hy)) h.2
      exact ⟨by rw [h.1, hl], hr⟩

/-- The decimal text of an integer followed by a dash determines the integer
and what follows the dash. -/
theorem intText_unique (t1 t2 : Int) (r1 r2 : List Char)
    (h : (toString t1).data ++ '-' :: r1 = (toString t2).data ++ '-' :: r2) :
    t1 = t2 ∧ r1 = r2 := by
  have hdash : Char.isDigit '-' = false := by decide
  cases t1 with
  | ofNat m1 =>
    obtain ⟨hne1, hd1, hv1⟩ := natText_spec m1
    cases t2 with
    | ofNat m2 =>
      obtain ⟨_, hd2, hv2⟩ := natText_spec m2
      have h' : (Nat.repr m1).data ++ '-' :: r1 = (Nat.repr m2).data ++ '-' :: r2 := h
      obtain ⟨hl, hr⟩ := run_unique Char.isDigit '-' hdash _ _ _ _ hd1 hd2 h'
      refine ⟨?_, hr⟩
      have : m1 = m2 := by rw [← hv1, ← hv2, hl]
      rw [this]
    | negSucc m2 =>
      have h' : (Nat.repr m1).data ++ '-' :: r1
          = '-' :: ((Nat.repr (m2 + 1)).data ++ '-' :: r2) := h
      cases hm : (Nat.repr m1).data with
      | nil => exact absurd hm hne1
      | cons c l =>
        rw [hm] at h'
        simp only [List.cons_append, List.cons.injEq] at h'
        have := hd1 c (by rw [hm]; exact List.mem_cons_self _ _)
        rw [h'.1, hdash] at this
        exact absurd this (by decide)
  | negSucc m1 =>
    obtain ⟨_, hd1, hv1⟩ := natText_spec (m1 + 1)
    cases t2 with
    | ofNat m2 =>
      obtain ⟨hne2, hd2, _⟩ := natText_spec m2
      have h' : '-' :: ((Nat.repr (m1 + 1)).data ++ '-' :: r1)
          = (Nat.repr m2).data ++ '-' :: r2 := h
      cases hm : (Nat.repr m2).data with
      | nil => exact absurd hm hne2
      | cons c l =>
        rw [hm] at h'
        simp only [List.cons_append, List.cons.injEq] at h'
        have := hd2 c (by rw [hm]; exact List.mem_cons_self _ _)
        rw [← h'.1, hdash] at this
        exact absurd this (by decide)
    | negSucc m2 =>
      obtain ⟨_, hd2, hv2⟩ := natText_spec (m2 + 1)
      have h' : '-' :: ((Nat.repr (m1 + 1)).data ++ '-' :: r1)
          = '-' :: ((Nat.repr (m2 + 1)).data ++ '-' :: r2) := h
      simp only [List.cons.injEq, true_and] at h'
      obtain ⟨hl, hr⟩ := run_unique Char.isDigit '-' hdash _ _ _ _ hd1 hd2 h'
      refine ⟨?_, hr⟩
      have : m1 + 1 = m2 + 1 := by rw [← hv1, ← hv2, hl]
      have : m1 = m2 := by omega
      rw [this]

/-- The text of the write flag at the end of an ID determines the flag and
what precedes it. -/
theorem boolText_unique (b1 b2 : Bool) (e1 e2 : List Char)
    (h : e1 ++ '-' :: (toString b1).data = e2 ++ '-' :: (toString b2).data) :
    e1 = e2 ∧ b1 = b2 := by
  have hrev := congrArg List.reverse h
  simp only [List.reverse_append, List.reverse_cons, List.append_assoc] at hrev
  cases b1 <;> cases b2
  · refine ⟨?_, rfl⟩
    exact List.append_cancel_right h
  · exfalso
    have : (toString false).data.reverse = ['e', 's', 'l', 'a', 'f'] := by decide
    rw [this] at hrev
    have : (toString true).data.reverse = ['e', 'u', 'r', 't'] := by decide
    rw [this] at hrev
    simp at hrev
  · exfalso
    have : (toString false).data.reverse = ['e', 's', 'l', 'a', 'f'] := by decide
    rw [this] at hrev
    have : (toString true).data.reverse = ['e', 'u', 'r', 't'] := by decide
    rw [this] at hrev
    simp at hrev
  · refine ⟨?_, rfl⟩
    exact List.append_cancel_right h


/-- The characters of an ID: the seven texts with a dash after each but the last. -/
theorem Heartbeat.ID_data {K : Kinds} (h : Heartbeat K) :
    h.ID.data = (toString h.Time).data ++ '-' ::
      ((K.entityTypeText h.EntityType).data ++ '-' ::
        ((K.categoryText h.Category).data ++ '-' ::
          (h.Project.data ++ '-' ::
            (h.Branch.data ++ '-' :: h.Entity.data)))
        ++ '-' :: (toString h.IsWrite).data) := by
  have hdash : "-".data = ['-'] := rfl
  simp only [Heartbeat.ID, String.data_append, hdash, List.append_assoc, List.cons_append,
    List.nil_append]

/-- A text without a dash passes the test "is not a dash" at every character. -/
theorem noDash_all (s : String) (h : '-' ∉ s.data) :
    ∀ c ∈ s.data, (fun c : Char => c != '-') c = true := by
  intro c hc
  have : c ≠ '-' := fun e => h (e ▸ hc)
  simpa using this

/-- C23 fails as stated: the two sample heartbeats, one with project `a-b` and
branch `c`, the other with project `a` and branch `b-c`, have the same ID and
differ in project and in branch. -/
theorem Heartbeat.ID_injective_counterexample :
    sampleDashProject.ID = "1585598059-file-coding-a-b-c-/tmp/main.go-true" ∧
    sampleDashProject.ID = sampleDashBranch.ID ∧
    sampleDashProject.Project ≠ sampleDashBranch.Project ∧
    sampleDashProject.Branch ≠ sampleDashBranch.Branch :=
  ⟨by decide, by decide, by decide, by decide⟩

/-- C23, amended: two heartbeats with equal IDs agree on time and write flag;
when the texts of entity type and category, the project and the branch of
both hold no dash, they also agree on the text of the entity type, the text of
the category, project, branch and entity, and on entity type and category
themselves when distinct values print as distinct texts. -/
theorem Heartbeat.ID_injective {K : Kinds} (h1 h2 : Heartbeat K) (h : h1.ID = h2.ID) :
    (h1.Time = h2.Time ∧ h1.IsWrite = h2.IsWrite) ∧
    (dashFree h1 → dashFree h2 →
      K.entityTypeText h1.EntityType = K.entityTypeText h2.EntityType ∧
      K.categoryText h1.Category = K.categoryText h2.Category ∧
      h1.Project = h2.Project ∧ h1.Branch = h2.Branch ∧ h1.Entity = h2.Entity ∧
      (Function.Injective K.entityTypeText → h1.EntityType = h2.EntityType) ∧
      (Function.Injective K.categoryText → h1.Category = h2.Category)) := by
  have hdata := congrArg String.data h
  rw [Heartbeat.ID_data, Heartbeat.ID_data] at hdata
  obtain ⟨hTime, hrest⟩ := intText_unique _ _ _ _ hdata
  obtain ⟨hmid, hWrite⟩ := boolText_unique _ _ _ _ hrest
  refine ⟨⟨hTime, hWrite⟩, ?_⟩
  intro hf1 hf2
  obtain ⟨ht1, hc1, hp1, hb1⟩ := hf1
  obtain ⟨ht2, hc2, hp2, hb2⟩ := hf2
  have hx : (fun c : Char => c != '-') '-' = false := by decide
  obtain ⟨hType, hmid⟩ := run_unique (fun c : Char => c != '-') '-' hx _ _ _ _ (noDash_all _ ht1) (noDash_all _ ht2) hmid
  obtain ⟨hCat, hmid⟩ := run_unique (fun c : Char => c != '-') '-' hx _ _ _ _ (noDash_all _ hc1) (noDash_all _ hc2) hmid
  obtain ⟨hProj, hmid⟩ := run_unique (fun c : Char => c != '-') '-' hx _ _ _ _ (noDash_all _ hp1) (noDash_all _ hp2) hmid
  obtain ⟨hBranch, hEntity⟩ :=
    run_unique (fun c : Char => c != '-') '-' hx _ _ _ _ (noDash_all _ hb1) (noDash_all _ hb2) hmid
  have hType' := String.ext hType
  have hCat' := String.ext hCat
  exact ⟨hType', hCat', String.ext hProj, String.ext hBranch, String.ext hEntity,
    fun hinj => hinj hType', fun hinj => hinj hCat'⟩

/-- The two sample heartbeats with the same tuple: their texts hold no dash but
in the entity, and their IDs are equal. -/
theorem Heartbeat.ID_injective_witness :
    sampleRecordPlain.ID = sampleRecordPlainOther.ID ∧
    dashFree sampleRecordPlain ∧ dashFree sampleRecordPlainOther ∧
    ((sampleRecordPlain.Time = sampleRecordPlainOther.Time ∧
      sampleRecordPlain.IsWrite = sampleRecordPlainOther.IsWrite) ∧
    (dashFree sampleRecordPlain → dashFree sampleRecordPlainOther →
      sampleKinds.entityTypeText sampleRecordPlain.EntityType
        = sampleKinds.entityTypeText sampleRecordPlainOther.EntityType ∧
      sampleKinds.categoryText sampleRecordPlain.Category
        = sampleKinds.categoryText sampleRecordPlainOther.Category ∧
      sampleRecordPlain.Project = sampleRecordPlainOther.Project ∧
      sampleRecordPlain.Branch = sampleRecordPlainOther.Branch ∧
      sampleRecordPlain.Entity = sampleRecordPlainOther.Entity ∧
      (Function.Injective sampleKinds.entityTypeText →
        sampleRecordPlain.EntityType = sampleRecordPlainOther.EntityType) ∧
      (Function.Injective sampleKinds.categoryText →
        sampleRecordPlain.Category = sampleRecordPlainOther.Category))) :=
  ⟨rfl, by decide, by decide,
    Heartbeat.ID_injective sampleRecordPlain sampleRecordPlainOther rfl⟩


end heartbeat

/-! ## Further properties of the response parser -/

namespace api

open JSON

/-- What `strconv.ParseInt` accepts lies in the signed 64-bit range. -/
theorem parseInt64_range (s : String) (n : Int) (h : parseInt64 s = some n) :
    -(2 ^ 63 : Int) ≤ n ∧ n < 2 ^ 63 := by
  unfold parseInt64 at h
  simp only at h
  split at h
  · exact absurd h (by simp)
  · generalize List.foldl (fun a (c : Char) => a * 10 + (c.toNat - '0'.toNat)) 0 _ = N at h
    split at h
    · split at h
      · rename_i hle
        simp only [Option.some.injEq] at h
        omega
      · exact absurd h (by simp)
    · split at h
      · rename_i hlt
        simp only [Option.some.injEq] at h
        omega
      · exact absurd h (by simp)

/-- A status decoded into a zero `int` lies in the signed 64-bit range. -/
theorem unmarshalInt_range (raw : JSON) (n : Int) (h : unmarshalInt raw 0 = .ok n) :
    -(2 ^ 63 : Int) ≤ n ∧ n < 2 ^ 63 := by
  cases raw with
  | null =>
    simp only [unmarshalInt, Except.ok.injEq] at h
    subst h
    constructor <;> norm_num
  | num lit =>
    simp only [unmarshalInt] at h
    cases hp : parseInt64 lit with
    | none => rw [hp] at h; simp at h
    | some m =>
      rw [hp] at h
      simp only [Except.ok.injEq] at h
      subst h
      exact parseInt64_range lit m hp
  | bool b => simp [unmarshalInt] at h
  | str t => simp [unmarshalInt] at h
  | arr xs => simp [unmarshalInt] at h
  | obj ms => simp [unmarshalInt] at h

/-- The status of a result that `parseHeartbeatResponse` returns without an
error is the status decoded from the second element of the entry. -/
theorem parseHeartbeatResponse_status (E : Env) (r : List JSON) (res : Result E.Heartbeat)
    (h : parseHeartbeatResponse E r = Run.returns (res, none)) :
    ∃ d0 d1 rest, r = d0 :: d1 :: rest ∧ unmarshalInt d1 0 = .ok res.status := by
  match r, h with
  | [], h => simp [parseHeartbeatResponse] at h
  | [_], h => simp [parseHeartbeatResponse] at h
  | d0 :: d1 :: rest, h =>
    refine ⟨d0, d1, rest, rfl, ?_⟩
    simp only [parseHeartbeatResponse] at h
    cases hs : unmarshalInt d1 0 with
    | error e => rw [hs] at h; simp at h
    | ok status =>
      rw [hs] at h
      simp only at h
      by_cases hge : status ≥ 400
      · simp only [hge, if_true] at h
        cases hp : parseHeartbeatResponseError E d0 with
        | returns v =>
          obtain ⟨errs, err⟩ := v
          rw [hp] at h
          cases err with
          | some e => simp at h
          | none =>
            simp only [Run.returns.injEq, Prod.mk.injEq, and_true] at h
            rw [← h]
        | panics m => rw [hp] at h; simp at h
        | blocks => rw [hp] at h; simp at h
      · simp only [hge, if_false] at h
        cases hb : unmarshalResponseBody E d0 E.zeroHeartbeat with
        | error e => rw [hb] at h; simp at h
        | ok hb' =>
          rw [hb] at h
          simp only [Run.returns.injEq, Prod.mk.injEq, and_true] at h
          rw [← h]

/-- C24 fails as stated: on the body `{"responses": [[{"data": {}}, 100]]}`
`ParseHeartbeatResponses` succeeds and returns a result with status 100. -/
theorem ParseHeartbeatResponses_status_range_counterexample :
    ParseHeartbeatResponses sampleEnv sampleStatus100
      = Run.returns ([{ status := 100, errors := [], heartbeat := sampleEnv.zeroHeartbeat }],
          none) ∧
    ¬ ((200 : Int) ≤ 100 ∧ (100 : Int) ≤ 599) :=
  ⟨rfl, by decide⟩

/-- C24, amended: every result returned by a successful
`ParseHeartbeatResponses` has the status decoded from the second element of
its entry (0 when that element is `null`), an integer in the signed 64-bit
range; no check confines it to 200..599. -/
theorem ParseHeartbeatResponses_status_range (E : Env) (data : String)
    (results : List (Result E.Heartbeat))
    (h : ParseHeartbeatResponses E data = Run.returns (results, none)) :
    ∃ responses, unmarshalResponses data = .ok responses ∧
      results.length = responses.length ∧
      ∀ (i : Nat) (hi : i < responses.length) (hr : i < results.length),
        (∃ d0 d1 rest, responses[i] = d0 :: d1 :: rest ∧
          unmarshalInt d1 0 = .ok results[i].status) ∧
        -(2 ^ 63 : Int) ≤ results[i].status ∧ results[i].status < 2 ^ 63 := by
  unfold ParseHeartbeatResponses at h
  cases hu : unmarshalResponses data with
  | error e => rw [hu] at h; simp at h
  | ok responses =>
    rw [hu] at h
    obtain ⟨tl, h1, h2⟩ := parseLoop_ok E data responses 0 [] results h
    simp only [List.nil_append] at h1
    subst h1
    have hlen : results.length = responses.length := by
      have := congrArg List.length h2
      simpa using this.symm
    refine ⟨responses, rfl, hlen, ?_⟩
    intro i hi hr
    have h3 := congrArg (fun l => l[i]?) h2
    simp only [List.getElem?_map, List.getElem?_eq_getElem hi, List.getElem?_eq_getElem hr,
      Option.map_some', Option.some.injEq] at h3
    obtain ⟨d0, d1, rest, hshape, hstatus⟩ := parseHeartbeatResponse_status E _ _ h3
    exact ⟨⟨d0, d1, rest, hshape, hstatus⟩, unmarshalInt_range d1 _ hstatus⟩

/-- The sample body whose entry has the status 100. -/
theorem ParseHeartbeatResponses_status_range_witness :
    ParseHeartbeatResponses sampleEnv sampleStatus100
      = Run.returns ([{ status := 100, errors := [], heartbeat := sampleEnv.zeroHeartbeat }],
          none) ∧
    ∃ responses, unmarshalResponses sampleStatus100 = .ok responses ∧
      [({ status := 100, errors := [], heartbeat := sampleEnv.zeroHeartbeat } :
          Result sampleEnv.Heartbeat)].length = responses.length ∧
      ∀ (i : Nat) (hi : i < responses.length)
        (hr : i < [({ status := 100, errors := [], heartbeat := sampleEnv.zeroHeartbeat } :
          Result sampleEnv.Heartbeat)].length),
        (∃ d0 d1 rest, responses[i] = d0 :: d1 :: rest ∧
          unmarshalInt d1 0
            = .ok ([({ status := 100, errors := [], heartbeat := sampleEnv.zeroHeartbeat } :
                Result sampleEnv.Heartbeat)][i]).status) ∧
        -(2 ^ 63 : Int)
          ≤ ([({ status := 100, errors := [], heartbeat := sampleEnv.zeroHeartbeat } :
              Result sampleEnv.Heartbeat)][i]).status ∧
        ([({ status := 100, errors := [], heartbeat := sampleEnv.zeroHeartbeat } :
            Result sampleEnv.Heartbeat)][i]).status < 2 ^ 63 :=
  ⟨rfl, ParseHeartbeatResponses_status_range sampleEnv sampleStatus100 _ rfl⟩

/-- C27 fails on the code: on the body `{"responses": [[{"errors": {"time":
"bad"}}, 400]]}`, whose `errors` object holds a string under `time`,
`ParseHeartbeatResponses` returns no error value; the type assertion
`messages.([]interface{})` panics. -/
theorem ParseHeartbeatResponses_errors_not_array_panics :
    ParseHeartbeatResponses sampleEnv sampleErrorsNotArray
      = Run.panics "interface conversion: interface {} is string, not []interface {}" :=
  rfl

/-- C28: for an error body with one `error` member holding a non-empty string
and an `errors` member holding an object, `parseHeartbeatResponseError`
returns the one-element list of the `error` string, with a nil error; the
`errors` object adds nothing. -/
theorem parseHeartbeatResponseError_error_wins (E : Env) (members : List (String × JSON))
    (k s k' : String) (fields : List (String × JSON))
    (hkey : members.filter (fun kv => keyMatches "error" kv.1) = [(k, JSON.str s)])
    (hs : s ≠ "")
    (_herrs : members.filter (fun kv => keyMatches "errors" kv.1) = [(k', JSON.obj fields)]) :
    parseHeartbeatResponseError E (JSON.obj members) = Run.returns ([s], none) := by
  have hkeyval : unmarshalErrorKey (JSON.obj members) = s :=
    unmarshalErrorMembers_single members k s "" hkey
  simp only [parseHeartbeatResponseError, hkeyval, ne_eq, hs, not_false_eq_true, if_true]

/-- The sample body with the `error` string `x` and an `errors` object of two fields. -/
theorem parseHeartbeatResponseError_error_wins_witness :
    sampleBothKeys.filter (fun kv => keyMatches "error" kv.1) = [("error", JSON.str "x")] ∧
    "x" ≠ "" ∧
    sampleBothKeys.filter (fun kv => keyMatches "errors" kv.1)
      = [("errors", JSON.obj [("a", JSON.arr [JSON.str "1"]), ("b", JSON.arr [JSON.str "2"])])] ∧
    parseHeartbeatResponseError sampleEnv (JSON.obj sampleBothKeys)
      = Run.returns (["x"], none) :=
  ⟨rfl, by decide, rfl,
    parseHeartbeatResponseError_error_wins sampleEnv sampleBothKeys "error" "x" "errors" _
      rfl (by decide) rfl⟩

/-- Without an object under a key that selects `errors`, `resultErrors` stays nil. -/
theorem unmarshalErrorsMembers_none :
    ∀ (members : List (String × JSON)) (live : Bool),
      (∀ kv ∈ members, keyMatches "errors" kv.1 = true → ∀ fields, kv.2 ≠ JSON.obj fields) →
      unmarshalErrorsMembers members live none = none := by
  intro members
  induction members with
  | nil => intro live _; rfl
  | cons kv rest ih =>
    intro live h
    obtain ⟨k, v⟩ := kv
    have hrest : ∀ kv ∈ rest, keyMatches "errors" kv.1 = true →
        ∀ fields, kv.2 ≠ JSON.obj fields :=
      fun kv hkv => h kv (List.mem_cons_of_mem _ hkv)
    by_cases hk : keyMatches "errors" k = true
    · cases v with
      | obj fields => exact absurd rfl (h (k, JSON.obj fields) (List.mem_cons_self _ _) hk fields)
      | null => simp only [unmarshalErrorsMembers, hk, if_true]; exact ih false hrest
      | bool b => simp only [unmarshalErrorsMembers, hk, if_true]; exact ih live hrest
      | num l => simp only [unmarshalErrorsMembers, hk, if_true]; exact ih live hrest
      | str t => simp only [unmarshalErrorsMembers, hk, if_true]; exact ih live hrest
      | arr xs => simp only [unmarshalErrorsMembers, hk, if_true]; exact ih live hrest
    · simp only [unmarshalErrorsMembers, hk]
      exact ih live hrest

/-- An entry whose parse returns an error, after entries whose parse returns,
ends the loop with no results and an error. -/
theorem parseLoop_reaches_failure (E : Env) (data : String) :
    ∀ (rs : List (List JSON)) (k n : Nat) (acc : List (Result E.Heartbeat)) (r : List JSON)
      (res : Result E.Heartbeat) (err : GoError),
      rs[k]? = some r →
      parseHeartbeatResponse E r = Run.returns (res, some err) →
      (∀ i, i < k → ∃ r' v, rs[i]? = some r' ∧ parseHeartbeatResponse E r' = Run.returns v) →
      ∃ e, parseLoop E data rs n acc = Run.returns ([], some e) := by
  intro rs
  induction rs with
  | nil => intro k n acc r res err hk; simp at hk
  | cons r0 rest ih =>
    intro k n acc r res err hk hr hbefore
    cases k with
    | zero =>
      simp only [List.getElem?_cons_zero, Option.some.injEq] at hk
      subst hk
      exact ⟨_, by simp only [parseLoop, hr]; rfl⟩
    | succ k =>
      obtain ⟨r', v, h0, hp0⟩ := hbefore 0 (Nat.succ_pos k)
      simp only [List.getElem?_cons_zero, Option.some.injEq] at h0
      subst h0
      obtain ⟨res0, e0⟩ := v
      cases e0 with
      | some err0 => exact ⟨_, by simp only [parseLoop, hp0]; rfl⟩
      | none =>
        simp only [List.getElem?_cons_succ] at hk
        have hbefore' : ∀ i, i < k → ∃ r' v, rest[i]? = some r' ∧
            parseHeartbeatResponse E r' = Run.returns v := by
          intro i hi
          have := hbefore (i + 1) (Nat.succ_lt_succ hi)
          simpa only [List.getElem?_cons_succ] using this
        obtain ⟨e, he⟩ := ih k (n + 1) (acc ++ [res0]) r res err hk hr hbefore'
        exact ⟨e, by simp only [parseLoop, hp0, he]⟩

/-- C29: for a response pair whose status decodes to 400 or more and whose
body has neither a non-empty string under `error` nor an object under
`errors` (a body whose `error` is the empty string included),
`parseHeartbeatResponseError` returns an error, `parseHeartbeatResponse`
returns the zero result with an error, and `ParseHeartbeatResponses` returns
no results and an error on a body in which the entries before this pair
parse without a panic. -/
theorem parseHeartbeatResponse_no_errors_detected (E : Env) (body st : JSON)
    (rest : List JSON) (status : Int)
    (hst : unmarshalInt st 0 = .ok status) (hge : 400 ≤ status)
    (herr : ∀ members, body = JSON.obj members →
      ∀ kv ∈ members, keyMatches "error" kv.1 = true → ∀ s, kv.2 = JSON.str s → s = "")
    (herrs : ∀ members, body = JSON.obj members →
      ∀ kv ∈ members, keyMatches "errors" kv.1 = true → ∀ fields, kv.2 ≠ JSON.obj fields) :
    parseHeartbeatResponseError E body
      = Run.returns ([], some (errorf
          "failed to detect any errors despite invalid response status")) ∧
    parseHeartbeatResponse E (body :: st :: rest)
      = Run.returns (E.zeroResult, some (errorf ("failed to parse result errors: "
          ++ "failed to detect any errors despite invalid response status"))) ∧
    (∀ (data : String) (responses : List (List JSON)) (n : Nat),
      unmarshalResponses data = .ok responses →
      responses[n]? = some (body :: st :: rest) →
      (∀ i, i < n → ∃ r' v, responses[i]? = some r' ∧
        parseHeartbeatResponse E r' = Run.returns v) →
      ∃ err, ParseHeartbeatResponses E data = Run.returns ([], some err)) := by
  have h1 : unmarshalErrorKey body = "" := by
    cases body with
    | obj members => exact unmarshalErrorMembers_empty members true (herr members rfl)
    | null => rfl
    | bool b => rfl
    | num l => rfl
    | str t => rfl
    | arr xs => rfl
  have h2 : unmarshalErrorsKey body = none := by
    cases body with
    | obj members => exact unmarshalErrorsMembers_none members true (herrs members rfl)
    | null => rfl
    | bool b => rfl
    | num l => rfl
    | str t => rfl
    | arr xs => rfl
  have hE : parseHeartbeatResponseError E body
      = Run.returns ([], some (errorf
          "failed to detect any errors despite invalid response status")) := by
    simp only [parseHeartbeatResponseError, h1, h2, ne_eq, not_true_eq_false, if_false]
  have hge' : status ≥ 400 := hge
  have hP : parseHeartbeatResponse E (body :: st :: rest)
      = Run.returns (E.zeroResult, some (errorf ("failed to parse result errors: "
          ++ "failed to detect any errors despite invalid response status"))) := by
    simp only [parseHeartbeatResponse, hst, hge', if_true, hE, errorf]
  refine ⟨hE, hP, ?_⟩
  intro data responses n hu hn hbefore
  obtain ⟨e, he⟩ := parseLoop_reaches_failure E data responses n 0 [] _ _ _ hn hP hbefore
  exact ⟨e, by simp only [ParseHeartbeatResponses, hu, he]⟩

/-- The sample body whose entry has status 400 and the empty `error` string. -/
theorem parseHeartbeatResponse_no_errors_detected_witness :
    unmarshalInt (JSON.num "400") 0 = .ok 400 ∧ (400 : Int) ≤ 400 ∧
    unmarshalResponses sampleEmptyError
      = .ok [[JSON.obj [("error", JSON.str "")], JSON.num "400"]] ∧
    ParseHeartbeatResponses sampleEnv sampleEmptyError
      = Run.returns ([], some (errorf ("failed parsing result #0: "
          ++ "failed to parse result errors: "
          ++ "failed to detect any errors despite invalid response status"
          ++ ". body: " ++ sampleEnv.quote sampleEmptyError))) ∧
    (parseHeartbeatResponseError sampleEnv (JSON.obj [("error", JSON.str "")])
      = Run.returns ([], some (errorf
          "failed to detect any errors despite invalid response status")) ∧
    parseHeartbeatResponse sampleEnv [JSON.obj [("error", JSON.str "")], JSON.num "400"]
      = Run.returns (sampleEnv.zeroResult, some (errorf ("failed to parse result errors: "
          ++ "failed to detect any errors despite invalid response status"))) ∧
    (∀ (data : String) (responses : List (List JSON)) (n : Nat),
      unmarshalResponses data = .ok responses →
      responses[n]? = some [JSON.obj [("error", JSON.str "")], JSON.num "400"] →
      (∀ i, i < n → ∃ r' v, responses[i]? = some r' ∧
        parseHeartbeatResponse sampleEnv r' = Run.returns v) →
      ∃ err, ParseHeartbeatResponses sampleEnv data = Run.returns ([], some err))) :=
  ⟨rfl, by decide, rfl, rfl,
    parseHeartbeatResponse_no_errors_detected sampleEnv (JSON.obj [("error", JSON.str "")])
      (JSON.num "400") [] 400 rfl (by decide)
      (by
        intro members hm kv hkv _ s hs
        cases hm
        simp only [List.mem_singleton] at hkv
        subst hkv
        simp only [JSON.str.injEq] at hs
        exact hs.symm)
      (by
        intro members hm kv hkv hk
        cases hm
        simp only [List.mem_singleton] at hkv
        subst hkv
        exact absurd hk (by decide))⟩

/-- When every task of the fan-out has returned and some task has sent an
error, no task has panicked and the loop over `cherr` returns the error of one
of the failing tasks, with nil results. -/
theorem rangeCherr_some_fail {α : Type} :
    ∀ (l : List (Run (List α × Option GoError))),
      (∀ x ∈ l, ∃ v, x = Run.returns v) →
      (∃ x ∈ l, ∃ rs e, x = Run.returns (rs, some e)) →
      firstPanic l = none ∧
        ∃ x ∈ l, ∃ rs e, x = Run.returns (rs, some e) ∧
          (rangeCherr (l.map sentError) : Run (List α × Option GoError))
            = Run.returns ([], some e) := by
  intro l
  induction l with
  | nil => intro _ hex; obtain ⟨x, hx, _⟩ := hex; exact absurd hx (List.not_mem_nil _)
  | cons x t ih =>
    intro hall hex
    obtain ⟨v, hv⟩ := hall x (List.mem_cons_self _ _)
    obtain ⟨rs0, e0⟩ := v
    subst hv
    have hallt : ∀ y ∈ t, ∃ v, y = Run.returns v :=
      fun y hy => hall y (List.mem_cons_of_mem _ hy)
    cases e0 with
    | some err0 =>
      have hp : firstPanic (Run.returns (rs0, some err0) :: t) = none := by
        clear ih hex hall
        induction t with
        | nil => rfl
        | cons y t' iht =>
          obtain ⟨v, hv⟩ := hallt y (List.mem_cons_self _ _)
          subst hv
          have := iht (fun z hz => hallt z (List.mem_cons_of_mem _ hz))
          simpa only [firstPanic] using this
      exact ⟨hp, _, List.mem_cons_self _ _, rs0, err0, rfl,
        by simp only [List.map_cons, sentError, rangeCherr]⟩
    | none =>
      have hext : ∃ y ∈ t, ∃ rs e, y = Run.returns (rs, some e) := by
        obtain ⟨y, hy, rs, e, hye⟩ := hex
        rcases List.mem_cons.mp hy with rfl | hy'
        · simp at hye
        · exact ⟨y, hy', rs, e, hye⟩
      obtain ⟨hp, y, hy, rs, e, hye, hr⟩ := ih hallt hext
      exact ⟨by simp only [firstPanic, hp], y, List.mem_cons_of_mem _ hy, rs, e, hye,
        by simp only [List.map_cons, sentError, rangeCherr, hr]⟩

/-- C30: for every batch spanning two or more api keys, under every
interleaving in which every task has finished, if every task returns and at
least one task fails, `SendHeartbeats` returns no results and the error of one
of the failing tasks; the results of the tasks that succeeded are discarded. -/
theorem SendHeartbeats_multi_key_failure (E : Env) (N : Http E) (s : Sched) (c : N.Client)
    (heartbeats : List E.Heartbeat)
    (hmulti : 2 ≤ (groupByApiKey E heartbeats).length)
    (hs : s.complete (groupByApiKey E heartbeats).length)
    (hret : ∀ g kv, (groupByApiKey E heartbeats)[g]? = some kv →
      ∃ v, task E N s c (bulkURL E N c) (groupByApiKey E heartbeats) g kv.1 kv.2
        = Run.returns v)
    (hfail : ∃ g kv rs e, (groupByApiKey E heartbeats)[g]? = some kv ∧
      task E N s c (bulkURL E N c) (groupByApiKey E heartbeats) g kv.1 kv.2
        = Run.returns (rs, some e)) :
    ∃ g kv rs e, (groupByApiKey E heartbeats)[g]? = some kv ∧
      task E N s c (bulkURL E N c) (groupByApiKey E heartbeats) g kv.1 kv.2
        = Run.returns (rs, some e) ∧
      SendHeartbeats E N s c heartbeats = Run.returns ([], some e) := by
  have hlen : ¬ (groupByApiKey E heartbeats).length = 1 := by omega
  have hall : ∀ x ∈ s.arrival.filterMap (fun g =>
      (groupByApiKey E heartbeats)[g]?.map (fun kv =>
        task E N s c (bulkURL E N c) (groupByApiKey E heartbeats) g kv.1 kv.2)),
      ∃ v, x = Run.returns v := by
    intro x hx
    rw [List.mem_filterMap] at hx
    obtain ⟨g, _, hg⟩ := hx
    cases hget : (groupByApiKey E heartbeats)[g]? with
    | none => rw [hget] at hg; simp at hg
    | some kv =>
      rw [hget] at hg
      simp only [Option.map_some', Option.some.injEq] at hg
      obtain ⟨v, hv⟩ := hret g kv hget
      exact ⟨v, by rw [← hg, hv]⟩
  have hex : ∃ x ∈ s.arrival.filterMap (fun g =>
      (groupByApiKey E heartbeats)[g]?.map (fun kv =>
        task E N s c (bulkURL E N c) (groupByApiKey E heartbeats) g kv.1 kv.2)),
      ∃ rs e, x = Run.returns (rs, some e) := by
    obtain ⟨g, kv, rs, e, hget, htask⟩ := hfail
    have hg : g < (groupByApiKey E heartbeats).length := by
      by_contra hcon
      rw [List.getElem?_eq_none (by omega)] at hget
      simp at hget
    have hmem : g ∈ s.arrival := (List.Perm.mem_iff hs).mpr (List.mem_range.mpr hg)
    refine ⟨_, ?_, rs, e, htask⟩
    rw [List.mem_filterMap]
    exact ⟨g, hmem, by rw [hget]; rfl⟩
  obtain ⟨hp, x, hx, rs, e, hxe, hr⟩ := rangeCherr_some_fail _ hall hex
  rw [List.mem_filterMap] at hx
  obtain ⟨g, _, hg⟩ := hx
  cases hget : (groupByApiKey E heartbeats)[g]? with
  | none => rw [hget] at hg; simp at hg
  | some kv =>
    rw [hget] at hg
    simp only [Option.map_some', Option.some.injEq] at hg
    refine ⟨g, kv, rs, e, hget, by rw [hg, hxe], ?_⟩
    simp only [SendHeartbeats, hlen, if_false, hp, hr]

/-- The sample batch under two keys on the sample network that accepts the
first key only: the send of the first group succeeds, that of the second
fails, and the call returns the error of the second with no results. -/
theorem SendHeartbeats_multi_key_failure_witness :
    2 ≤ (groupByApiKey sampleEnv sampleTwoKeys).length ∧
    (sampleSched 2).complete (groupByApiKey sampleEnv sampleTwoKeys).length ∧
    task sampleEnv sampleHttpOneFails (sampleSched 2) ""
        (bulkURL sampleEnv sampleHttpOneFails "") (groupByApiKey sampleEnv sampleTwoKeys) 0
        "key1" [⟨"key1", "main.go"⟩]
      = Run.returns ([{ status := 201, errors := [], heartbeat := ⟨"", "main.go"⟩ }], none) ∧
    SendHeartbeats sampleEnv sampleHttpOneFails (sampleSched 2) "" sampleTwoKeys
      = Run.returns ([], some ⟨ErrKind.Err,
          invalidStatusMessage sampleEnv (bulkURL sampleEnv sampleHttpOneFails "") 500 "oops"⟩) ∧
    ∃ g kv rs e, (groupByApiKey sampleEnv sampleTwoKeys)[g]? = some kv ∧
      task sampleEnv sampleHttpOneFails (sampleSched 2) ""
          (bulkURL sampleEnv sampleHttpOneFails "") (groupByApiKey sampleEnv sampleTwoKeys) g
          kv.1 kv.2
        = Run.returns (rs, some e) ∧
      SendHeartbeats sampleEnv sampleHttpOneFails (sampleSched 2) "" sampleTwoKeys
        = Run.returns ([], some e) :=
  ⟨Nat.le_refl 2, List.Perm.refl _, rfl, rfl,
    SendHeartbeats_multi_key_failure sampleEnv sampleHttpOneFails (sampleSched 2) ""
      sampleTwoKeys (Nat.le_refl 2) (List.Perm.refl _)
      (by
        intro g kv hg
        match g, hg with
        | 0, hg =>
          have hkv : kv = ("key1", [⟨"key1", "main.go"⟩]) := (Option.some.inj hg).symm
          subst hkv
          exact ⟨_, rfl⟩
        | 1, hg =>
          have hkv : kv = ("key2", [⟨"key2", "util.go"⟩]) := (Option.some.inj hg).symm
          subst hkv
          exact ⟨_, rfl⟩
        | g + 2, hg =>
          have hgrp : groupByApiKey sampleEnv sampleTwoKeys
              = [("key1", [⟨"key1", "main.go"⟩]), ("key2", [⟨"key2", "util.go"⟩])] := rfl
          rw [hgrp] at hg
          simp at hg)
      ⟨1, ("key2", [⟨"key2", "util.go"⟩]), [], _, rfl, rfl⟩⟩

end api

/-! ## Properties of the api parameters and of the sanitizer -/

namespace params

/-- C25: loading the api parameters succeeds on the api key only if the key
matches the pattern, and then keeps the key; on every other key, the unset key
included, it fails with an error of type `ErrAuth`. -/
theorem LoadAPIParams_api_key (v : KeyConfig) :
    (∀ p, LoadAPIParams v = .ok p → validApiKey p.Key = true ∧ p.Key = configuredKey v) ∧
    (validApiKey (configuredKey v) = true → LoadAPIParams v = .ok { Key := configuredKey v }) ∧
    (validApiKey (configuredKey v) = false →
      ∃ msg, LoadAPIParams v = .error ⟨ErrKind.ErrAuth, msg⟩) := by
  by_cases hvalid : validApiKey (configuredKey v) = true
  · have hload : LoadAPIParams v = .ok { Key := configuredKey v } := by
      unfold LoadAPIParams
      simp only [configuredKey] at hvalid
      simp only [hvalid, if_true, configuredKey]
    refine ⟨?_, fun _ => hload, fun hf => ?_⟩
    · intro p hp
      rw [hload] at hp
      simp only [Except.ok.injEq] at hp
      subst hp
      exact ⟨hvalid, rfl⟩
    · rw [hvalid] at hf
      exact absurd hf (by decide)
  · have hload : LoadAPIParams v = .error ⟨ErrKind.ErrAuth, "invalid api key format"⟩ := by
      unfold LoadAPIParams
      simp only [configuredKey] at hvalid
      simp only [hvalid]
      rfl
    refine ⟨?_, fun ht => absurd ht hvalid, fun _ => ⟨_, hload⟩⟩
    intro p hp
    rw [hload] at hp
    simp at hp

/-- The keys of the tests `TestLoad_API_APIKey` and `TestLoad_API_APIKeyInvalid`:
the valid key loads, from the flag and from each config key; the unset key, a
text that is no UUID, a third group that starts with 0 and a fourth group that
starts with 0 fail with `ErrAuth`; upper-case digits are accepted. -/
theorem LoadAPIParams_tests :
    LoadAPIParams ⟨"00000000-0000-4000-8000-000000000000",
        "10000000-0000-4000-8000-000000000000", "20000000-0000-4000-8000-000000000000"⟩
      = .ok { Key := "00000000-0000-4000-8000-000000000000" } ∧
    LoadAPIParams ⟨"", "00000000-0000-4000-8000-000000000000",
        "10000000-0000-4000-8000-000000000000"⟩
      = .ok { Key := "00000000-0000-4000-8000-000000000000" } ∧
    LoadAPIParams ⟨"", "", "00000000-0000-4000-8000-000000000000"⟩
      = .ok { Key := "00000000-0000-4000-8000-000000000000" } ∧
    LoadAPIParams ⟨"ABCDEF00-0000-4000-B000-000000000000", "", ""⟩
      = .ok { Key := "ABCDEF00-0000-4000-B000-000000000000" } ∧
    LoadAPIParams ⟨"", "", ""⟩ = .error ⟨ErrKind.ErrAuth, "invalid api key format"⟩ ∧
    LoadAPIParams ⟨"not-uuid", "", ""⟩ = .error ⟨ErrKind.ErrAuth, "invalid api key format"⟩ ∧
    LoadAPIParams ⟨"00000000-0000-0000-8000-000000000000", "", ""⟩
      = .error ⟨ErrKind.ErrAuth, "invalid api key format"⟩ ∧
    LoadAPIParams ⟨"00000000-0000-4000-0000-000000000000", "", ""⟩
      = .error ⟨ErrKind.ErrAuth, "invalid api key format"⟩ :=
  ⟨rfl, rfl, rfl, rfl, rfl, rfl, rfl, rfl⟩

end params

namespace heartbeat

/-- A path that starts with the root loses exactly the root. -/
theorem dropRoot_append : ∀ (root rest : List Char), dropRoot root (root ++ rest) = some rest := by
  intro root
  induction root with
  | nil => intro rest; cases rest <;> rfl
  | cons r root ih => intro rest; simp [dropRoot, ih]

/-- C26: for every heartbeat whose entity lies under the project folder, the
folder being `ProjectPathOverride` when that is non-empty and `ProjectPath`
otherwise, `hideProjectFolder(h, true)` returns the heartbeat with the entity
made relative to the folder: the folder and the separator after it are
removed, and the two paths are left as they were. -/
theorem hideProjectFolder_relative (h : PathHeartbeat) (folder rel : String)
    (hfolder : folder
      = if h.ProjectPathOverride ≠ "" then h.ProjectPathOverride else h.ProjectPath)
    (hne : folder ≠ "")
    (hunder : (folder.toList.getLast? ≠ some '/' ∧ h.Entity = folder ++ "/" ++ rel) ∨
      (folder.toList.getLast? = some '/' ∧ h.Entity = folder ++ rel)) :
    hideProjectFolder h true = { h with Entity := rel } := by
  rcases hunder with ⟨hsep, hent⟩ | ⟨hsep, hent⟩
  · have hlist : h.Entity.toList = (folder.toList ++ ['/']) ++ rel.toList := by
      rw [hent]
      simp [String.toList, String.data_append]
    unfold hideProjectFolder
    simp only [Bool.not_true, Bool.false_eq_true, if_false, ← hfolder, hne, hsep, hlist,
      dropRoot_append]
    rfl
  · have hlist : h.Entity.toList = folder.toList ++ rel.toList := by
      rw [hent]
      simp [String.toList, String.data_append]
    unfold hideProjectFolder
    simp only [Bool.not_true, Bool.false_eq_true, if_false, ← hfolder, hne, hsep, if_true, hlist,
      dropRoot_append]
    rfl

/-- The two cases of the test `TestHideProjectFolder`: the entity
`/usr/temp/project/main.go` under the folder `/usr/temp`, detected or given as
override, becomes `project/main.go`. -/
theorem hideProjectFolder_relative_witness :
    (hideProjectFolder sampleAutoDetected true).Entity = "project/main.go" ∧
    (hideProjectFolder sampleOverride true).Entity = "project/main.go" ∧
    hideProjectFolder sampleOverride true = { sampleOverride with Entity := "project/main.go" } :=
  ⟨by decide, by decide,
    hideProjectFolder_relative sampleOverride "/usr/temp" "project/main.go" (by decide)
      (by decide) (Or.inl ⟨by decide, by decide⟩)⟩

end heartbeat

/-! ## Properties of the empty batch and of repeated filtering -/

namespace api

/-- C31, as the code behaves: for the empty batch `SendHeartbeats` issues no
request, but it does not return. No group is formed, `len(grouped)` is `0` and
not `1`, no task is started, and the loop over `cherr` waits on a channel that
holds nothing and is closed only when the function returns. -/
theorem SendHeartbeats_empty_batch_blocks (E : Env) (N : Http E) (s : Sched) (c : N.Client) :
    sendCalls E N [] = [] ∧ SendHeartbeats E N s c [] = Run.blocks := by
  have hg : groupByApiKey E [] = [] := rfl
  constructor
  · simp [sendCalls, hg]
  · have hnone : ∀ (α : Type) (l : List Nat),
        List.filterMap (fun _ => (none : Option α)) l = [] := by
      intro α l
      induction l with
      | nil => rfl
      | cons g rest _ => simp
    simp [SendHeartbeats, hg, hnone, firstPanic, rangeCherr]

end api

namespace project

/-- C32: project filtering is idempotent as a stage: for every config, every
downstream handle `next` and every batch, filtering twice in a row gives what
filtering once gives. -/
theorem WithFiltering_idempotent {H : Type} (Project : H → Option String)
    (config : FilterConfig) (next : heartbeat.Handle H) (hh : List H) :
    WithFiltering Project config (WithFiltering Project config next) hh
      = WithFiltering Project config next hh := by
  unfold WithFiltering
  simp only [filterLoop_eq, List.nil_append]
  by_cases h : (hh.filter (fun h => (Filter Project h config).isNone)).length = 0
  · simp only [h, if_true]
  · simp only [h, if_false]
    rw [List.filter_filter]
    simp [h]

end project

/-! ## Properties of the dependency parsers -/

namespace strings

/-- Dropping white space from the end keeps the first character. -/
theorem head_dropEnd (p : Char → Bool) (l : List Char) :
    ∀ c, ((l.reverse.dropWhile p).reverse).head? = some c → l.head? = some c := by
  induction l using List.reverseRecOn with
  | nil => intro c h; simp at h
  | append_singleton l a ih =>
    intro c h
    rw [List.reverse_append, List.reverse_singleton, List.singleton_append,
      List.dropWhile_cons] at h
    by_cases hp : p a = true
    · rw [if_pos hp] at h
      have := ih c h
      cases l with
      | nil => simp at this
      | cons x xs => simpa using this
    · rw [if_neg hp] at h
      simp at h
      simp [h]

/-- The first character left by `dropWhile` fails the test. -/
theorem head_dropWhile (p : Char → Bool) (l : List Char) :
    ∀ c, (l.dropWhile p).head? = some c → p c = false := by
  induction l with
  | nil => intro c h; simp at h
  | cons x xs ih =>
    intro c h
    rw [List.dropWhile_cons] at h
    by_cases hp : p x = true
    · rw [if_pos hp] at h; exact ih c h
    · rw [if_neg hp] at h
      simp only [List.head?_cons, Option.some.injEq] at h
      subst h; simpa using hp

/-- A text is trimmed when its first and its last character fail the test. -/
theorem isTrimmed_mk (r : List Char)
    (h1 : ∀ c, r.head? = some c → unicode.IsSpace c = false)
    (h2 : ∀ c, r.getLast? = some c → unicode.IsSpace c = false) :
    isTrimmed (String.mk r) = true := by
  unfold isTrimmed
  show ((match r.head? with
    | some c => !unicode.IsSpace c
    | none => true)
    && (match r.getLast? with
    | some c => !unicode.IsSpace c
    | none => true)) = true
  cases hh : r.head? with
  | none =>
    cases hl : r.getLast? with
    | none => rfl
    | some d => simp [h2 d hl]
  | some c =>
    cases hl : r.getLast? with
    | none => simp [h1 c hh]
    | some d => simp [h1 c hh, h2 d hl]

/-- The text `TrimSpace` returns has no white space at either end. -/
theorem TrimSpace_isTrimmed (s : String) : isTrimmed (TrimSpace s) = true := by
  unfold TrimSpace
  apply isTrimmed_mk
  · intro c h
    exact head_dropWhile unicode.IsSpace _ c (head_dropEnd unicode.IsSpace _ c h)
  · intro c h
    rw [List.getLast?_reverse] at h
    exact head_dropWhile unicode.IsSpace _ c h

end strings

namespace deps

/-- A lower-case letter folds to its upper-case form. -/
theorem foldChar_lower (c : Char) (h : 'a' ≤ c ∧ c ≤ 'z') (x : Char)
    (hx : x ∈ "foundation".toList) :
    foldLetter x c = (JSON.foldChar c == x.toUpper) := by
  have hn : 97 ≤ c.toNat ∧ c.toNat ≤ 122 := h
  have hc : c = Char.ofNat c.toNat := (Char.ofNat_toNat c).symm
  obtain ⟨h1, h2⟩ := hn
  generalize c.toNat = n at hc h1 h2
  subst hc
  simp only [String.toList, List.mem_cons, List.mem_singleton, List.not_mem_nil, or_false] at hx
  interval_cases n <;> rcases hx with rfl | rfl | rfl | rfl | rfl | rfl | rfl | rfl | rfl | rfl
    <;> decide

/-- The test of a letter of `foundation` under the flag `i` is equality after
case folding. -/
theorem foldLetter_spec (x : Char) (hx : x ∈ "foundation".toList) (c : Char) :
    foldLetter x c = (JSON.foldChar c == x.toUpper) := by
  by_cases h : 'a' ≤ c ∧ c ≤ 'z'
  · exact foldChar_lower c h x hx
  · have hf : JSON.foldChar c =
        if c = Char.ofNat 0x17F then 'S' else if c = Char.ofNat 0x212A then 'K' else c := by
      unfold JSON.foldChar
      rw [if_neg h]
    rw [hf]
    simp only [String.toList, List.mem_cons, List.mem_singleton, List.not_mem_nil, or_false] at hx
    by_cases h1 : c = Char.ofNat 0x17F
    · subst h1
      rcases hx with rfl | rfl | rfl | rfl | rfl | rfl | rfl | rfl | rfl | rfl
        <;> decide
    · rw [if_neg h1]
      by_cases h2 : c = Char.ofNat 0x212A
      · subst h2
        rcases hx with rfl | rfl | rfl | rfl | rfl | rfl | rfl | rfl | rfl | rfl
          <;> decide
      · rw [if_neg h2]
        have hne : (c == x) = false := by
          rw [beq_eq_false_iff_ne]
          intro hcx
          subst hcx
          apply h
          rcases hx with rfl | rfl | rfl | rfl | rfl | rfl | rfl | rfl | rfl | rfl
            <;> decide
        unfold foldLetter
        rw [hne, Bool.false_or]

/-- A text matches the letters of a pattern under the flag `i` exactly when
it folds to their upper-case forms. -/
theorem matchesPattern_fold (xs : List Char) (hxs : ∀ x ∈ xs, x ∈ "foundation".toList) :
    ∀ l : List Char, params.matchesPattern (xs.map foldLetter) l
      = decide (l.map JSON.foldChar = xs.map Char.toUpper) := by
  induction xs with
  | nil =>
    intro l
    cases l with
    | nil => rfl
    | cons c cs => simp [params.matchesPattern]
  | cons x xs ih =>
    intro l
    cases l with
    | nil => simp [params.matchesPattern]
    | cons c cs =>
      simp only [List.map_cons, params.matchesPattern]
      rw [ih (fun y hy => hxs y (List.mem_cons_of_mem _ hy)) cs,
        foldLetter_spec x (hxs x (List.mem_cons_self _ _)) c]
      simp only [List.cons.injEq, Bool.decide_and]
      rfl

/-- Two texts are equal exactly when their characters are. -/
theorem mk_beq (a b : List Char) : (String.mk a == String.mk b) = decide (a = b) := by
  by_cases h : a = b
  · subst h; simp
  · have hs : String.mk a ≠ String.mk b := fun hs => h (by injection hs)
    simp [h, hs]

/-- The regular expression matches a text exactly when the text equals
`foundation` under case folding. -/
theorem swiftExcludeRegex_spec (s : String) :
    swiftExcludeRegex s = strings.EqualFold s "foundation" := by
  unfold swiftExcludeRegex swiftExcludePattern
  rw [matchesPattern_fold _ (fun x hx => hx)]
  unfold strings.EqualFold JSON.foldName
  have hup : "foundation".toList.map Char.toUpper = "foundation".toList.map JSON.foldChar := by
    decide
  rw [hup, mk_beq]

end deps

namespace deps

namespace ParserGo

variable {D : StateDecl}

/-- A token other than the keyword `import` leaves a parser that is outside
the import state outside of it, and its output as it is. -/
theorem processToken_outside (p : ParserGo D) (t : chroma.Token)
    (ht : t.Kind = chroma.TokenType.KeywordNamespace → t.Value ≠ "import")
    (hp : p.State ≠ D.StateImport) :
    (p.processToken t).Output = p.Output ∧ (p.processToken t).State ≠ D.StateImport := by
  obtain ⟨k, v⟩ := t
  cases k with
  | KeywordNamespace =>
    have hv : v ≠ "import" := ht rfl
    simp [processToken, processNamespace, hv, D.distinct]
  | Punctuation =>
    simp only [processToken, processPunctuation]
    split
    · exact ⟨rfl, hp⟩
    · split
      · exact ⟨rfl, hp⟩
      · exact ⟨rfl, hp⟩
  | LiteralString => simp [processToken, processString, hp]
  | Text => simp [processToken, processText, hp, D.distinct]
  | KeywordDeclaration => exact ⟨rfl, hp⟩
  | NameClass => exact ⟨rfl, hp⟩
  | other n => exact ⟨rfl, hp⟩

/-- Tokens without the keyword `import` add nothing to the output of a parser
that is outside the import state. -/
theorem foldl_outside (ts : List chroma.Token) :
    ∀ p : ParserGo D,
      (∀ t ∈ ts, t.Kind = chroma.TokenType.KeywordNamespace → t.Value ≠ "import") →
      p.State ≠ D.StateImport →
      (ts.foldl processToken p).Output = p.Output := by
  induction ts with
  | nil => intro p _ _; rfl
  | cons t rest ih =>
    intro p hts hp
    have h := processToken_outside p t (hts t (List.mem_cons_self _ _)) hp
    rw [List.foldl_cons, ih _ (fun u hu => hts u (List.mem_cons_of_mem _ hu)) h.2, h.1]

/-- Inside the parentheses of an import, `Text` and `LiteralString` tokens keep
the state and the depth, and every string literal is collected, trimmed. -/
theorem foldl_inside (ts : List chroma.Token) :
    ∀ p : ParserGo D,
      (∀ t ∈ ts, t.Kind = chroma.TokenType.Text ∨ t.Kind = chroma.TokenType.LiteralString) →
      p.State = D.StateImport → p.Parenthesis = 1 →
      ts.foldl processToken p =
        ⟨p.Parenthesis, p.State, p.Output ++
          (ts.filter (fun t => t.Kind == chroma.TokenType.LiteralString)).map
            (fun t => strings.TrimSpace t.Value)⟩ := by
  induction ts with
  | nil => intro p _ _ _; simp
  | cons t rest ih =>
    intro p hts hs hd
    obtain ⟨k, v⟩ := t
    have hk := hts ⟨k, v⟩ (List.mem_cons_self _ _)
    have hrest : ∀ u ∈ rest,
        u.Kind = chroma.TokenType.Text ∨ u.Kind = chroma.TokenType.LiteralString :=
      fun u hu => hts u (List.mem_cons_of_mem _ hu)
    rcases hk with hk | hk
    · simp only at hk
      subst hk
      have hstep : p.processToken ⟨chroma.TokenType.Text, v⟩ = p := by
        simp [processToken, processText, hs, hd]
      rw [List.foldl_cons, hstep, ih p hrest hs hd]
      simp
    · simp only at hk
      subst hk
      have hstep : p.processToken ⟨chroma.TokenType.LiteralString, v⟩ =
          { p with Output := p.Output ++ [strings.TrimSpace v] } := by
        simp [processToken, processString, hs]
      rw [List.foldl_cons, hstep,
        ih ⟨p.Parenthesis, p.State, p.Output ++ [strings.TrimSpace v]⟩ hrest hs hd]
      simp

/-- The depth counter does not wrap around at the depths zero and one. -/
theorem wrapInt_small : wrapInt 1 = 1 ∧ wrapInt 0 = 0 := by
  constructor <;> decide

end ParserGo

end deps

namespace deps

namespace ParserGo

/-- C33, as the code behaves: `init` resets `Output` and `Parenthesis` but not
`State`, so a parser that was left in the import state collects the string
literals at the start of the next file. After parsing a file that ends inside
its import block the parser is in the import state; the file `"os"` then gives
the dependency `"os"`, where a parser that was never used gives none. What a
call of `Parse` takes over from the calls before it is the state alone. -/
theorem Parse_state_carries_over (D : StateDecl) (hz : D.zero ≠ D.StateImport) :
    (Parse (fresh D) (Content.tokens sampleGoCut)).1.State = D.StateImport
    ∧ (Parse (Parse (fresh D) (Content.tokens sampleGoCut)).1
        (Content.tokens sampleGoLiteral)).2 = (["\"os\""], none)
    ∧ (Parse (fresh D) (Content.tokens sampleGoLiteral)).2 = ([], none)
    ∧ ∀ (p : ParserGo D) (content : Content),
        Parse p content = Parse ⟨0, p.State, []⟩ content := by
  have hcut : (Parse (fresh D) (Content.tokens sampleGoCut)).1 = ⟨0, D.StateImport, []⟩ := by
    simp [Parse, init, fresh, sampleGoCut, processToken, processNamespace, processText,
      processPunctuation, processString, D.distinct, wrapInt_small.1]
  refine ⟨by rw [hcut], ?_, ?_, fun p content => rfl⟩
  · rw [hcut]
    simp [Parse, init, sampleGoLiteral, processToken, processText, processString]
    decide
  · simp [Parse, init, fresh, sampleGoLiteral, processToken, processText, processString, hz]

/-- The failure of C33 on a declaration of `State` whose zero value is
`StateUnknown`. -/
theorem Parse_state_carries_over_witness :
    sampleStates.zero ≠ sampleStates.StateImport
    ∧ (Parse (Parse (fresh sampleStates) (Content.tokens sampleGoCut)).1
        (Content.tokens sampleGoLiteral)).2 = (["\"os\""], none)
    ∧ (Parse (fresh sampleStates) (Content.tokens sampleGoLiteral)).2 = ([], none) :=
  have hz : sampleStates.zero ≠ sampleStates.StateImport := by decide
  ⟨hz, (Parse_state_carries_over sampleStates hz).2.1,
    (Parse_state_carries_over sampleStates hz).2.2.1⟩

/-- C34: a parser that was never used, whose state is the zero value and not
the import state, returns the empty dependency list for every token sequence
that holds no `KeywordNamespace` token with the value `import`, whatever string
literals the sequence holds. -/
theorem Parse_no_import (D : StateDecl) (hz : D.zero ≠ D.StateImport)
    (ts : List chroma.Token)
    (hts : ∀ t ∈ ts, t.Kind = chroma.TokenType.KeywordNamespace → t.Value ≠ "import") :
    (Parse (fresh D) (Content.tokens ts)).2 = ([], none) := by
  show ((ts.foldl processToken (fresh D).init).Output, none) = _
  rw [foldl_outside ts _ hts hz]
  rfl

/-- C34 on a file with a string literal and no import. -/
theorem Parse_no_import_witness :
    sampleStates.zero ≠ sampleStates.StateImport
    ∧ (∀ t ∈ sampleGoNoImport,
        t.Kind = chroma.TokenType.KeywordNamespace → t.Value ≠ "import")
    ∧ (⟨chroma.TokenType.LiteralString, "\"fmt\""⟩ : chroma.Token) ∈ sampleGoNoImport
    ∧ (Parse (fresh sampleStates) (Content.tokens sampleGoNoImport)).2 = ([], none) :=
  have hz : sampleStates.zero ≠ sampleStates.StateImport := by decide
  have hts : ∀ t ∈ sampleGoNoImport,
      t.Kind = chroma.TokenType.KeywordNamespace → t.Value ≠ "import" := by decide
  ⟨hz, hts, by decide, Parse_no_import sampleStates hz sampleGoNoImport hts⟩

/-- C35: for the tokens `import`, `(`, then `Text` and `LiteralString` tokens
in any arrangement, then `)` and the `Text` token of a newline, followed by
tokens that hold no further keyword `import`, `Parse` returns the string
literals between the parentheses, trimmed, in their order, and nothing else;
this holds for every parser, used or not. -/
theorem Parse_import_block {D : StateDecl} (p : ParserGo D) (middle tail : List chroma.Token)
    (hmid : ∀ t ∈ middle,
      t.Kind = chroma.TokenType.Text ∨ t.Kind = chroma.TokenType.LiteralString)
    (htail : ∀ t ∈ tail, t.Kind = chroma.TokenType.KeywordNamespace → t.Value ≠ "import") :
    (Parse p (Content.tokens
      ([⟨chroma.TokenType.KeywordNamespace, "import"⟩, ⟨chroma.TokenType.Punctuation, "("⟩]
        ++ middle
        ++ [⟨chroma.TokenType.Punctuation, ")"⟩, ⟨chroma.TokenType.Text, "\n"⟩]
        ++ tail))).2
      = ((middle.filter (fun t => t.Kind == chroma.TokenType.LiteralString)).map
          (fun t => strings.TrimSpace t.Value), none) := by
  have hopen : [⟨chroma.TokenType.KeywordNamespace, "import"⟩,
      ⟨chroma.TokenType.Punctuation, "("⟩].foldl processToken p.init
        = (⟨1, D.StateImport, []⟩ : ParserGo D) := by
    simp [init, processToken, processNamespace, processPunctuation, wrapInt_small.1]
  show ((List.foldl processToken p.init _).Output, none) = _
  rw [List.foldl_append, List.foldl_append, List.foldl_append, hopen,
    foldl_inside middle _ hmid rfl rfl]
  have hclose : [⟨chroma.TokenType.Punctuation, ")"⟩, ⟨chroma.TokenType.Text, "\n"⟩].foldl
      processToken (⟨1, D.StateImport, [] ++
        (middle.filter (fun t => t.Kind == chroma.TokenType.LiteralString)).map
          (fun t => strings.TrimSpace t.Value)⟩ : ParserGo D)
        = ⟨0, D.StateUnknown,
          (middle.filter (fun t => t.Kind == chroma.TokenType.LiteralString)).map
            (fun t => strings.TrimSpace t.Value)⟩ := by
    simp [processToken, processPunctuation, processText, wrapInt_small.2, wrapInt_small.1]
  rw [hclose, foldl_outside tail _ htail D.distinct]

/-- C35 on an import block of two literals followed by a declaration with a
string literal. -/
theorem Parse_import_block_witness :
    (Parse (fresh sampleStates) (Content.tokens
      ([⟨chroma.TokenType.KeywordNamespace, "import"⟩, ⟨chroma.TokenType.Punctuation, "("⟩]
        ++ sampleGoBlock
        ++ [⟨chroma.TokenType.Punctuation, ")"⟩, ⟨chroma.TokenType.Text, "\n"⟩]
        ++ sampleGoRest))).2
      = (["\"fmt\"", "\"os\""], none) :=
  Parse_import_block (fresh sampleStates) sampleGoBlock sampleGoRest (by decide) (by decide)

/-- C36: for the tokens `import`, a `Text` token other than the newline, one
string literal and the `Text` token of a newline, followed by tokens that hold
no further keyword `import`, `Parse` returns the literal, trimmed, and nothing
else; this holds for every parser, used or not. -/
theorem Parse_import_line {D : StateDecl} (p : ParserGo D) (sep s : String)
    (tail : List chroma.Token) (hsep : sep ≠ "\n")
    (htail : ∀ t ∈ tail, t.Kind = chroma.TokenType.KeywordNamespace → t.Value ≠ "import") :
    (Parse p (Content.tokens
      ([⟨chroma.TokenType.KeywordNamespace, "import"⟩, ⟨chroma.TokenType.Text, sep⟩,
        ⟨chroma.TokenType.LiteralString, s⟩, ⟨chroma.TokenType.Text, "\n"⟩] ++ tail))).2
      = ([strings.TrimSpace s], none) := by
  have hline : [⟨chroma.TokenType.KeywordNamespace, "import"⟩, ⟨chroma.TokenType.Text, sep⟩,
      ⟨chroma.TokenType.LiteralString, s⟩, ⟨chroma.TokenType.Text, "\n"⟩].foldl
        processToken p.init = (⟨0, D.StateUnknown, [strings.TrimSpace s]⟩ : ParserGo D) := by
    simp [init, processToken, processNamespace, processText, processString, hsep]
  show ((List.foldl processToken p.init _).Output, none) = _
  rw [List.foldl_append, hline, foldl_outside tail _ htail D.distinct]

/-- C36 on the line `import "fmt"` followed by a declaration with a string
literal. -/
theorem Parse_import_line_witness :
    (" " : String) ≠ "\n"
    ∧ (Parse (fresh sampleStates) (Content.tokens
      ([⟨chroma.TokenType.KeywordNamespace, "import"⟩, ⟨chroma.TokenType.Text, " "⟩,
        ⟨chroma.TokenType.LiteralString, "\"fmt\""⟩, ⟨chroma.TokenType.Text, "\n"⟩]
        ++ sampleGoRest))).2
      = ([strings.TrimSpace "\"fmt\""], none) :=
  ⟨by decide, Parse_import_line (fresh sampleStates) " " "\"fmt\"" sampleGoRest (by decide)
    (by decide)⟩

end ParserGo

end deps

namespace deps

namespace ParserSwift

/-- A dependency that may stand in the output: not `foundation` in any case,
and free of white space at both ends. -/
theorem append_mem (p : ParserSwift) (dep : String) (P : String → Prop)
    (hp : ∀ d ∈ p.Output, P d)
    (hnew : ∀ d, swiftExcludeRegex d = false → strings.isTrimmed d = true → P d) :
    ∀ d ∈ (p.append dep).Output, P d := by
  intro d hd
  unfold append at hd
  by_cases hx : swiftExcludeRegex (strings.TrimSpace dep) = true
  · simp only [hx, if_true] at hd
    exact hp d hd
  · simp only [hx] at hd
    rcases List.mem_append.1 hd with h | h
    · exact hp d h
    · rw [List.mem_singleton] at h
      subst h
      exact hnew _ (by simpa using hx) (strings.TrimSpace_isTrimmed dep)

/-- One token keeps a property of the output that every appended dependency has. -/
theorem processToken_mem (p : ParserSwift) (t : chroma.Token) (P : String → Prop)
    (hp : ∀ d ∈ p.Output, P d)
    (hnew : ∀ d, swiftExcludeRegex d = false → strings.isTrimmed d = true → P d) :
    ∀ d ∈ (p.processToken t).Output, P d := by
  obtain ⟨k, v⟩ := t
  cases k with
  | KeywordDeclaration =>
    simp only [processToken, processKeywordDeclaration]
    split <;> exact hp
  | NameClass =>
    simp only [processToken, processNameClass]
    split
    · exact append_mem p v P hp hnew
    · exact hp
  | KeywordNamespace => exact hp
  | Punctuation => exact hp
  | LiteralString => exact hp
  | Text => exact hp
  | other n => exact hp

/-- The token loop keeps a property of the output that every appended
dependency has. -/
theorem foldl_mem (P : String → Prop)
    (hnew : ∀ d, swiftExcludeRegex d = false → strings.isTrimmed d = true → P d)
    (ts : List chroma.Token) :
    ∀ p : ParserSwift, (∀ d ∈ p.Output, P d) →
      ∀ d ∈ (ts.foldl processToken p).Output, P d := by
  induction ts with
  | nil => intro p hp; exact hp
  | cons t rest ih =>
    intro p hp
    rw [List.foldl_cons]
    exact ih _ (processToken_mem p t P hp hnew)

/-- One token adds at most one dependency, and none unless it is of type
`NameClass`. -/
theorem processToken_length (p : ParserSwift) (t : chroma.Token) :
    (p.processToken t).Output.length
      ≤ p.Output.length + (if t.Kind = chroma.TokenType.NameClass then 1 else 0) := by
  obtain ⟨k, v⟩ := t
  cases k with
  | KeywordDeclaration =>
    simp only [processToken, processKeywordDeclaration]
    split <;> simp
  | NameClass =>
    simp only [processToken, processNameClass, append]
    split
    · split <;> simp
    · simp
  | KeywordNamespace => simp [processToken]
  | Punctuation => simp [processToken]
  | LiteralString => simp [processToken]
  | Text => simp [processToken]
  | other n => simp [processToken]

/-- The token loop adds at most one dependency for each `NameClass` token. -/
theorem foldl_length (ts : List chroma.Token) :
    ∀ p : ParserSwift,
      (ts.foldl processToken p).Output.length
        ≤ p.Output.length
          + (ts.filter (fun t => t.Kind == chroma.TokenType.NameClass)).length := by
  induction ts with
  | nil => intro p; simp
  | cons t rest ih =>
    intro p
    rw [List.foldl_cons]
    have h1 := ih (p.processToken t)
    have h2 := processToken_length p t
    by_cases hk : t.Kind = chroma.TokenType.NameClass
    · simp only [hk, if_true] at h2
      simp only [List.filter_cons, hk, beq_self_eq_true, if_true, List.length_cons]
      omega
    · simp only [hk, if_false] at h2
      have hb : (t.Kind == chroma.TokenType.NameClass) = false := by simpa using hk
      simp only [List.filter_cons, hb]
      simp only [Bool.false_eq_true, if_false]
      omega

/-- Outside the import state a token that is not the keyword `import` leaves
the parser outside of it and its output as it is. -/
theorem processToken_stays_unknown (p : ParserSwift) (t : chroma.Token)
    (ht : (t.Kind == chroma.TokenType.KeywordDeclaration && t.Value == "import") = false)
    (hp : p.State = StateSwift.StateSwiftUnknown) :
    (p.processToken t).Output = p.Output
      ∧ (p.processToken t).State = StateSwift.StateSwiftUnknown := by
  obtain ⟨k, v⟩ := t
  cases k with
  | KeywordDeclaration =>
    have hv : v ≠ "import" := by simpa using ht
    simp [processToken, processKeywordDeclaration, hv]
  | NameClass => simp [processToken, processNameClass, hp]
  | KeywordNamespace => exact ⟨rfl, hp⟩
  | Punctuation => exact ⟨rfl, hp⟩
  | LiteralString => exact ⟨rfl, hp⟩
  | Text => exact ⟨rfl, hp⟩
  | other n => exact ⟨rfl, hp⟩

/-- From the unknown state the token loop adds at most one dependency for each
`NameClass` token after the first keyword `import`. -/
theorem foldl_length_after (ts : List chroma.Token) :
    ∀ p : ParserSwift, p.State = StateSwift.StateSwiftUnknown →
      (ts.foldl processToken p).Output.length
        ≤ p.Output.length + (namesAfterImport ts).length := by
  induction ts with
  | nil => intro p _; simp [namesAfterImport]
  | cons t rest ih =>
    intro p hp
    by_cases ht : (t.Kind == chroma.TokenType.KeywordDeclaration && t.Value == "import") = true
    · have h := foldl_length (t :: rest) p
      have hn : namesAfterImport (t :: rest)
          = (t :: rest).filter (fun t => t.Kind == chroma.TokenType.NameClass) := by
        unfold namesAfterImport
        rw [List.dropWhile_cons, ht]
        rfl
      rw [hn]
      exact h
    · have hf : (t.Kind == chroma.TokenType.KeywordDeclaration && t.Value == "import") = false := by
        simpa using ht
      have h := processToken_stays_unknown p t hf hp
      have hn : namesAfterImport (t :: rest) = namesAfterImport rest := by
        unfold namesAfterImport
        rw [List.dropWhile_cons, hf]
        rfl
      rw [List.foldl_cons, hn]
      have := ih (p.processToken t) h.2
      rw [h.1] at this
      exact this

end ParserSwift

end deps

namespace deps

namespace ParserSwift

/-- C37: whatever the parser held before and whatever the file gives, no
element of the dependency list `Parse` returns equals `foundation` under
case-insensitive comparison, and every element is free of leading and trailing
white space. -/
theorem Parse_not_foundation_trimmed (quote : String → String) (p : ParserSwift)
    (filepath : String) (file : Except String Content) :
    ∀ d ∈ (Parse quote p filepath file).2.1,
      strings.EqualFold d "foundation" = false ∧ strings.isTrimmed d = true := by
  cases file with
  | error err => intro d hd; simp [Parse] at hd
  | ok content =>
    cases content with
    | readFails err => intro d hd; simp [Parse] at hd
    | tokeniseFails err => intro d hd; simp [Parse] at hd
    | tokens ts =>
      show ∀ d ∈ (ts.foldl processToken p.init).Output, _
      refine foldl_mem
        (fun d => strings.EqualFold d "foundation" = false ∧ strings.isTrimmed d = true)
        (fun d h1 h2 => ⟨by rw [← swiftExcludeRegex_spec]; exact h1, h2⟩) ts p.init ?_
      intro d hd
      simp [init] at hd

/-- C37 on a file that imports `Foundation` and `UIKit`: the list is `UIKit`
alone. -/
theorem Parse_not_foundation_trimmed_witness :
    (Parse sampleEnv.quote fresh "main.swift"
        (Except.ok (Content.tokens sampleSwiftFile))).2.1 = ["UIKit"]
    ∧ strings.EqualFold "UIKit" "foundation" = false ∧ strings.isTrimmed "UIKit" = true :=
  ⟨by decide, Parse_not_foundation_trimmed sampleEnv.quote fresh "main.swift"
    (Except.ok (Content.tokens sampleSwiftFile)) "UIKit" (by decide)⟩

/-- C38 fails as stated: the line `import UIKit.UIView` holds one keyword
`import` and gives the two dependencies `UIKit` and `UIView`. -/
theorem Parse_length_le_names_counterexample :
    (Parse sampleEnv.quote fresh "main.swift"
        (Except.ok (Content.tokens sampleSwiftSubmodule))).2 = (["UIKit", "UIView"], none)
    ∧ (importKeywords sampleSwiftSubmodule).length = 1
    ∧ ¬ ((Parse sampleEnv.quote fresh "main.swift"
          (Except.ok (Content.tokens sampleSwiftSubmodule))).2.1.length
        ≤ (importKeywords sampleSwiftSubmodule).length) := by
  decide

/-- C38, amended: each `NameClass` token after the first keyword `import`
contributes at most one dependency and no other token contributes any; the
length of the list `Parse` returns is at most the number of `NameClass` tokens
that come after the first `KeywordDeclaration` token with the value `import`. -/
theorem Parse_length_le_names (quote : String → String) (p : ParserSwift)
    (filepath : String) (ts : List chroma.Token) :
    (Parse quote p filepath (Except.ok (Content.tokens ts))).2.1.length
      ≤ (namesAfterImport ts).length := by
  show (ts.foldl processToken p.init).Output.length ≤ _
  have h := foldl_length_after ts p.init rfl
  simpa [init] using h

/-- C39: a call of `Parse` that opens its file starts from the unknown state
with no output, whatever the parser held: it returns what a parser that was
never used returns, and it leaves the parser in the unknown state with no
output. Parsing `b` after `a` returns the list of parsing `b` alone, and after
any sequence of calls from a parser that was never used, calls that fail to
open their file included, the parser is in the unknown state with no output. -/
theorem Parse_depends_on_tokens (quote : String → String) :
    (∀ (fa fb : String) (a b : List chroma.Token),
      (Parse quote (Parse quote fresh fa (Except.ok (Content.tokens a))).1 fb
          (Except.ok (Content.tokens b))).2
        = (Parse quote fresh fb (Except.ok (Content.tokens b))).2)
    ∧ (∀ (p : ParserSwift) (filepath : String) (content : Content),
      Parse quote p filepath (Except.ok content)
        = (⟨StateSwift.StateSwiftUnknown, []⟩,
            (Parse quote fresh filepath (Except.ok content)).2))
    ∧ (∀ files : List (String × Except String Content),
      files.foldl (fun q f => (Parse quote q f.1 f.2).1) fresh
        = ⟨StateSwift.StateSwiftUnknown, []⟩) := by
  refine ⟨fun fa fb a b => rfl, fun p filepath content => ?_, fun files => ?_⟩
  · cases content <;> rfl
  · induction files with
    | nil => rfl
    | cons f rest ih =>
      rw [List.foldl_cons]
      have hstep : (Parse quote fresh f.1 f.2).1 = fresh := by
        obtain ⟨name, file⟩ := f
        cases file with
        | error err => rfl
        | ok content => cases content <;> rfl
      rw [hstep]
      exact ih

end ParserSwift

end deps

end Wakatime
